import Mathlib

/-!
# Dex order-matching module: block coordinator, per-contract coordinator and per-pair executor

Shallow embedding of `x/dex/module.go` (`AppModule.EndBlock`) and of
`x/dex/contract/execution.go` (`CallPreExecutionHooks`, `ExecutePair`,
`MoveTriggeredOrderForPair`, `UpdateTriggeredOrderForPair`, `GetOrderIDToSettledQuantities`,
`ExecutePairsInParallel`, `HandleExecutionForContract`).

Conventions of the embedding.

* A Go `map[string]V` and a `sync.Map` are association lists with one entry per key.
  The order in which Go visits a map is unspecified, so every `range` over a map and the
  completion order of the parallel runner are taken from a `Schedule`, which may pick
  any permutation.
* The tasks of the parallel runner are run one after another, in the order the schedule
  picks; interleavings inside a task are not modelled. The pair tasks of
  `ExecutePairsInParallel` likewise take effect one after another, in the order in which
  they finish, which a `PairSchedule` picks.
* Functions of other packages (keeper hooks, the matching engine) are fields of an
  environment record: they receive the state they may touch and return the new state.
* A Go panic is an explicit result; `recover` is a case distinction on it. A deferred
  `recover` stops a panic of its own goroutine only; `PanicSite` records the goroutine on
  which `HandleExecutionForContract` of `execution.go` panics.
* `types.NewMatchResult` is not among the sources; it is modelled from the specification
  as a sort in place of the slices it is given.
* `calls` in `IterState` and `ops` in `PairRun` are ghost logs of the hook invocations and
  of the steps of a contract run, used to state what ran; they do not influence the
  computation.
* `module.go` calls `HandleExecutionForContract` with another signature than the one
  `execution.go` defines, so for `EndBlock` it is a field of the environment, and the
  function of `execution.go` is embedded on its own.
-/

namespace Dex

/-! ## Go maps as association lists -/

section GoMap

variable {V : Type}

/-- Assignment `m[k] = v` (also `sync.Map.Store`): replaces the entry of `k`, or adds one. -/
def mapStore : List (String × V) → String → V → List (String × V)
  | [], k, v => [(k, v)]
  | (k0, v0) :: rest, k, v =>
    if k0 = k then (k, v) :: rest else (k0, v0) :: mapStore rest k v

/-- Lookup with presence flag (`v, ok := m[k]`, also `sync.Map.Load`). -/
def mapLoad : List (String × V) → String → Option V
  | [], _ => none
  | (k0, v0) :: rest, k => if k0 = k then some v0 else mapLoad rest k

/-- Builtin `delete(m, k)`. -/
def mapDelete (m : List (String × V)) (k : String) : List (String × V) :=
  m.filter (fun p => decide (p.1 ≠ k))

/-- Keys of a map. -/
def mapKeys (m : List (String × V)) : List String :=
  m.map Prod.fst

end GoMap

/-! ## Data of the block coordinator -/

/-- Contract registration record `types.ContractInfo`, with the fields `EndBlock` reads. -/
structure ContractInfo where
  ContractAddr : String
  NeedHook : Bool
  NeedOrderMatching : Bool
deriving DecidableEq, Repr

/-- Zero value of `types.ContractInfo`, the result of indexing a map at an absent key. -/
def ContractInfo.zero : ContractInfo :=
  { ContractAddr := "", NeedHook := false, NeedOrderMatching := false }

/-- Index expression `validContractAddresses[contractAddr]`. -/
def mapIndex (m : List (String × ContractInfo)) (k : String) : ContractInfo :=
  (mapLoad m k).getD ContractInfo.zero

/-- How a call into another package ends: normally, with an error value, or by a panic. -/
inductive Status where
  | ok
  | err
  | panic
deriving DecidableEq, Repr

/-- The four hook call sites of one `EndBlock` iteration. -/
inductive Site where
  | deposit
  | execution
  | settlements
  | finalize
deriving DecidableEq, Repr

/-- Ghost record of one hook invocation. -/
structure Call where
  site : Site
  contractAddr : String
  status : Status
deriving DecidableEq, Repr

/-- State the hooks act on: the store behind the context they are given and the keeper's
in-memory block state `am.keeper.MemState`. -/
structure World (S M : Type) where
  store : S
  mem : M
deriving DecidableEq, Repr

/-- Result of `contract.HandleExecutionForContract` as called from `EndBlock`:
`(orderResultsMap, settlements, nil)`, an error, or a panic raised on the goroutine of the
caller. -/
inductive ExecResult (S M R E : Type) where
  | ok (orderResultsMap : List (String × R)) (settlements : List E) (w : World S M)
  | err (w : World S M)
  | panic (w : World S M)

/-- Status of an `ExecResult`. -/
def ExecResult.status {S M R E : Type} : ExecResult S M R E → Status
  | .ok _ _ _ => Status.ok
  | .err _ => Status.err
  | .panic _ => Status.panic

/-- Code of other packages that `EndBlock` calls. `S` is the store, `M` the in-memory
block state, `R` a contract order result, `E` a settlement entry. -/
structure Env (S M R E : Type) where
  HandleEBDeposit : String → World S M → Status × World S M
  HandleExecutionForContract : ContractInfo → World S M → ExecResult S M R E
  HandleSettlements : String → List E → World S M → Status × World S M
  CallContractSudo : String → List R → World S M → Status × World S M
  DeepFilterAccount : String → M → M

/-- Visiting orders that Go leaves unspecified: `range` over `validContractAddresses`,
the order in which the tasks of the parallel runner take effect, and `Range` over the two
`sync.Map`s. Each is some permutation of the entries. -/
structure Schedule (R E : Type) where
  rangeValid : List (String × ContractInfo) → List (String × ContractInfo)
  rangeValid_perm : ∀ m, (rangeValid m).Perm m
  run : List ContractInfo → List ContractInfo
  run_perm : ∀ l, (run l).Perm l
  rangeSettlements : List (String × List E) → List (String × List E)
  rangeSettlements_perm : ∀ m, (rangeSettlements m).Perm m
  rangeFinalize : List (String × List R) → List (String × List R)
  rangeFinalize_perm : ∀ m, (rangeFinalize m).Perm m

/-- Control flow of a statement sequence: it runs to its end, or a panic leaves it. -/
inductive Flow (α : Type) where
  | cont (a : α)
  | panicked (a : α)

/-- State carried by a flow, however it ended. -/
def Flow.val {α : Type} : Flow α → α
  | .cont a => a
  | .panicked a => a

/-- Whether a flow ended by a panic. -/
def Flow.isPanicked {α : Type} : Flow α → Bool
  | .cont _ => false
  | .panicked _ => true

/-- A `for` loop whose body may panic: the first panic leaves the loop. -/
def forEach {α β : Type} (body : β → α → Flow α) : List β → α → Flow α
  | [], a => Flow.cont a
  | b :: bs, a =>
    match body b a with
    | Flow.cont a1 => forEach body bs a1
    | Flow.panicked a1 => Flow.panicked a1

/-- Method `SyncSet.Add`: idempotent insertion. -/
def syncSetAdd (s : List String) (a : String) : List String :=
  if a ∈ s then s else s ++ [a]

/-- Insertion of one string into an ascending list; strings are compared character by
character, as Go compares them byte by byte. -/
def orderedInsert (a : String) : List String → List String
  | [] => [a]
  | b :: bs => if a.data < b.data then a :: b :: bs else b :: orderedInsert a bs

/-- Modelled from the spec: `SyncSet.ToOrderedSlice(StringComparator)`, which is not in the
sources shown; the spec calls it sorted iteration over the failed contracts. The elements
of the set in ascending string order. -/
def ToOrderedSlice (s : List String) : List String :=
  s.foldr orderedInsert []

/-- Local state of one iteration of the `EndBlock` loop. -/
structure IterState (S M R E : Type) where
  world : World S M
  failed : List String
  finalizeBlockMessages : List (String × List R)
  settlementsByContract : List (String × List E)
  calls : List Call

section EndBlock

variable {S M R E : Type}

/-- State at the head of an iteration, lines 289-298: empty failed set, the cached context
over the branched store, and one empty finalize message and one empty settlement list per
remaining contract. -/
def iterInit (sched : Schedule R E) (valid : List (String × ContractInfo))
    (w : World S M) : IterState S M R E :=
  { world := w
    failed := []
    finalizeBlockMessages :=
      (sched.rangeValid valid).foldl (fun m p => mapStore m p.1 ([] : List R)) []
    settlementsByContract :=
      (sched.rangeValid valid).foldl (fun m p => mapStore m p.1 ([] : List E)) []
    calls := [] }

/-- Slice `validContractsInfo`, lines 300-303. -/
def validContractsInfo (sched : Schedule R E) (valid : List (String × ContractInfo)) :
    List ContractInfo :=
  (sched.rangeValid valid).map Prod.snd

/-- Body of the deposit loop, lines 306-310. A panic of the hook is not recovered here. -/
def depositBody (env : Env S M R E) (contractAddr : String) (st : IterState S M R E) :
    Flow (IterState S M R E) :=
  match env.HandleEBDeposit contractAddr st.world with
  | (Status.ok, w) =>
    Flow.cont { st with world := w, calls := st.calls ++ [⟨Site.deposit, contractAddr, Status.ok⟩] }
  | (Status.err, w) =>
    Flow.cont { st with
      world := w
      failed := syncSetAdd st.failed contractAddr
      calls := st.calls ++ [⟨Site.deposit, contractAddr, Status.err⟩] }
  | (Status.panic, w) =>
    Flow.panicked { st with
      world := w, calls := st.calls ++ [⟨Site.deposit, contractAddr, Status.panic⟩] }

/-- Lines 338-346: every order result whose account has a finalize message is appended
to that message. -/
def addContractResults (msgs : List (String × List R)) (orderResultsMap : List (String × R)) :
    List (String × List R) :=
  orderResultsMap.foldl
    (fun m p =>
      match mapLoad m p.1 with
      | some typedMsg => mapStore m p.1 (typedMsg ++ [p.2])
      | none => m)
    msgs

/-- Closure `runnable`, lines 313-349, with its deferred `recover`: a panic of the
execution is caught and the contract joins the failed set. -/
def runnable (env : Env S M R E) (contractInfo : ContractInfo) (st : IterState S M R E) :
    IterState S M R E :=
  if !contractInfo.NeedOrderMatching then st
  else
    match env.HandleExecutionForContract contractInfo st.world with
    | ExecResult.panic w =>
      { st with
        world := w
        failed := syncSetAdd st.failed contractInfo.ContractAddr
        calls := st.calls ++ [⟨Site.execution, contractInfo.ContractAddr, Status.panic⟩] }
    | ExecResult.err w =>
      { st with
        world := w
        failed := syncSetAdd st.failed contractInfo.ContractAddr
        calls := st.calls ++ [⟨Site.execution, contractInfo.ContractAddr, Status.err⟩] }
    | ExecResult.ok orderResultsMap settlements w =>
      { st with
        world := w
        finalizeBlockMessages := addContractResults st.finalizeBlockMessages orderResultsMap
        settlementsByContract :=
          mapStore st.settlementsByContract contractInfo.ContractAddr settlements
        calls := st.calls ++ [⟨Site.execution, contractInfo.ContractAddr, Status.ok⟩] }

/-- Modelled from the spec: `contract.NewParallelRunner(runnable, infos).Run()`, which is not
in the sources shown; the spec describes structured concurrency in which the parent awaits
all children. Every task runs, in the order the schedule picks. -/
def runParallel (env : Env S M R E) (sched : Schedule R E) (infos : List ContractInfo)
    (st : IterState S M R E) : IterState S M R E :=
  (sched.run infos).foldl (fun s contractInfo => runnable env contractInfo s) st

/-- Callback of `settlementsByContract.Range`, lines 354-365. -/
def settlementsBody (env : Env S M R E) (valid : List (String × ContractInfo))
    (entry : String × List E) (st : IterState S M R E) : Flow (IterState S M R E) :=
  if !(mapIndex valid entry.1).NeedOrderMatching then Flow.cont st
  else
    match env.HandleSettlements entry.1 entry.2 st.world with
    | (Status.ok, w) =>
      Flow.cont { st with
        world := w, calls := st.calls ++ [⟨Site.settlements, entry.1, Status.ok⟩] }
    | (Status.err, w) =>
      Flow.cont { st with
        world := w
        failed := syncSetAdd st.failed entry.1
        calls := st.calls ++ [⟨Site.settlements, entry.1, Status.err⟩] }
    | (Status.panic, w) =>
      Flow.panicked { st with
        world := w, calls := st.calls ++ [⟨Site.settlements, entry.1, Status.panic⟩] }

/-- Callback of `finalizeBlockMessages.Range`, lines 367-378. -/
def finalizeBody (env : Env S M R E) (valid : List (String × ContractInfo))
    (entry : String × List R) (st : IterState S M R E) : Flow (IterState S M R E) :=
  if !(mapIndex valid entry.1).NeedHook then Flow.cont st
  else
    match env.CallContractSudo entry.1 entry.2 st.world with
    | (Status.ok, w) =>
      Flow.cont { st with
        world := w, calls := st.calls ++ [⟨Site.finalize, entry.1, Status.ok⟩] }
    | (Status.err, w) =>
      Flow.cont { st with
        world := w
        failed := syncSetAdd st.failed entry.1
        calls := st.calls ++ [⟨Site.finalize, entry.1, Status.err⟩] }
    | (Status.panic, w) =>
      Flow.panicked { st with
        world := w, calls := st.calls ++ [⟨Site.finalize, entry.1, Status.panic⟩] }

/-- Deposit loop, lines 306-310. -/
def depositPhase (env : Env S M R E) (sched : Schedule R E)
    (valid : List (String × ContractInfo)) (st : IterState S M R E) :
    Flow (IterState S M R E) :=
  forEach (depositBody env) (mapKeys (sched.rangeValid valid)) st

/-- Parallel matching, lines 351-352. -/
def matchPhase (env : Env S M R E) (sched : Schedule R E)
    (valid : List (String × ContractInfo)) (st : IterState S M R E) : IterState S M R E :=
  runParallel env sched (validContractsInfo sched valid) st

/-- Settlement hooks, lines 354-365. -/
def settlementsPhase (env : Env S M R E) (sched : Schedule R E)
    (valid : List (String × ContractInfo)) (st : IterState S M R E) :
    Flow (IterState S M R E) :=
  forEach (settlementsBody env valid) (sched.rangeSettlements st.settlementsByContract) st

/-- Finalize hooks, lines 367-378. -/
def finalizePhase (env : Env S M R E) (sched : Schedule R E)
    (valid : List (String × ContractInfo)) (st : IterState S M R E) :
    Flow (IterState S M R E) :=
  forEach (finalizeBody env valid) (sched.rangeFinalize st.finalizeBlockMessages) st

/-- Lines 289-378 of one iteration: everything before the test of the failed set. -/
def iterationHooks (env : Env S M R E) (sched : Schedule R E)
    (valid : List (String × ContractInfo)) (w : World S M) : Flow (IterState S M R E) :=
  match depositPhase env sched valid (iterInit sched valid w) with
  | Flow.panicked st => Flow.panicked st
  | Flow.cont st1 =>
    match settlementsPhase env sched valid (matchPhase env sched valid st1) with
    | Flow.panicked st => Flow.panicked st
    | Flow.cont st3 => finalizePhase env sched valid st3

/-- Rollback, lines 386-392: the in-memory state is restored from the copy, then for every
failed contract in ascending order its entries are filtered out and it is deleted from
`validContractAddresses`. -/
def rollback (env : Env S M R E) (memStateCopy : M) (valid : List (String × ContractInfo))
    (failed : List String) : M × List (String × ContractInfo) :=
  (ToOrderedSlice failed).foldl
    (fun acc failedContractAddress =>
      (env.DeepFilterAccount failedContractAddress acc.1, mapDelete acc.2 failedContractAddress))
    (memStateCopy, valid)

/-- How `EndBlock` left its loop. -/
inductive Exit where
  | committed
  | allFailed
  | noneLeft
  | panicked
deriving DecidableEq, Repr

/-- Ghost record of one iteration: the remaining contracts, the in-memory snapshot and the
store of `ctx` at its head, the state after the hooks, whether a panic ended it, and the
store of `ctx`, the in-memory state and the remaining contracts it left behind. -/
structure IterRecord (S M R E : Type) where
  remaining : List (String × ContractInfo)
  snapshot : M
  storeBefore : S
  hooks : IterState S M R E
  panicked : Bool
  storeAfter : S
  memAfter : M
  remainingAfter : List (String × ContractInfo)

/-- What `EndBlock` leaves behind: the committed store of `ctx`, the in-memory state,
the remaining contracts, the kind of exit and the ghost log of iterations. -/
structure EndBlockResult (S M R E : Type) where
  store : S
  mem : M
  remaining : List (String × ContractInfo)
  exit : Exit
  log : List (IterRecord S M R E)

/-- Modelled from the spec: `MemState.DeepCopy`, which is not in the sources shown; the spec
says it yields an independent snapshot. States are values here, so the snapshot is the
state itself. -/
def DeepCopy (mem : M) : M :=
  mem

/-- Record of an iteration that a panic ended: nothing is committed or rolled back. -/
def panicRecord (ctxStore : S) (mem : M) (valid : List (String × ContractInfo))
    (st : IterState S M R E) : IterRecord S M R E :=
  { remaining := valid, snapshot := mem, storeBefore := ctxStore, hooks := st, panicked := true
    storeAfter := ctxStore, memAfter := st.world.mem, remainingAfter := valid }

/-- Record of an iteration that ended in `msCached.Write()`. -/
def commitRecord (ctxStore : S) (mem : M) (valid : List (String × ContractInfo))
    (st : IterState S M R E) : IterRecord S M R E :=
  { remaining := valid, snapshot := mem, storeBefore := ctxStore, hooks := st, panicked := false
    storeAfter := st.world.store, memAfter := st.world.mem, remainingAfter := valid }

/-- Record of an iteration that ended in the rollback. -/
def rollbackRecord (env : Env S M R E) (ctxStore : S) (mem : M)
    (valid : List (String × ContractInfo)) (st : IterState S M R E) : IterRecord S M R E :=
  { remaining := valid, snapshot := mem, storeBefore := ctxStore, hooks := st, panicked := false
    storeAfter := ctxStore
    memAfter := (rollback env mem valid st.failed).1
    remainingAfter := (rollback env mem valid st.failed).2 }

/-- Loop of `EndBlock`, lines 288-399. `ctxStore` is the store of `ctx`, which only
`msCached.Write()` changes; every iteration branches it anew. The first argument bounds
the number of iterations; `none` means the bound was reached. -/
def EndBlockLoop (env : Env S M R E) (sched : Schedule R E) :
    Nat → S → M → List (String × ContractInfo) → Int → List (IterRecord S M R E) →
    Option (EndBlockResult S M R E)
  | 0, ctxStore, mem, valid, _, log =>
    if valid.length > 0 then none
    else some { store := ctxStore, mem := mem, remaining := valid, exit := Exit.noneLeft, log := log }
  | fuel + 1, ctxStore, mem, valid, iterCounter, log =>
    if valid.length > 0 then
      let memStateCopy := DeepCopy mem
      match iterationHooks env sched valid { store := ctxStore, mem := mem } with
      | Flow.panicked st =>
        some { store := ctxStore, mem := st.world.mem, remaining := valid, exit := Exit.panicked
               log := log ++ [panicRecord ctxStore memStateCopy valid st] }
      | Flow.cont st =>
        if st.failed.length = 0 then
          some { store := st.world.store, mem := st.world.mem, remaining := valid
                 exit := Exit.committed
                 log := log ++ [commitRecord ctxStore memStateCopy valid st] }
        else
          let mem1 := (rollback env memStateCopy valid st.failed).1
          let valid1 := (rollback env memStateCopy valid st.failed).2
          let log1 := log ++ [rollbackRecord env ctxStore memStateCopy valid st]
          let iterCounter1 := iterCounter - 1
          if iterCounter1 = 0 then
            some { store := ctxStore, mem := mem1, remaining := valid1, exit := Exit.allFailed
                   log := log1 }
          else EndBlockLoop env sched fuel ctxStore mem1 valid1 iterCounter1 log1
    else some { store := ctxStore, mem := mem, remaining := valid, exit := Exit.noneLeft, log := log }

/-- Map `validContractAddresses`, lines 279-282, built from `getAllContractInfo`. -/
def validContractAddresses (contracts : List ContractInfo) : List (String × ContractInfo) :=
  contracts.foldl (fun m contractInfo => mapStore m contractInfo.ContractAddr contractInfo) []

/-- Method `AppModule.EndBlock`, lines 263-402, on the contracts registered in the keeper
and the state at entry. -/
def EndBlock (env : Env S M R E) (sched : Schedule R E) (fuel : Nat)
    (contracts : List ContractInfo) (w : World S M) : Option (EndBlockResult S M R E) :=
  let valid := validContractAddresses contracts
  let iterCounter : Int := valid.length
  EndBlockLoop env sched fuel w.store w.mem valid iterCounter []

end EndBlock

/-! ## Specification predicates of the block coordinator -/

section Specs

variable {S M R E : Type}

/-- Representation invariant of `validContractAddresses`: one entry per key, and every
entry is stored under the address of its own contract (line 281). -/
def ValidMap (valid : List (String × ContractInfo)) : Prop :=
  (mapKeys valid).Nodup ∧ ∀ p ∈ valid, p.2.ContractAddr = p.1

/-- A logged hook invocation agrees with the guards of the loop: it is for a remaining
contract, execution and settlement handling only with `NeedOrderMatching`, the
finalize call only with `NeedHook`. -/
def CallOK (valid : List (String × ContractInfo)) (c : Call) : Prop :=
  c.contractAddr ∈ mapKeys valid ∧
  ((c.site = Site.execution ∨ c.site = Site.settlements) →
    (mapIndex valid c.contractAddr).NeedOrderMatching = true) ∧
  (c.site = Site.finalize → (mapIndex valid c.contractAddr).NeedHook = true)

/-- Invariant of the state of one iteration. -/
def IterInv (valid : List (String × ContractInfo)) (st : IterState S M R E) : Prop :=
  (∀ k ∈ mapKeys st.settlementsByContract, k ∈ mapKeys valid) ∧
  (∀ k ∈ mapKeys st.finalizeBlockMessages, k ∈ mapKeys valid) ∧
  (∀ c ∈ st.calls, CallOK valid c) ∧
  (∀ a ∈ st.failed, ∃ c ∈ st.calls, c.contractAddr = a ∧ c.status ≠ Status.ok)

/-- The failed set and the call log of `st1` extend those of `st`. -/
def Grows (st st1 : IterState S M R E) : Prop :=
  (∀ a ∈ st.failed, a ∈ st1.failed) ∧ (∀ c ∈ st.calls, c ∈ st1.calls)

end Specs

/-! ## Data of the per-pair executor (`x/dex/contract/execution.go`) -/

/-- Fixed-point decimal `sdk.Dec`, as the integer it stores; `LTE`, `GTE` and `Add` are the
comparisons and the sum of these integers. -/
abbrev Dec := Int

/-- Enumeration `types.PositionDirection`. -/
inductive PositionDirection where
  | LONG
  | SHORT
deriving DecidableEq, Repr

/-- Enumeration `types.OrderType`, with the order types the spec lists. -/
inductive OrderType where
  | LIMIT
  | MARKET
  | STOPLOSS
  | STOPLIMIT
deriving DecidableEq, Repr

/-- Message `types.Order`, with the fields the spec lists. -/
structure Order where
  Id : Nat
  Account : String
  PositionDirection : PositionDirection
  OrderType : OrderType
  Price : Dec
  Quantity : Dec
  TriggerPrice : Dec
  TriggerStatus : Bool
deriving DecidableEq, Repr

/-- Message `types.Cancellation`. -/
structure Cancellation where
  Id : Nat
  Price : Dec
  PositionDirection : PositionDirection
deriving DecidableEq, Repr

/-- Message `types.SettlementEntry`. -/
structure SettlementEntry where
  OrderId : Nat
  Account : String
  Price : Dec
  Quantity : Dec
deriving DecidableEq, Repr

/-- Result `exchange.ExecutionOutcome` of a matching step. -/
structure ExecutionOutcome where
  Settlements : List SettlementEntry
  MinPrice : Dec
  MaxPrice : Dec
deriving DecidableEq, Repr

/-- Modelled from the spec: `ExecutionOutcome.Merge`, which is not in the sources shown;
the spec says it concatenates the settlements and takes the minimum and the maximum of the
bounds. -/
def ExecutionOutcome.Merge (o other : ExecutionOutcome) : ExecutionOutcome :=
  { Settlements := o.Settlements ++ other.Settlements
    MinPrice := min o.MinPrice other.MinPrice
    MaxPrice := max o.MaxPrice other.MaxPrice }

/-- The two ladders of `types.OrderBook`; `B` is the type of one ladder. -/
structure OrderBook (B : Type) where
  Longs : B
  Shorts : B
deriving DecidableEq, Repr

/-- State one pair run of a contract acts on: the persistent trigger storage of the
(contract, pair), listed as `GetAllTriggeredOrdersForPair` returns it; the block orders and
block cancels of the in-memory state; the order book of the pair; and the rest of the
keeper's store `K`. -/
structure PairState (B K : Type) where
  triggered : List Order
  blockOrders : List Order
  blockCancels : List Cancellation
  orderbook : OrderBook B
  keeper : K
deriving DecidableEq, Repr

/-- Modelled from the spec: `Keeper.SetTriggeredOrder`, which is not in the sources shown;
the spec gives the layout `triggered_order[contract][price_denom][asset_denom][order_id]`,
so the order replaces the entry stored under its id, or becomes a new entry. -/
def SetTriggeredOrder : List Order → Order → List Order
  | [], order => [order]
  | o :: rest, order =>
    if o.Id = order.Id then order :: rest else o :: SetTriggeredOrder rest order

/-- Modelled from the spec: `Keeper.RemoveTriggeredOrder`, which is not in the sources
shown; it deletes the entry stored under the order id. -/
def RemoveTriggeredOrder (store : List Order) (id : Nat) : List Order :=
  store.filter (fun o => decide (o.Id ≠ id))

/-- Modelled from the spec: `Keeper.GetAllTriggeredOrdersForPair`, which is not in the
sources shown; it reads every order of the trigger storage of the (contract, pair). -/
def GetAllTriggeredOrdersForPair (store : List Order) : List Order :=
  store

/-- Modelled from the spec: `BlockOrders.Add`, which is not in the sources shown; the spec
says a promoted order is injected into the block orders. The order is appended. -/
def BlockOrdersAdd (orders : List Order) (newItem : Order) : List Order :=
  orders ++ [newItem]

/-- Entry of the trigger storage stored under an order id, if there is one. -/
def GetTriggeredOrder : List Order → Nat → Option Order
  | [], _ => none
  | o :: rest, id => if o.Id = id then some o else GetTriggeredOrder rest id

/-- Code of other packages that the pair run calls: the matching engine, the price-state
write, and the selectors of `BlockOrders`. Each effectful function receives the state and
returns the new one. `GetTriggeredOrders` tells which block orders form the in-memory
triggered-order cache. -/
structure ExchangeEnv (B K : Type) where
  CancelOrders : List Cancellation → PairState B K → PairState B K
  AddOutstandingLimitOrdersToOrderbook :
    List Order → List Order → PairState B K → PairState B K
  MatchMarketOrders :
    List Order → B → PositionDirection → PairState B K → ExecutionOutcome × PairState B K
  MatchLimitOrders : PairState B K → ExecutionOutcome × PairState B K
  SetPriceStateFromExecutionOutcome : ExecutionOutcome → PairState B K → PairState B K
  GetLimitOrders : PositionDirection → List Order → List Order
  GetSortedMarketOrders : PositionDirection → List Order → List Order
  GetTriggeredOrders : Order → Bool

section PairRun

variable {B K : Type}

/-- Function `cancelForPair`, lines 75-83. -/
def cancelForPair (env : ExchangeEnv B K) (st : PairState B K) : PairState B K :=
  env.CancelOrders st.blockCancels st

/-- Function `matchMarketOrderForPair`, lines 85-109. Both sorted lists are taken before
the first match; the sells are matched against the book as the buys left it. -/
def matchMarketOrderForPair (env : ExchangeEnv B K) (st : PairState B K) :
    ExecutionOutcome × PairState B K :=
  let orders := st.blockOrders
  let marketBuys := env.GetSortedMarketOrders PositionDirection.LONG orders
  let marketSells := env.GetSortedMarketOrders PositionDirection.SHORT orders
  let buy := env.MatchMarketOrders marketBuys st.orderbook.Shorts PositionDirection.LONG st
  let sell :=
    env.MatchMarketOrders marketSells buy.2.orderbook.Longs PositionDirection.SHORT buy.2
  (buy.1.Merge sell.1, sell.2)

/-- Order type after the promotion of lines 121-125. -/
def promote (order : Order) : Order :=
  if order.OrderType = OrderType.STOPLOSS then { order with OrderType := OrderType.MARKET }
  else if order.OrderType = OrderType.STOPLIMIT then { order with OrderType := OrderType.LIMIT }
  else order

/-- Function `MoveTriggeredOrderForPair`, lines 111-130: every stored order whose trigger
status is set is promoted, added to the block orders and removed from the storage. -/
def MoveTriggeredOrderForPair (st : PairState B K) : PairState B K :=
  let triggeredOrders := GetAllTriggeredOrdersForPair st.triggered
  triggeredOrders.foldl
    (fun s order =>
      if order.TriggerStatus then
        { s with
          blockOrders := BlockOrdersAdd s.blockOrders (promote order)
          triggered := RemoveTriggeredOrder s.triggered order.Id }
      else s)
    st

/-- Body of the first loop of `UpdateTriggeredOrderForPair`, lines 143-149. -/
def updateStored (totalOutcome : ExecutionOutcome) (store : List Order) (order : Order) :
    List Order :=
  if order.PositionDirection = PositionDirection.LONG ∧
      order.TriggerPrice ≤ totalOutcome.MaxPrice then
    SetTriggeredOrder store { order with TriggerStatus := true }
  else if order.PositionDirection = PositionDirection.SHORT ∧
      order.TriggerPrice ≥ totalOutcome.MinPrice then
    SetTriggeredOrder store { order with TriggerStatus := true }
  else store

/-- Update of one cache order in the second loop, lines 156-160. -/
def updateCached (totalOutcome : ExecutionOutcome) (order : Order) : Order :=
  if order.PositionDirection = PositionDirection.LONG ∧
      order.TriggerPrice ≤ totalOutcome.MaxPrice then
    { order with TriggerStatus := true }
  else if order.PositionDirection = PositionDirection.SHORT ∧
      order.TriggerPrice ≥ totalOutcome.MinPrice then
    { order with TriggerStatus := true }
  else order

/-- Function `UpdateTriggeredOrderForPair`, lines 132-163. The first loop runs over the
orders read from the storage at its start; the second loop updates the cache orders in
place (they are pointers into the block orders) and stores each of them. -/
def UpdateTriggeredOrderForPair (env : ExchangeEnv B K) (st : PairState B K)
    (totalOutcome : ExecutionOutcome) : PairState B K :=
  let triggeredOrders := GetAllTriggeredOrdersForPair st.triggered
  let store1 := triggeredOrders.foldl (updateStored totalOutcome) st.triggered
  let cacheTriggeredOrders := st.blockOrders.filter env.GetTriggeredOrders
  let store2 :=
    cacheTriggeredOrders.foldl
      (fun store order => SetTriggeredOrder store (updateCached totalOutcome order)) store1
  { st with
    triggered := store2
    blockOrders :=
      st.blockOrders.map
        (fun order => if env.GetTriggeredOrders order then updateCached totalOutcome order
          else order) }

/-- Function `ExecutePair`, lines 46-73. -/
def ExecutePair (env : ExchangeEnv B K) (st : PairState B K) :
    List SettlementEntry × PairState B K :=
  let st1 := cancelForPair env st
  let orders := st1.blockOrders
  let limitBuys := env.GetLimitOrders PositionDirection.LONG orders
  let limitSells := env.GetLimitOrders PositionDirection.SHORT orders
  let st2 := env.AddOutstandingLimitOrdersToOrderbook limitBuys limitSells st1
  let market := matchMarketOrderForPair env st2
  let marketOrderOutcome := market.1
  let limit := env.MatchLimitOrders market.2
  let limitOrderOutcome := limit.1
  let totalOutcome := marketOrderOutcome.Merge limitOrderOutcome
  let st5 := UpdateTriggeredOrderForPair env limit.2 totalOutcome
  let st6 := env.SetPriceStateFromExecutionOutcome totalOutcome st5
  (totalOutcome.Settlements, st6)

/-- The direction rule of lines 143 and 146: a LONG order whose trigger price is at most
the maximum price of the outcome, or a SHORT order whose trigger price is at least the
minimum price. -/
def Activates (totalOutcome : ExecutionOutcome) (order : Order) : Prop :=
  (order.PositionDirection = PositionDirection.LONG ∧
    order.TriggerPrice ≤ totalOutcome.MaxPrice) ∨
  (order.PositionDirection = PositionDirection.SHORT ∧
    order.TriggerPrice ≥ totalOutcome.MinPrice)

/-- The direction rule can be evaluated. -/
instance Activates.decidable (totalOutcome : ExecutionOutcome) (order : Order) :
    Decidable (Activates totalOutcome order) := by
  unfold Activates; infer_instance

end PairRun

/-! ## Settled quantities per order (`GetOrderIDToSettledQuantities`) -/

/-- Assignment `res[id] = v` on a Go `map[uint64]sdk.Dec`, kept as an association list with
one entry per key: replaces the entry of `id`, or adds one. -/
def settledStore : List (Nat × Dec) → Nat → Dec → List (Nat × Dec)
  | [], id, v => [(id, v)]
  | (k0, v0) :: rest, id, v =>
    if k0 = id then (id, v) :: rest else (k0, v0) :: settledStore rest id v

/-- Lookup with presence flag `v, ok := res[id]`. -/
def settledLoad : List (Nat × Dec) → Nat → Option Dec
  | [], _ => none
  | (k0, v0) :: rest, id => if k0 = id then some v0 else settledLoad rest id

/-- Body of the loop of `GetOrderIDToSettledQuantities`, lines 178-181: an absent id is
first set to `sdk.ZeroDec()`, then the quantity is added to the entry. The entry read on
line 181 is always present. -/
def addSettlement (res : List (Nat × Dec)) (settlement : SettlementEntry) :
    List (Nat × Dec) :=
  let res1 :=
    match settledLoad res settlement.OrderId with
    | some _ => res
    | none => settledStore res settlement.OrderId 0
  settledStore res1 settlement.OrderId
    ((settledLoad res1 settlement.OrderId).getD 0 + settlement.Quantity)

/-- Function `GetOrderIDToSettledQuantities`, lines 175-184. -/
def GetOrderIDToSettledQuantities (settlements : List SettlementEntry) : List (Nat × Dec) :=
  settlements.foldl addSettlement []

/-- Sum of the quantities of the entries of a settlement list that belong to one order. -/
def settledQuantity (settlements : List SettlementEntry) (id : Nat) : Dec :=
  ((settlements.filter (fun s => decide (s.OrderId = id))).map
    (fun s => s.Quantity)).sum

/-! ## Data of the per-contract coordinator (`ExecutePairsInParallel`) -/

/-- Message `types.Pair`, with the two denominations that identify it. -/
structure Pair where
  PriceDenom : String
  AssetDenom : String
deriving DecidableEq, Repr

/-- Modelled from the spec: `types.GetPairString`, which is not in the sources shown; the
spec says the canonical string encoding of a pair is used as a map key. -/
def GetPairString (pair : Pair) : String :=
  pair.PriceDenom ++ "|" ++ pair.AssetDenom

/-- Message `types.MatchResult` of a contract. -/
structure MatchResult where
  Orders : List Order
  Cancellations : List Cancellation
  Settlements : List SettlementEntry
deriving DecidableEq, Repr

/-- Lexicographic order on integer keys. -/
def keyLe : List Int → List Int → Bool
  | [], _ => true
  | _ :: _, [] => false
  | a :: as, b :: bs => if a < b then true else if b < a then false else keyLe as bs

/-- Key of a string: its characters as numbers. -/
def stringKey (s : String) : List Int :=
  s.data.map (fun c => (c.toNat : Int))

/-- Number of a position direction in a sort key. -/
def directionCode : PositionDirection → Int
  | PositionDirection.LONG => 0
  | PositionDirection.SHORT => 1

/-- Number of an order type in a sort key. -/
def orderTypeCode : OrderType → Int
  | OrderType.LIMIT => 0
  | OrderType.MARKET => 1
  | OrderType.STOPLOSS => 2
  | OrderType.STOPLIMIT => 3

/-- Sort key of an order: its id first, then its other fields. -/
def Order.key (o : Order) : List Int :=
  [(o.Id : Int), directionCode o.PositionDirection, orderTypeCode o.OrderType, o.Price,
    o.Quantity, o.TriggerPrice, if o.TriggerStatus then 1 else 0] ++ stringKey o.Account

/-- Sort key of a cancellation: its id first, then its other fields. -/
def Cancellation.key (c : Cancellation) : List Int :=
  [(c.Id : Int), c.Price, directionCode c.PositionDirection]

/-- Sort key of a settlement entry: its order id first, then its other fields. -/
def SettlementEntry.key (s : SettlementEntry) : List Int :=
  [(s.OrderId : Int), s.Price, s.Quantity] ++ stringKey s.Account

/-- Sorting of a list by the keys of its entries. -/
def sortByKey {α : Type} (key : α → List Int) (l : List α) : List α :=
  l.insertionSort (fun a b => keyLe (key a) (key b) = true)

/-- Modelled from the spec: `types.NewMatchResult`, which is not in the sources shown. The
spec says that cross-pair merging is sorted, so that the committed state and the settlement
stream do not depend on the scheduler; it does not name the sort key. The three lists are
put in the order of the keys of their entries, id first. -/
def NewMatchResult (orders : List Order) (cancellations : List Cancellation)
    (settlements : List SettlementEntry) : MatchResult :=
  { Orders := sortByKey Order.key orders
    Cancellations := sortByKey Cancellation.key cancellations
    Settlements := sortByKey SettlementEntry.key settlements }

/-- What the keeper's store and the in-memory state hold for one pair of a contract:
a `PairState` without the order book. -/
structure PairSlice (K : Type) where
  triggered : List Order
  blockOrders : List Order
  blockCancels : List Cancellation
  keeper : K
deriving DecidableEq, Repr

/-- State one contract run acts on: the slice of every pair, by pair string; the map
`orderBooks` of the caller; and the match result stored for the contract. -/
structure ContractState (B K : Type) where
  slices : String → PairSlice K
  orderBooks : String → Option (OrderBook B)
  matchResult : Option MatchResult

/-- Result of a pre-execution hook: `nil`, an error, or a panic. -/
inductive HookResult (σ : Type) where
  | ok (st : σ)
  | err (e : String) (st : σ)
  | panic

/-- Code of other packages that the contract run calls: the matching engine, the
clean-up of unfulfilled market orders, and the two pre-execution hooks of the contract. -/
structure ContractEnv (B K : Type) where
  exchange : ExchangeEnv B K
  PrepareCancelUnfulfilledMarketOrders : List (Nat × Dec) → PairState B K → PairState B K
  HandleEBCancelOrders :
    String → List Pair → ContractState B K → HookResult (ContractState B K)
  HandleEBPlaceOrders :
    String → List Pair → ContractState B K → HookResult (ContractState B K)

/-- Order in which the pair tasks of `ExecutePairsInParallel` finish, which the Go
scheduler decides: some permutation of the registered pairs. -/
structure PairSchedule where
  finish : List Pair → List Pair
  finish_perm : ∀ l, (finish l).Perm l

/-- Ghost record of a step of a contract run. -/
inductive Op where
  | cancelHook
  | placeHook
  | pairRun (pairStr : String)
  | setMatchResult
deriving DecidableEq, Repr

/-- State of `ExecutePairsInParallel` while its tasks run: the contract state, the three
accumulators guarded by the mutex, and the ghost log of steps. -/
structure PairRun (B K : Type) where
  cs : ContractState B K
  orderResults : List Order
  cancelResults : List Cancellation
  settlements : List SettlementEntry
  ops : List Op

/-- Result of `HandleExecutionForContract`: the returned pair of settlements and error with
the state left behind and the ghost log, or a panic. -/
inductive ExecOutcome (B K : Type) where
  | returned (settlements : List SettlementEntry) (err : Option String)
      (cs : ContractState B K) (ops : List Op)
  | panicked

section ContractRun

variable {B K : Type}

/-- Pair state made of a slice and the order book loaded for the pair. -/
def PairSlice.withBook (s : PairSlice K) (orderbook : OrderBook B) : PairState B K :=
  { triggered := s.triggered, blockOrders := s.blockOrders, blockCancels := s.blockCancels
    orderbook := orderbook, keeper := s.keeper }

/-- Slice of a pair state. -/
def PairState.slice (st : PairState B K) : PairSlice K :=
  { triggered := st.triggered, blockOrders := st.blockOrders, blockCancels := st.blockCancels
    keeper := st.keeper }

/-- Function `GetMatchResults`, lines 165-173. -/
def GetMatchResults (st : PairState B K) : List Order × List Cancellation :=
  (st.blockOrders, st.blockCancels)

/-- Body of the task of one pair, lines 201-222, taking effect as a whole when it finishes;
`none` is the panic of line 208. The order book is looked up first, since
`MoveTriggeredOrderForPair` does not touch it and the panic leaves nothing behind. -/
def pairTask (env : ContractEnv B K) (pair : Pair) (run : PairRun B K) :
    Option (PairRun B K) :=
  let pairStr := GetPairString pair
  match run.cs.orderBooks pairStr with
  | none => none
  | some orderbook =>
    let moved := MoveTriggeredOrderForPair ((run.cs.slices pairStr).withBook orderbook)
    let executed := ExecutePair env.exchange moved
    let pairSettlements := executed.1
    let orderIDToSettledQuantities := GetOrderIDToSettledQuantities pairSettlements
    let st :=
      env.PrepareCancelUnfulfilledMarketOrders orderIDToSettledQuantities executed.2
    let results := GetMatchResults st
    some
      { cs :=
          { run.cs with
            slices := fun p => if p = pairStr then st.slice else run.cs.slices p
            orderBooks := fun p =>
              if p = pairStr then some st.orderbook else run.cs.orderBooks p }
        orderResults := run.orderResults ++ results.1
        cancelResults := run.cancelResults ++ results.2
        settlements := run.settlements ++ pairSettlements
        ops := run.ops ++ [Op.pairRun pairStr] }

/-- The tasks of the pairs, in the order in which they finish; the first panic ends the
run. -/
def runPairTasks (env : ContractEnv B K) : List Pair → PairRun B K → Option (PairRun B K)
  | [], run => some run
  | pair :: rest, run =>
    match pairTask env pair run with
    | none => none
    | some run1 => runPairTasks env rest run1

/-- Function `ExecutePairsInParallel`, lines 186-228: after all tasks finished the
aggregated match result is stored and the settlements are returned. Modelled from the spec:
`NewMatchResult` sorts the slices it is given in place, so the slice `settlements` that line
227 returns is the sorted one; the spec says the settlement stream does not depend on the
scheduler. -/
def ExecutePairsInParallel (env : ContractEnv B K) (sched : PairSchedule)
    (registeredPairs : List Pair) (cs : ContractState B K) : Option (PairRun B K) :=
  match runPairTasks env (sched.finish registeredPairs)
      { cs := cs, orderResults := [], cancelResults := [], settlements := [], ops := [] } with
  | none => none
  | some run =>
    let matchResult := NewMatchResult run.orderResults run.cancelResults run.settlements
    some
      { cs := { run.cs with matchResult := some matchResult }
        orderResults := matchResult.Orders
        cancelResults := matchResult.Cancellations
        settlements := matchResult.Settlements
        ops := run.ops ++ [Op.setMatchResult] }

/-- Function `CallPreExecutionHooks`, lines 25-44, with the ghost log of the hooks it
invoked. -/
def CallPreExecutionHooks (env : ContractEnv B K) (contractAddr : String)
    (registeredPairs : List Pair) (cs : ContractState B K) :
    HookResult (ContractState B K) × List Op :=
  match env.HandleEBCancelOrders contractAddr registeredPairs cs with
  | HookResult.err e cs1 => (HookResult.err e cs1, [Op.cancelHook])
  | HookResult.panic => (HookResult.panic, [Op.cancelHook])
  | HookResult.ok cs1 =>
    match env.HandleEBPlaceOrders contractAddr registeredPairs cs1 with
    | HookResult.err e cs2 => (HookResult.err e cs2, [Op.cancelHook, Op.placeHook])
    | HookResult.panic => (HookResult.panic, [Op.cancelHook, Op.placeHook])
    | HookResult.ok cs2 => (HookResult.ok cs2, [Op.cancelHook, Op.placeHook])

/-- Function `HandleExecutionForContract` of `execution.go`, lines 230-251. The telemetry
of lines 240 and 248 is left out. -/
def HandleExecutionForContract (env : ContractEnv B K) (sched : PairSchedule)
    (contract : ContractInfo) (registeredPairs : List Pair) (cs : ContractState B K) :
    ExecOutcome B K :=
  let contractAddr := contract.ContractAddr
  match CallPreExecutionHooks env contractAddr registeredPairs cs with
  | (HookResult.err e cs1, ops) => ExecOutcome.returned [] (some e) cs1 ops
  | (HookResult.panic, _) => ExecOutcome.panicked
  | (HookResult.ok cs1, ops) =>
    match ExecutePairsInParallel env sched registeredPairs cs1 with
    | none => ExecOutcome.panicked
    | some run => ExecOutcome.returned run.settlements none run.cs (ops ++ run.ops)

/-- What the task of a pair leaves of the pair's own state, and the settlements it
produces, as a function of the pair's slice and order book alone (lines 205-212). -/
def pairOutcome (env : ContractEnv B K) (s : PairSlice K) (orderbook : OrderBook B) :
    PairState B K × List SettlementEntry :=
  let executed := ExecutePair env.exchange (MoveTriggeredOrderForPair (s.withBook orderbook))
  (env.PrepareCancelUnfulfilledMarketOrders (GetOrderIDToSettledQuantities executed.1)
    executed.2, executed.1)

/-- Effect of a finished pair task on the run (lines 214-219): the pair's state is
replaced and its results are appended to the accumulators. -/
def applyOutcome (pairStr : String) (out : PairState B K × List SettlementEntry)
    (run : PairRun B K) : PairRun B K :=
  { cs :=
      { run.cs with
        slices := fun p => if p = pairStr then out.1.slice else run.cs.slices p
        orderBooks := fun p =>
          if p = pairStr then some out.1.orderbook else run.cs.orderBooks p }
    orderResults := run.orderResults ++ (GetMatchResults out.1).1
    cancelResults := run.cancelResults ++ (GetMatchResults out.1).2
    settlements := run.settlements ++ out.2
    ops := run.ops ++ [Op.pairRun pairStr] }

/-- Where `HandleExecutionForContract` panics, if it does. The hooks are called on the
goroutine of the caller (lines 37 and 40); the body of a pair task runs on a goroutine of
its own, started on line 201, whose only deferred call is `wg.Done()`. -/
inductive PanicSite where
  | callerGoroutine
  | pairGoroutine
deriving DecidableEq, Repr

/-- Goroutine on which a call of `HandleExecutionForContract` panics; `none` when it
returns. -/
def panicSite (env : ContractEnv B K) (sched : PairSchedule) (contract : ContractInfo)
    (registeredPairs : List Pair) (cs : ContractState B K) : Option PanicSite :=
  match CallPreExecutionHooks env contract.ContractAddr registeredPairs cs with
  | (HookResult.err _ _, _) => none
  | (HookResult.panic, _) => some PanicSite.callerGoroutine
  | (HookResult.ok cs1, _) =>
    match ExecutePairsInParallel env sched registeredPairs cs1 with
    | none => some PanicSite.pairGoroutine
    | some _ => none

/-- Deferred function of `runnable`, module.go lines 314-328, which runs on the goroutine
that called `HandleExecutionForContract`: `recover` returns the value of a panic of the
goroutine it is called on, so the function adds the contract to the failed set for a panic
of that goroutine only; a panic of another goroutine is not stopped by it. -/
def runnableRecovers : PanicSite → Bool
  | PanicSite.callerGoroutine => true
  | PanicSite.pairGoroutine => false

end ContractRun

/-! ## A concrete block, used to exercise the statements below -/

/-- Schedule that visits every map in the order of its association list. -/
def idSchedule : Schedule Nat Nat :=
  { rangeValid := fun m => m
    rangeValid_perm := fun m => List.Perm.refl m
    run := fun l => l
    run_perm := fun l => List.Perm.refl l
    rangeSettlements := fun m => m
    rangeSettlements_perm := fun m => List.Perm.refl m
    rangeFinalize := fun m => m
    rangeFinalize_perm := fun m => List.Perm.refl m }

/-- Hooks of the concrete block: the store counts writes, the in-memory state lists the
contracts that placed orders, and the finalize call of contract `b` fails. -/
def demoEnv : Env Nat (List String) Nat Nat :=
  { HandleEBDeposit := fun _ w => (Status.ok, { w with store := w.store + 1 })
    HandleExecutionForContract := fun c w =>
      ExecResult.ok [(c.ContractAddr, 7)] [1, 2]
        { store := w.store + 10, mem := w.mem ++ [c.ContractAddr] }
    HandleSettlements := fun _ _ w => (Status.ok, w)
    CallContractSudo := fun a _ w => if a = "b" then (Status.err, w) else (Status.ok, w)
    DeepFilterAccount := fun a m => m.filter (fun x => decide (x ≠ a)) }

/-- Contracts of the concrete block: `a` needs matching and hooks, `b` only hooks. -/
def demoContracts : List ContractInfo :=
  [{ ContractAddr := "a", NeedHook := true, NeedOrderMatching := true },
   { ContractAddr := "b", NeedHook := true, NeedOrderMatching := false }]

/-- State at entry of the concrete block. -/
def demoWorld : World Nat (List String) :=
  { store := 0, mem := ["b"] }

/-- Matching engine of the concrete pair run: every market order is filled in full, buys at
100 and sells at 106, and no limit orders cross. -/
def demoExchange : ExchangeEnv (List Order) Nat :=
  { CancelOrders := fun _ st => st
    AddOutstandingLimitOrdersToOrderbook := fun _ _ st => st
    MatchMarketOrders := fun takers _ direction st =>
      ({ Settlements :=
           takers.map (fun o =>
             { OrderId := o.Id, Account := o.Account
               Price := if direction = PositionDirection.LONG then 100 else 106
               Quantity := o.Quantity })
         MinPrice := if direction = PositionDirection.LONG then 100 else 106
         MaxPrice := if direction = PositionDirection.LONG then 100 else 106 }, st)
    MatchLimitOrders := fun st => ({ Settlements := [], MinPrice := 103, MaxPrice := 103 }, st)
    SetPriceStateFromExecutionOutcome := fun totalOutcome st =>
      { st with keeper := st.keeper + totalOutcome.Settlements.length }
    GetLimitOrders := fun direction orders =>
      orders.filter (fun o =>
        decide (o.OrderType = OrderType.LIMIT ∧ o.PositionDirection = direction))
    GetSortedMarketOrders := fun direction orders =>
      orders.filter (fun o =>
        decide (o.OrderType = OrderType.MARKET ∧ o.PositionDirection = direction))
    GetTriggeredOrders := fun o =>
      decide (o.OrderType = OrderType.STOPLOSS ∨ o.OrderType = OrderType.STOPLIMIT) }

/-- State of the concrete pair run: two stored stop orders, one of them already triggered,
and three block orders, one of them a new stop order. -/
def demoPair : PairState (List Order) Nat :=
  { triggered :=
      [{ Id := 1, Account := "x", PositionDirection := PositionDirection.LONG
         OrderType := OrderType.STOPLOSS, Price := 0, Quantity := 5
         TriggerPrice := 50, TriggerStatus := false },
       { Id := 2, Account := "y", PositionDirection := PositionDirection.SHORT
         OrderType := OrderType.STOPLIMIT, Price := 95, Quantity := 3
         TriggerPrice := 90, TriggerStatus := true }]
    blockOrders :=
      [{ Id := 3, Account := "x", PositionDirection := PositionDirection.LONG
         OrderType := OrderType.MARKET, Price := 0, Quantity := 2
         TriggerPrice := 0, TriggerStatus := false },
       { Id := 4, Account := "z", PositionDirection := PositionDirection.SHORT
         OrderType := OrderType.STOPLOSS, Price := 0, Quantity := 4
         TriggerPrice := 120, TriggerStatus := false },
       { Id := 5, Account := "z", PositionDirection := PositionDirection.SHORT
         OrderType := OrderType.MARKET, Price := 0, Quantity := 1
         TriggerPrice := 0, TriggerStatus := false }]
    blockCancels := []
    orderbook := { Longs := [], Shorts := [] }
    keeper := 0 }

/-- Outcome of the concrete pair run: trades between 100 and 106. -/
def demoOutcome : ExecutionOutcome :=
  { Settlements := [], MinPrice := 100, MaxPrice := 106 }

/-- Schedule in which the pair tasks finish in the order of the registered pairs. -/
def firstToLast : PairSchedule :=
  { finish := fun l => l
    finish_perm := fun l => List.Perm.refl l }

/-- Schedule in which the pair tasks finish in the opposite order. -/
def lastToFirst : PairSchedule :=
  { finish := fun l => l.reverse
    finish_perm := fun l => List.reverse_perm l }

/-- The two registered pairs of the concrete contract. -/
def demoPairs : List Pair :=
  [{ PriceDenom := "usdc", AssetDenom := "sei" }, { PriceDenom := "usdc", AssetDenom := "atom" }]

/-- Calls of the concrete contract run: the matching engine of the concrete pair run, no
clean-up, and hooks that succeed unless the contract is `bad` (cancel hook fails) or `worse`
(place hook fails). -/
def demoContractEnv : ContractEnv (List Order) Nat :=
  { exchange := demoExchange
    PrepareCancelUnfulfilledMarketOrders := fun _ st => st
    HandleEBCancelOrders := fun contractAddr _ cs =>
      if contractAddr = "bad" then HookResult.err "cancel rejected" cs else HookResult.ok cs
    HandleEBPlaceOrders := fun contractAddr _ cs =>
      if contractAddr = "worse" then HookResult.err "place rejected" cs else HookResult.ok cs }

/-- State of the concrete contract: one market buy in each of the two pairs, an empty book
for each, and no stored match result. -/
def demoContract : ContractState (List Order) Nat :=
  { slices := fun p =>
      if p = "usdc|sei" then
        { triggered := []
          blockOrders :=
            [{ Id := 3, Account := "x", PositionDirection := PositionDirection.LONG
               OrderType := OrderType.MARKET, Price := 0, Quantity := 2
               TriggerPrice := 0, TriggerStatus := false }]
          blockCancels := [], keeper := 0 }
      else if p = "usdc|atom" then
        { triggered := []
          blockOrders :=
            [{ Id := 7, Account := "y", PositionDirection := PositionDirection.LONG
               OrderType := OrderType.MARKET, Price := 0, Quantity := 4
               TriggerPrice := 0, TriggerStatus := false }]
          blockCancels := [], keeper := 0 }
      else { triggered := [], blockOrders := [], blockCancels := [], keeper := 0 }
    orderBooks := fun p =>
      if p = "usdc|sei" ∨ p = "usdc|atom" then some { Longs := [], Shorts := [] } else none
    matchResult := none }

/-- Registered pairs of which the second has no order book in the concrete contract. -/
def demoPairsNoBook : List Pair :=
  [{ PriceDenom := "usdc", AssetDenom := "sei" }, { PriceDenom := "usdc", AssetDenom := "btc" }]

/-! ## Auxiliary lemmas on maps and sets -/

section GoMapLemmas
variable {V : Type}

theorem mapKeys_mapStore_subset (m : List (String × V)) (k : String) (v : V) :
    ∀ x ∈ mapKeys (mapStore m k v), x = k ∨ x ∈ mapKeys m := by
  induction m with
  | nil => intro x hx; simp [mapStore, mapKeys] at hx; exact Or.inl hx
  | cons p rest ih =>
    intro x hx
    obtain ⟨k0, v0⟩ := p
    by_cases h : k0 = k
    · simp only [mapStore, h, if_true, mapKeys, List.map_cons, List.mem_cons] at hx ⊢
      rcases hx with hx | hx
      · exact Or.inl hx
      · exact Or.inr (Or.inr hx)
    · simp only [mapStore, h, if_false, mapKeys, List.map_cons, List.mem_cons] at hx ⊢
      rcases hx with hx | hx
      · exact Or.inr (Or.inl hx)
      · rcases ih x hx with h1 | h1
        · exact Or.inl h1
        · exact Or.inr (Or.inr h1)

theorem mem_mapKeys_mapStore (m : List (String × V)) (k : String) (v : V) :
    ∀ x, x = k ∨ x ∈ mapKeys m → x ∈ mapKeys (mapStore m k v) := by
  induction m with
  | nil => intro x hx; simpa [mapStore, mapKeys] using hx
  | cons p rest ih =>
    intro x hx
    obtain ⟨k0, v0⟩ := p
    by_cases h : k0 = k
    · subst h
      simp only [mapStore, if_true, mapKeys, List.map_cons, List.mem_cons] at hx ⊢
      rcases hx with hx | hx | hx
      · exact Or.inl hx
      · exact Or.inl hx
      · exact Or.inr hx
    · simp only [mapStore, h, if_false, mapKeys, List.map_cons, List.mem_cons] at hx ⊢
      rcases hx with hx | hx | hx
      · exact Or.inr (ih x (Or.inl hx))
      · exact Or.inl hx
      · exact Or.inr (ih x (Or.inr hx))

theorem mapStore_length_le (m : List (String × V)) (k : String) (v : V) :
    m.length ≤ (mapStore m k v).length := by
  induction m with
  | nil => simp [mapStore]
  | cons p rest ih =>
    obtain ⟨k0, v0⟩ := p
    by_cases h : k0 = k
    · simp [mapStore, h]
    · simp [mapStore, h]; exact ih

theorem mapStore_nodup (m : List (String × V)) (k : String) (v : V)
    (h : (mapKeys m).Nodup) : (mapKeys (mapStore m k v)).Nodup := by
  induction m with
  | nil => simp [mapStore, mapKeys]
  | cons p rest ih =>
    obtain ⟨k0, v0⟩ := p
    simp only [mapKeys, List.map_cons, List.nodup_cons] at h
    by_cases hk : k0 = k
    · subst hk
      simpa [mapStore, mapKeys] using h
    · simp only [mapStore, hk, if_false, mapKeys, List.map_cons, List.nodup_cons]
      refine ⟨?_, ih h.2⟩
      intro hmem
      rcases mapKeys_mapStore_subset rest k v k0 hmem with h1 | h1
      · exact hk h1
      · exact h.1 h1

theorem mapStore_entry (m : List (String × V)) (k : String) (v : V) :
    ∀ p ∈ mapStore m k v, p = (k, v) ∨ p ∈ m := by
  induction m with
  | nil => intro p hp; simp [mapStore] at hp; exact Or.inl hp
  | cons q rest ih =>
    intro p hp
    obtain ⟨k0, v0⟩ := q
    by_cases hk : k0 = k
    · simp [mapStore, hk] at hp
      rcases hp with hp | hp
      · exact Or.inl hp
      · exact Or.inr (List.mem_cons_of_mem _ hp)
    · simp only [mapStore, hk, if_false, List.mem_cons] at hp
      rcases hp with hp | hp
      · exact Or.inr (by simp [hp])
      · rcases ih p hp with h1 | h1
        · exact Or.inl h1
        · exact Or.inr (List.mem_cons_of_mem _ h1)

theorem mapLoad_of_mem (m : List (String × V)) (h : (mapKeys m).Nodup) :
    ∀ p ∈ m, mapLoad m p.1 = some p.2 := by
  induction m with
  | nil => intro p hp; cases hp
  | cons q rest ih =>
    intro p hp
    obtain ⟨k0, v0⟩ := q
    simp only [mapKeys, List.map_cons, List.nodup_cons] at h
    rcases List.mem_cons.1 hp with hp | hp
    · subst hp; simp [mapLoad]
    · have hne : k0 ≠ p.1 := by
        intro he
        apply h.1
        rw [he]
        exact List.mem_map_of_mem Prod.fst hp
      simp only [mapLoad, hne, if_false]
      exact ih h.2 p hp

theorem mapLoad_some_mem (m : List (String × V)) (k : String) (v : V) :
    mapLoad m k = some v → k ∈ mapKeys m := by
  induction m with
  | nil => intro h; simp [mapLoad] at h
  | cons q rest ih =>
    obtain ⟨k0, v0⟩ := q
    intro h
    by_cases hk : k0 = k
    · simp [mapKeys, hk]
    · simp only [mapLoad, hk, if_false] at h
      have := ih h
      simp only [mapKeys, List.map_cons, List.mem_cons]
      exact Or.inr this

theorem foldl_mapDelete (l : List String) :
    ∀ m : List (String × V),
      l.foldl mapDelete m = m.filter (fun p => decide (p.1 ∉ l)) := by
  induction l with
  | nil => intro m; simp
  | cons a rest ih =>
    intro m
    simp only [List.foldl_cons, ih, mapDelete, List.filter_filter]
    congr 1
    funext p
    simp only [List.mem_cons, not_or, Bool.decide_and, Bool.and_comm]
    
end GoMapLemmas

theorem mem_orderedInsert (a : String) (l : List String) (x : String) :
    x ∈ orderedInsert a l ↔ x = a ∨ x ∈ l := by
  induction l with
  | nil => simp [orderedInsert]
  | cons b bs ih =>
    by_cases h : a.data < b.data
    · simp [orderedInsert, h]
    · simp only [orderedInsert, h, if_false, List.mem_cons, ih]
      tauto

theorem mem_ToOrderedSlice (s : List String) (x : String) :
    x ∈ ToOrderedSlice s ↔ x ∈ s := by
  induction s with
  | nil => simp [ToOrderedSlice]
  | cons a rest ih =>
    have : ToOrderedSlice (a :: rest) = orderedInsert a (ToOrderedSlice rest) := rfl
    rw [this, mem_orderedInsert, ih]
    simp

theorem mem_syncSetAdd (s : List String) (a x : String) :
    x ∈ syncSetAdd s a ↔ x ∈ s ∨ x = a := by
  unfold syncSetAdd
  by_cases h : a ∈ s
  · simp only [h, if_true]
    constructor
    · exact Or.inl
    · rintro (h1 | h1)
      · exact h1
      · rw [h1]; exact h
  · simp [h]

/-! ## One iteration of the block coordinator -/

section IterLemmas

variable {S M R E : Type}

theorem forEach_val_inv {α β : Type} (P : α → Prop) (body : β → α → Flow α) (l : List β)
    (hbody : ∀ b ∈ l, ∀ a, P a → P (body b a).val) :
    ∀ a, P a → P (forEach body l a).val := by
  induction l with
  | nil => intro a ha; exact ha
  | cons b bs ih =>
    intro a ha
    have hb := hbody b (List.mem_cons_self b bs) a ha
    have ih1 := ih (fun x hx => hbody x (List.mem_cons_of_mem b hx))
    simp only [forEach]
    cases hr : body b a with
    | cont a1 => rw [hr] at hb; exact ih1 a1 hb
    | panicked a1 => rw [hr] at hb; exact hb

theorem foldl_inv {α β : Type} (P : α → Prop) (f : α → β → α) (l : List β)
    (hf : ∀ b ∈ l, ∀ a, P a → P (f a b)) : ∀ a, P a → P (l.foldl f a) := by
  induction l with
  | nil => intro a ha; exact ha
  | cons b bs ih =>
    intro a ha
    exact ih (fun x hx => hf x (List.mem_cons_of_mem b hx)) _
      (hf b (List.mem_cons_self b bs) a ha)

theorem Grows.refl (st : IterState S M R E) : Grows st st :=
  ⟨fun _ h => h, fun _ h => h⟩

theorem Grows.trans {a b c : IterState S M R E} (h1 : Grows a b) (h2 : Grows b c) :
    Grows a c :=
  ⟨fun x hx => h2.1 x (h1.1 x hx), fun x hx => h2.2 x (h1.2 x hx)⟩

theorem IterInv.addCall {valid : List (String × ContractInfo)} {st : IterState S M R E}
    (h : IterInv valid st) (c : Call) (hc : CallOK valid c) (w : World S M) :
    IterInv valid { st with world := w, calls := st.calls ++ [c] } := by
  obtain ⟨h1, h2, h3, h4⟩ := h
  refine ⟨h1, h2, ?_, ?_⟩
  · intro x hx
    rcases List.mem_append.1 hx with hx | hx
    · exact h3 x hx
    · rw [List.mem_singleton.1 hx]; exact hc
  · intro a ha
    obtain ⟨x, hx, hxa⟩ := h4 a ha
    exact ⟨x, List.mem_append_left _ hx, hxa⟩

theorem IterInv.addFailed {valid : List (String × ContractInfo)} {st : IterState S M R E}
    (h : IterInv valid st) (c : Call) (hc : CallOK valid c) (hs : c.status ≠ Status.ok)
    (w : World S M) :
    IterInv valid { st with
      world := w
      failed := syncSetAdd st.failed c.contractAddr
      calls := st.calls ++ [c] } := by
  obtain ⟨h1, h2, h3, h4⟩ := h
  refine ⟨h1, h2, ?_, ?_⟩
  · intro x hx
    rcases List.mem_append.1 hx with hx | hx
    · exact h3 x hx
    · rw [List.mem_singleton.1 hx]; exact hc
  · intro a ha
    rcases (mem_syncSetAdd _ _ _).1 ha with ha | ha
    · obtain ⟨x, hx, hxa⟩ := h4 a ha
      exact ⟨x, List.mem_append_left _ hx, hxa⟩
    · exact ⟨c, List.mem_append_right _ (List.mem_singleton.2 rfl), ha.symm, hs⟩

theorem depositBody_inv (env : Env S M R E) (valid : List (String × ContractInfo))
    (k : String) (hk : k ∈ mapKeys valid) (st : IterState S M R E) (h : IterInv valid st) :
    IterInv valid (depositBody env k st).val := by
  have hc : ∀ s, CallOK valid ⟨Site.deposit, k, s⟩ := fun s =>
    ⟨hk, by simp, by simp⟩
  unfold depositBody
  rcases hr : env.HandleEBDeposit k st.world with ⟨s, w⟩
  cases s
  · exact h.addCall _ (hc _) w
  · exact h.addFailed ⟨Site.deposit, k, Status.err⟩ (hc _) (by simp) w
  · exact h.addCall _ (hc _) w

theorem depositBody_grows (env : Env S M R E) (k : String) (st : IterState S M R E) :
    Grows st (depositBody env k st).val := by
  unfold depositBody
  rcases hr : env.HandleEBDeposit k st.world with ⟨s, w⟩
  cases s
  · exact ⟨fun _ h => h, fun _ h => List.mem_append_left _ h⟩
  · exact ⟨fun a h => (mem_syncSetAdd _ _ _).2 (Or.inl h), fun _ h => List.mem_append_left _ h⟩
  · exact ⟨fun _ h => h, fun _ h => List.mem_append_left _ h⟩

theorem settlementsBody_inv (env : Env S M R E) (valid : List (String × ContractInfo))
    (entry : String × List E) (hk : entry.1 ∈ mapKeys valid) (st : IterState S M R E)
    (h : IterInv valid st) : IterInv valid (settlementsBody env valid entry st).val := by
  unfold settlementsBody
  by_cases hg : (mapIndex valid entry.1).NeedOrderMatching = true
  · have hc : ∀ s, CallOK valid ⟨Site.settlements, entry.1, s⟩ := fun s =>
      ⟨hk, fun _ => hg, by simp⟩
    simp only [hg, Bool.not_true, Bool.false_eq_true, if_false]
    rcases hr : env.HandleSettlements entry.1 entry.2 st.world with ⟨s, w⟩
    cases s
    · exact h.addCall _ (hc _) w
    · exact h.addFailed ⟨Site.settlements, entry.1, Status.err⟩ (hc _) (by simp) w
    · exact h.addCall _ (hc _) w
  · simp only [Bool.not_eq_true] at hg
    simp only [hg, Bool.not_false, if_true]
    exact h

theorem settlementsBody_grows (env : Env S M R E) (valid : List (String × ContractInfo))
    (entry : String × List E) (st : IterState S M R E) :
    Grows st (settlementsBody env valid entry st).val := by
  unfold settlementsBody
  by_cases hg : (mapIndex valid entry.1).NeedOrderMatching = true
  · simp only [hg, Bool.not_true, Bool.false_eq_true, if_false]
    rcases hr : env.HandleSettlements entry.1 entry.2 st.world with ⟨s, w⟩
    cases s
    · exact ⟨fun _ h => h, fun _ h => List.mem_append_left _ h⟩
    · exact ⟨fun a h => (mem_syncSetAdd _ _ _).2 (Or.inl h), fun _ h => List.mem_append_left _ h⟩
    · exact ⟨fun _ h => h, fun _ h => List.mem_append_left _ h⟩
  · simp only [Bool.not_eq_true] at hg
    simp only [hg, Bool.not_false, if_true]
    exact Grows.refl st

theorem finalizeBody_inv (env : Env S M R E) (valid : List (String × ContractInfo))
    (entry : String × List R) (hk : entry.1 ∈ mapKeys valid) (st : IterState S M R E)
    (h : IterInv valid st) : IterInv valid (finalizeBody env valid entry st).val := by
  unfold finalizeBody
  by_cases hg : (mapIndex valid entry.1).NeedHook = true
  · have hc : ∀ s, CallOK valid ⟨Site.finalize, entry.1, s⟩ := fun s =>
      ⟨hk, by simp, fun _ => hg⟩
    simp only [hg, Bool.not_true, Bool.false_eq_true, if_false]
    rcases hr : env.CallContractSudo entry.1 entry.2 st.world with ⟨s, w⟩
    cases s
    · exact h.addCall _ (hc _) w
    · exact h.addFailed ⟨Site.finalize, entry.1, Status.err⟩ (hc _) (by simp) w
    · exact h.addCall _ (hc _) w
  · simp only [Bool.not_eq_true] at hg
    simp only [hg, Bool.not_false, if_true]
    exact h

theorem finalizeBody_grows (env : Env S M R E) (valid : List (String × ContractInfo))
    (entry : String × List R) (st : IterState S M R E) :
    Grows st (finalizeBody env valid entry st).val := by
  unfold finalizeBody
  by_cases hg : (mapIndex valid entry.1).NeedHook = true
  · simp only [hg, Bool.not_true, Bool.false_eq_true, if_false]
    rcases hr : env.CallContractSudo entry.1 entry.2 st.world with ⟨s, w⟩
    cases s
    · exact ⟨fun _ h => h, fun _ h => List.mem_append_left _ h⟩
    · exact ⟨fun a h => (mem_syncSetAdd _ _ _).2 (Or.inl h), fun _ h => List.mem_append_left _ h⟩
    · exact ⟨fun _ h => h, fun _ h => List.mem_append_left _ h⟩
  · simp only [Bool.not_eq_true] at hg
    simp only [hg, Bool.not_false, if_true]
    exact Grows.refl st

theorem addContractResults_keys (orderResultsMap : List (String × R)) :
    ∀ msgs : List (String × List R),
      ∀ k ∈ mapKeys (addContractResults msgs orderResultsMap), k ∈ mapKeys msgs := by
  induction orderResultsMap with
  | nil => intro msgs k hk; exact hk
  | cons p rest ih =>
    intro msgs k hk
    simp only [addContractResults, List.foldl_cons] at hk
    cases hl : mapLoad msgs p.1 with
    | none =>
      rw [hl] at hk
      exact ih msgs k hk
    | some typedMsg =>
      rw [hl] at hk
      have h1 := ih _ k hk
      rcases mapKeys_mapStore_subset msgs p.1 _ k h1 with h2 | h2
      · rw [h2]; exact mapLoad_some_mem msgs p.1 typedMsg hl
      · exact h2

theorem mapIndex_of_mem (valid : List (String × ContractInfo)) (hv : ValidMap valid)
    (p : String × ContractInfo) (hp : p ∈ valid) :
    p.2.ContractAddr ∈ mapKeys valid ∧ mapIndex valid p.2.ContractAddr = p.2 := by
  rw [hv.2 p hp]
  refine ⟨List.mem_map_of_mem Prod.fst hp, ?_⟩
  simp [mapIndex, mapLoad_of_mem valid hv.1 p hp]

theorem runnable_inv (env : Env S M R E) (valid : List (String × ContractInfo))
    (info : ContractInfo) (hk : info.ContractAddr ∈ mapKeys valid)
    (hi : mapIndex valid info.ContractAddr = info) (st : IterState S M R E)
    (h : IterInv valid st) : IterInv valid (runnable env info st) := by
  unfold runnable
  by_cases hg : info.NeedOrderMatching = true
  · have hc : ∀ s, CallOK valid ⟨Site.execution, info.ContractAddr, s⟩ := fun s =>
      ⟨hk, fun _ => by rw [hi]; exact hg, by simp⟩
    simp only [hg, Bool.not_true, Bool.false_eq_true, if_false]
    cases hr : env.HandleExecutionForContract info st.world with
    | panic w => exact h.addFailed ⟨Site.execution, info.ContractAddr, Status.panic⟩ (hc _) (by simp) w
    | err w => exact h.addFailed ⟨Site.execution, info.ContractAddr, Status.err⟩ (hc _) (by simp) w
    | ok orderResultsMap settlements w =>
      have h0 := h.addCall ⟨Site.execution, info.ContractAddr, Status.ok⟩ (hc _) w
      obtain ⟨h1, h2, h3, h4⟩ := h0
      refine ⟨?_, ?_, h3, h4⟩
      · intro k hk1
        rcases mapKeys_mapStore_subset _ _ _ k hk1 with h5 | h5
        · rw [h5]; exact hk
        · exact h1 k h5
      · intro k hk1
        exact h2 k (addContractResults_keys orderResultsMap _ k hk1)
  · simp only [Bool.not_eq_true] at hg
    simp only [hg, Bool.not_false, if_true]
    exact h

theorem runnable_grows (env : Env S M R E) (info : ContractInfo) (st : IterState S M R E) :
    Grows st (runnable env info st) := by
  unfold runnable
  by_cases hg : info.NeedOrderMatching = true
  · simp only [hg, Bool.not_true, Bool.false_eq_true, if_false]
    cases hr : env.HandleExecutionForContract info st.world with
    | panic w =>
      exact ⟨fun a h => (mem_syncSetAdd _ _ _).2 (Or.inl h), fun _ h => List.mem_append_left _ h⟩
    | err w =>
      exact ⟨fun a h => (mem_syncSetAdd _ _ _).2 (Or.inl h), fun _ h => List.mem_append_left _ h⟩
    | ok orderResultsMap settlements w =>
      exact ⟨fun _ h => h, fun _ h => List.mem_append_left _ h⟩
  · simp only [Bool.not_eq_true] at hg
    simp only [hg, Bool.not_false, if_true]
    exact Grows.refl st

end IterLemmas

section PhaseLemmas

variable {S M R E : Type}

theorem foldl_mapStore_keys {V : Type} (v : V) (l : List (String × ContractInfo)) :
    ∀ acc : List (String × V),
      ∀ k ∈ mapKeys (l.foldl (fun m p => mapStore m p.1 v) acc),
        k ∈ mapKeys acc ∨ k ∈ mapKeys l := by
  induction l with
  | nil => intro acc k hk; exact Or.inl hk
  | cons p rest ih =>
    intro acc k hk
    simp only [List.foldl_cons] at hk
    rcases ih _ k hk with h | h
    · rcases mapKeys_mapStore_subset acc p.1 v k h with h1 | h1
      · exact Or.inr (by simp [mapKeys, h1])
      · exact Or.inl h1
    · exact Or.inr (by simp only [mapKeys, List.map_cons, List.mem_cons]; exact Or.inr h)

theorem mem_mapKeys_rangeValid (sched : Schedule R E) (valid : List (String × ContractInfo))
    (k : String) : k ∈ mapKeys (sched.rangeValid valid) ↔ k ∈ mapKeys valid :=
  ((sched.rangeValid_perm valid).map Prod.fst).mem_iff

theorem iterInit_inv (sched : Schedule R E) (valid : List (String × ContractInfo))
    (w : World S M) : IterInv valid (iterInit sched valid w) := by
  refine ⟨?_, ?_, ?_, ?_⟩
  · intro k hk
    rcases foldl_mapStore_keys ([] : List E) _ [] k hk with h | h
    · simp [mapKeys] at h
    · exact (mem_mapKeys_rangeValid sched valid k).1 h
  · intro k hk
    rcases foldl_mapStore_keys ([] : List R) _ [] k hk with h | h
    · simp [mapKeys] at h
    · exact (mem_mapKeys_rangeValid sched valid k).1 h
  · intro c hc; simp [iterInit] at hc
  · intro a ha; simp [iterInit] at ha

theorem depositPhase_inv (env : Env S M R E) (sched : Schedule R E)
    (valid : List (String × ContractInfo)) (st : IterState S M R E) (h : IterInv valid st) :
    IterInv valid (depositPhase env sched valid st).val :=
  forEach_val_inv (IterInv valid) (depositBody env) _
    (fun k hk a ha =>
      depositBody_inv env valid k ((mem_mapKeys_rangeValid sched valid k).1 hk) a ha) st h

theorem mem_validContractsInfo (sched : Schedule R E) (valid : List (String × ContractInfo))
    (info : ContractInfo) :
    info ∈ sched.run (validContractsInfo sched valid) ↔ ∃ p ∈ valid, p.2 = info := by
  rw [(sched.run_perm _).mem_iff]
  unfold validContractsInfo
  rw [((sched.rangeValid_perm valid).map Prod.snd).mem_iff]
  simp

theorem matchPhase_inv (env : Env S M R E) (sched : Schedule R E)
    (valid : List (String × ContractInfo)) (hv : ValidMap valid) (st : IterState S M R E)
    (h : IterInv valid st) : IterInv valid (matchPhase env sched valid st) := by
  unfold matchPhase runParallel
  refine foldl_inv (IterInv valid) _ _ ?_ st h
  intro info hinfo a ha
  obtain ⟨p, hp, hpi⟩ := (mem_validContractsInfo sched valid info).1 hinfo
  have := mapIndex_of_mem valid hv p hp
  rw [hpi] at this
  exact runnable_inv env valid info this.1 this.2 a ha

theorem settlementsPhase_inv (env : Env S M R E) (sched : Schedule R E)
    (valid : List (String × ContractInfo)) (st : IterState S M R E) (h : IterInv valid st) :
    IterInv valid (settlementsPhase env sched valid st).val :=
  forEach_val_inv (IterInv valid) (settlementsBody env valid) _
    (fun entry hentry a ha =>
      settlementsBody_inv env valid entry
        (h.1 entry.1 (List.mem_map_of_mem Prod.fst
          ((sched.rangeSettlements_perm _).mem_iff.1 hentry))) a ha) st h

theorem finalizePhase_inv (env : Env S M R E) (sched : Schedule R E)
    (valid : List (String × ContractInfo)) (st : IterState S M R E) (h : IterInv valid st) :
    IterInv valid (finalizePhase env sched valid st).val :=
  forEach_val_inv (IterInv valid) (finalizeBody env valid) _
    (fun entry hentry a ha =>
      finalizeBody_inv env valid entry
        (h.2.1 entry.1 (List.mem_map_of_mem Prod.fst
          ((sched.rangeFinalize_perm _).mem_iff.1 hentry))) a ha) st h

theorem iterationHooks_inv (env : Env S M R E) (sched : Schedule R E)
    (valid : List (String × ContractInfo)) (hv : ValidMap valid) (w : World S M) :
    IterInv valid (iterationHooks env sched valid w).val := by
  have h0 := depositPhase_inv env sched valid _ (iterInit_inv sched valid w)
  unfold iterationHooks
  cases hd : depositPhase env sched valid (iterInit sched valid w) with
  | panicked st => rw [hd] at h0; exact h0
  | cont st1 =>
    rw [hd] at h0
    have h1 := settlementsPhase_inv env sched valid _ (matchPhase_inv env sched valid hv st1 h0)
    simp only
    cases hs : settlementsPhase env sched valid (matchPhase env sched valid st1) with
    | panicked st => rw [hs] at h1; exact h1
    | cont st3 =>
      rw [hs] at h1
      exact finalizePhase_inv env sched valid st3 h1

theorem IterInv.failed_subset {valid : List (String × ContractInfo)} {st : IterState S M R E}
    (h : IterInv valid st) : ∀ a ∈ st.failed, a ∈ mapKeys valid := by
  intro a ha
  obtain ⟨c, hc, hca, _⟩ := h.2.2.2 a ha
  rw [← hca]
  exact (h.2.2.1 c hc).1

theorem forEach_grows {β : Type} (body : β → IterState S M R E → Flow (IterState S M R E))
    (hbody : ∀ b a, Grows a (body b a).val) (l : List β) (st : IterState S M R E) :
    Grows st (forEach body l st).val :=
  forEach_val_inv (Grows st) body l (fun b _ a ha => ha.trans (hbody b a)) st (Grows.refl st)

theorem foldl_runnable_grows (env : Env S M R E) (l : List ContractInfo)
    (st : IterState S M R E) :
    Grows st (l.foldl (fun s contractInfo => runnable env contractInfo s) st) :=
  foldl_inv (Grows st) _ l (fun b _ a ha => ha.trans (runnable_grows env b a)) st (Grows.refl st)

theorem settlementsPhase_grows (env : Env S M R E) (sched : Schedule R E)
    (valid : List (String × ContractInfo)) (st : IterState S M R E) :
    Grows st (settlementsPhase env sched valid st).val :=
  forEach_grows _ (settlementsBody_grows env valid) _ st

theorem finalizePhase_grows (env : Env S M R E) (sched : Schedule R E)
    (valid : List (String × ContractInfo)) (st : IterState S M R E) :
    Grows st (finalizePhase env sched valid st).val :=
  forEach_grows _ (finalizeBody_grows env valid) _ st

theorem depositBody_logs (env : Env S M R E) (k : String) (st : IterState S M R E) :
    ∃ c ∈ (depositBody env k st).val.calls, c.site = Site.deposit ∧ c.contractAddr = k := by
  unfold depositBody
  rcases hr : env.HandleEBDeposit k st.world with ⟨s, w⟩
  cases s <;> exact ⟨_, List.mem_append_right _ (List.mem_singleton.2 rfl), rfl, rfl⟩

theorem forEach_deposit_all (env : Env S M R E) (keys : List String) :
    ∀ st st1 : IterState S M R E, forEach (depositBody env) keys st = Flow.cont st1 →
      ∀ k ∈ keys, ∃ c ∈ st1.calls, c.site = Site.deposit ∧ c.contractAddr = k := by
  induction keys with
  | nil => intro st st1 _ k hk; cases hk
  | cons a rest ih =>
    intro st st1 h k hk
    simp only [forEach] at h
    cases hb : depositBody env a st with
    | panicked a1 => rw [hb] at h; cases h
    | cont a1 =>
      rw [hb] at h
      simp only at h
      rcases List.mem_cons.1 hk with hk | hk
      · obtain ⟨c, hc, hcs⟩ := depositBody_logs env a st
        rw [hb] at hc
        have hg := forEach_grows _ (depositBody_grows env) rest a1
        rw [h] at hg
        exact ⟨c, hg.2 c hc, hcs.1, by rw [hk]; exact hcs.2⟩
      · exact ih a1 st1 h k hk

theorem runnable_logs (env : Env S M R E) (info : ContractInfo) (st : IterState S M R E)
    (hg : info.NeedOrderMatching = true) :
    ∃ c ∈ (runnable env info st).calls,
      c.site = Site.execution ∧ c.contractAddr = info.ContractAddr ∧
      c.status = (env.HandleExecutionForContract info st.world).status ∧
      (c.status ≠ Status.ok → info.ContractAddr ∈ (runnable env info st).failed) := by
  unfold runnable
  simp only [hg, Bool.not_true, Bool.false_eq_true, if_false]
  cases hr : env.HandleExecutionForContract info st.world with
  | panic w =>
    exact ⟨_, List.mem_append_right _ (List.mem_singleton.2 rfl), rfl, rfl, rfl,
      fun _ => (mem_syncSetAdd _ _ _).2 (Or.inr rfl)⟩
  | err w =>
    exact ⟨_, List.mem_append_right _ (List.mem_singleton.2 rfl), rfl, rfl, rfl,
      fun _ => (mem_syncSetAdd _ _ _).2 (Or.inr rfl)⟩
  | ok orderResultsMap settlements w =>
    exact ⟨_, List.mem_append_right _ (List.mem_singleton.2 rfl), rfl, rfl, rfl,
      fun h => absurd rfl h⟩

theorem foldl_pair_fst {α β γ : Type} (f : γ → α → α) (g : β → γ → β) (l : List γ) :
    ∀ (x : α) (y : β),
      l.foldl (fun acc c => (f c acc.1, g acc.2 c)) (x, y) =
        (l.foldl (fun a c => f c a) x, l.foldl g y) := by
  induction l with
  | nil => intro x y; rfl
  | cons c rest ih => intro x y; simp only [List.foldl_cons]; exact ih _ _

theorem rollback_fst (env : Env S M R E) (m : M) (valid : List (String × ContractInfo))
    (failed : List String) :
    (rollback env m valid failed).1 =
      (ToOrderedSlice failed).foldl (fun acc a => env.DeepFilterAccount a acc) m := by
  unfold rollback
  rw [foldl_pair_fst env.DeepFilterAccount mapDelete]

theorem rollback_snd (env : Env S M R E) (m : M) (valid : List (String × ContractInfo))
    (failed : List String) :
    (rollback env m valid failed).2 = valid.filter (fun p => decide (p.1 ∉ failed)) := by
  unfold rollback
  rw [foldl_pair_fst env.DeepFilterAccount mapDelete]
  simp only
  rw [foldl_mapDelete]
  congr 1
  funext p
  simp only [mem_ToOrderedSlice]

theorem rollback_length_lt (env : Env S M R E) (m : M) (valid : List (String × ContractInfo))
    (failed : List String) (hne : failed ≠ [])
    (hsub : ∀ a ∈ failed, a ∈ mapKeys valid) :
    (rollback env m valid failed).2.length < valid.length := by
  rw [rollback_snd]
  obtain ⟨a, rest, hf⟩ := List.exists_cons_of_ne_nil hne
  have ha : a ∈ failed := by rw [hf]; exact List.mem_cons_self a rest
  have hk := hsub a ha
  simp only [mapKeys, List.mem_map] at hk
  obtain ⟨p, hp, hpa⟩ := hk
  apply List.length_filter_lt_length_iff_exists.2
  exact ⟨p, hp, by simp [hpa, ha]⟩

theorem ValidMap.filter {valid : List (String × ContractInfo)} (hv : ValidMap valid)
    (q : String × ContractInfo → Bool) : ValidMap (valid.filter q) := by
  refine ⟨?_, fun p hp => hv.2 p (List.mem_of_mem_filter hp)⟩
  unfold mapKeys
  exact (List.filter_sublist valid).map Prod.fst |>.nodup hv.1

theorem ValidMap.rollback {valid : List (String × ContractInfo)} (hv : ValidMap valid)
    (env : Env S M R E) (m : M) (failed : List String) :
    ValidMap (rollback env m valid failed).2 := by
  rw [rollback_snd]; exact hv.filter _

theorem validContractAddresses_valid (contracts : List ContractInfo) :
    ValidMap (validContractAddresses contracts) := by
  unfold validContractAddresses
  refine foldl_inv ValidMap _ contracts ?_ [] ⟨by simp [mapKeys], by simp⟩
  intro c _ m hm
  refine ⟨mapStore_nodup m _ _ hm.1, ?_⟩
  intro p hp
  rcases mapStore_entry m _ _ p hp with h | h
  · rw [h]
  · exact hm.2 p h

theorem validContractAddresses_keys (contracts : List ContractInfo) :
    ∀ c ∈ contracts, c.ContractAddr ∈ mapKeys (validContractAddresses contracts) := by
  unfold validContractAddresses
  have key : ∀ (l : List ContractInfo) (m : List (String × ContractInfo)),
      ∀ k, (k ∈ mapKeys m ∨ ∃ c ∈ l, c.ContractAddr = k) →
        k ∈ mapKeys (l.foldl (fun m contractInfo =>
          mapStore m contractInfo.ContractAddr contractInfo) m) := by
    intro l
    induction l with
    | nil =>
      intro m k hk
      rcases hk with hk | ⟨c, hc, _⟩
      · exact hk
      · cases hc
    | cons a rest ih =>
      intro m k hk
      simp only [List.foldl_cons]
      apply ih
      rcases hk with hk | ⟨c, hc, hck⟩
      · exact Or.inl (mem_mapKeys_mapStore m _ _ k (Or.inr hk))
      · rcases List.mem_cons.1 hc with hc | hc
        · exact Or.inl (mem_mapKeys_mapStore m _ _ k (Or.inl (by rw [← hck, hc])))
        · exact Or.inr ⟨c, hc, hck⟩
  intro c hc
  exact key contracts [] _ (Or.inr ⟨c, hc, rfl⟩)

end PhaseLemmas

/-! ## The loop of the block coordinator -/

section LoopLemmas

variable {S M R E : Type}

theorem EndBlockLoop_rule (env : Env S M R E) (sched : Schedule R E) (s : S)
    (I : M → List (String × ContractInfo) → Int → List (IterRecord S M R E) → Prop)
    (Q : EndBlockResult S M R E → Prop)
    (hnone : ∀ mem valid ic log, I mem valid ic log → ¬ valid.length > 0 →
      Q { store := s, mem := mem, remaining := valid, exit := Exit.noneLeft, log := log })
    (hpanic : ∀ mem valid ic log st, I mem valid ic log → valid.length > 0 →
      iterationHooks env sched valid { store := s, mem := mem } = Flow.panicked st →
      Q { store := s, mem := st.world.mem, remaining := valid, exit := Exit.panicked
          log := log ++ [panicRecord s mem valid st] })
    (hcommit : ∀ mem valid ic log st, I mem valid ic log → valid.length > 0 →
      iterationHooks env sched valid { store := s, mem := mem } = Flow.cont st →
      st.failed.length = 0 →
      Q { store := st.world.store, mem := st.world.mem, remaining := valid
          exit := Exit.committed, log := log ++ [commitRecord s mem valid st] })
    (hall : ∀ mem valid ic log st, I mem valid ic log → valid.length > 0 →
      iterationHooks env sched valid { store := s, mem := mem } = Flow.cont st →
      st.failed.length ≠ 0 → ic - 1 = 0 →
      Q { store := s, mem := (rollback env mem valid st.failed).1
          remaining := (rollback env mem valid st.failed).2, exit := Exit.allFailed
          log := log ++ [rollbackRecord env s mem valid st] })
    (hstep : ∀ mem valid ic log st, I mem valid ic log → valid.length > 0 →
      iterationHooks env sched valid { store := s, mem := mem } = Flow.cont st →
      st.failed.length ≠ 0 → ic - 1 ≠ 0 →
      I (rollback env mem valid st.failed).1 (rollback env mem valid st.failed).2 (ic - 1)
        (log ++ [rollbackRecord env s mem valid st])) :
    ∀ fuel mem valid ic log r, I mem valid ic log →
      EndBlockLoop env sched fuel s mem valid ic log = some r → Q r := by
  intro fuel
  induction fuel with
  | zero =>
    intro mem valid ic log r hI h
    simp only [EndBlockLoop, DeepCopy] at h
    by_cases hv : valid.length > 0
    · simp [hv] at h
    · simp only [hv, if_false, Option.some.injEq] at h
      rw [← h]; exact hnone mem valid ic log hI hv
  | succ fuel ih =>
    intro mem valid ic log r hI h
    simp only [EndBlockLoop, DeepCopy] at h
    by_cases hv : valid.length > 0
    · simp only [hv, if_true] at h
      cases hh : iterationHooks env sched valid { store := s, mem := mem } with
      | panicked st =>
        rw [hh] at h
        simp only [Option.some.injEq] at h
        rw [← h]; exact hpanic mem valid ic log st hI hv hh
      | cont st =>
        rw [hh] at h
        simp only at h
        by_cases hf : st.failed.length = 0
        · simp only [hf, if_true, Option.some.injEq] at h
          rw [← h]; exact hcommit mem valid ic log st hI hv hh hf
        · simp only [hf, if_false] at h
          by_cases hc : ic - 1 = 0
          · simp only [hc, if_true, Option.some.injEq] at h
            rw [← h]; exact hall mem valid ic log st hI hv hh hf hc
          · simp only [hc, if_false] at h
            exact ih _ _ _ _ r (hstep mem valid ic log st hI hv hh hf hc) h
    · simp only [hv, if_false, Option.some.injEq] at h
      rw [← h]; exact hnone mem valid ic log hI hv

theorem EndBlockLoop_returns (env : Env S M R E) (sched : Schedule R E) (s : S) :
    ∀ fuel mem valid ic log, ValidMap valid → valid.length ≤ fuel →
      ∃ r, EndBlockLoop env sched fuel s mem valid ic log = some r := by
  intro fuel
  induction fuel with
  | zero =>
    intro mem valid ic log _ hlen
    have hv : ¬ valid.length > 0 := by omega
    simp only [EndBlockLoop, hv, if_false]
    exact ⟨_, rfl⟩
  | succ fuel ih =>
    intro mem valid ic log hvm hlen
    simp only [EndBlockLoop, DeepCopy]
    by_cases hv : valid.length > 0
    · simp only [hv, if_true]
      have hinv := iterationHooks_inv env sched valid hvm { store := s, mem := mem }
      cases hh : iterationHooks env sched valid { store := s, mem := mem } with
      | panicked st => exact ⟨_, rfl⟩
      | cont st =>
        rw [hh] at hinv
        simp only
        by_cases hf : st.failed.length = 0
        · simp only [hf, if_true]; exact ⟨_, rfl⟩
        · simp only [hf, if_false]
          by_cases hc : ic - 1 = 0
          · simp only [hc, if_true]; exact ⟨_, rfl⟩
          · simp only [hc, if_false]
            have hne : st.failed ≠ [] := fun h0 => hf (by rw [h0]; rfl)
            have hlt := rollback_length_lt env mem valid st.failed hne hinv.failed_subset
            exact ih _ _ _ _ (hvm.rollback env mem st.failed) (by omega)
    · simp only [hv, if_false]; exact ⟨_, rfl⟩

/-- What the log of a run records about an iteration. -/
theorem EndBlock_log_sound (env : Env S M R E) (sched : Schedule R E) (fuel : Nat)
    (contracts : List ContractInfo) (w : World S M) (r : EndBlockResult S M R E)
    (h : EndBlock env sched fuel contracts w = some r) :
    ∀ it ∈ r.log,
      ValidMap it.remaining ∧ it.storeBefore = w.store ∧
      it.hooks = (iterationHooks env sched it.remaining ⟨w.store, it.snapshot⟩).val ∧
      it.panicked = (iterationHooks env sched it.remaining ⟨w.store, it.snapshot⟩).isPanicked ∧
      (it.panicked = true ∨ it.hooks.failed ≠ [] → it.storeAfter = w.store) ∧
      (it.panicked = false → it.hooks.failed = [] →
        it.storeAfter = it.hooks.world.store ∧ it.memAfter = it.hooks.world.mem ∧
        it.remainingAfter = it.remaining) ∧
      (it.panicked = false → it.hooks.failed ≠ [] →
        it.memAfter = (rollback env it.snapshot it.remaining it.hooks.failed).1 ∧
        it.remainingAfter = (rollback env it.snapshot it.remaining it.hooks.failed).2) := by
  let P : IterRecord S M R E → Prop := fun it =>
      ValidMap it.remaining ∧ it.storeBefore = w.store ∧
      it.hooks = (iterationHooks env sched it.remaining ⟨w.store, it.snapshot⟩).val ∧
      it.panicked = (iterationHooks env sched it.remaining ⟨w.store, it.snapshot⟩).isPanicked ∧
      (it.panicked = true ∨ it.hooks.failed ≠ [] → it.storeAfter = w.store) ∧
      (it.panicked = false → it.hooks.failed = [] →
        it.storeAfter = it.hooks.world.store ∧ it.memAfter = it.hooks.world.mem ∧
        it.remainingAfter = it.remaining) ∧
      (it.panicked = false → it.hooks.failed ≠ [] →
        it.memAfter = (rollback env it.snapshot it.remaining it.hooks.failed).1 ∧
        it.remainingAfter = (rollback env it.snapshot it.remaining it.hooks.failed).2)
  have hext : ∀ (log : List (IterRecord S M R E)) (it0 : IterRecord S M R E),
      (∀ it ∈ log, P it) → P it0 → ∀ it ∈ log ++ [it0], P it := by
    intro log it0 hl h0 it hit
    rcases List.mem_append.1 hit with hit | hit
    · exact hl it hit
    · rw [List.mem_singleton.1 hit]; exact h0
  have hnil : ∀ {l : List String}, l.length = 0 → l = [] := fun h0 => List.length_eq_zero.1 h0
  refine EndBlockLoop_rule env sched w.store
    (fun _ valid _ log => ValidMap valid ∧ ∀ it ∈ log, P it)
    (fun r => ∀ it ∈ r.log, P it) ?_ ?_ ?_ ?_ ?_ fuel w.mem _ _ [] r
    ⟨validContractAddresses_valid contracts, by simp⟩ h
  · intro mem valid ic log hI _; exact hI.2
  · intro mem valid ic log st hI _ hh
    refine hext log _ hI.2 ⟨hI.1, rfl, ?_, ?_, fun _ => rfl, ?_, ?_⟩
    · show st = (iterationHooks env sched valid { store := w.store, mem := mem }).val
      rw [hh]; rfl
    · show true = (iterationHooks env sched valid { store := w.store, mem := mem }).isPanicked
      rw [hh]; rfl
    · intro hp; cases hp
    · intro hp; cases hp
  · intro mem valid ic log st hI _ hh hf
    refine hext log _ hI.2 ⟨hI.1, rfl, ?_, ?_, ?_, fun _ _ => ⟨rfl, rfl, rfl⟩, ?_⟩
    · show st = (iterationHooks env sched valid { store := w.store, mem := mem }).val
      rw [hh]; rfl
    · show false = (iterationHooks env sched valid { store := w.store, mem := mem }).isPanicked
      rw [hh]; rfl
    · rintro (hp | hp)
      · cases hp
      · exact absurd (hnil hf) hp
    · intro _ hp; exact absurd (hnil hf) hp
  · intro mem valid ic log st hI _ hh hf _
    refine hext log _ hI.2 ⟨hI.1, rfl, ?_, ?_, fun _ => rfl, ?_, fun _ _ => ⟨rfl, rfl⟩⟩
    · show st = (iterationHooks env sched valid { store := w.store, mem := mem }).val
      rw [hh]; rfl
    · show false = (iterationHooks env sched valid { store := w.store, mem := mem }).isPanicked
      rw [hh]; rfl
    · intro _ hp; exact absurd (show st.failed.length = 0 by
        have : st.failed = [] := hp
        rw [this]; rfl) hf
  · intro mem valid ic log st hI _ hh hf _
    refine ⟨hI.1.rollback env mem st.failed, ?_⟩
    refine hext log _ hI.2 ⟨hI.1, rfl, ?_, ?_, fun _ => rfl, ?_, fun _ _ => ⟨rfl, rfl⟩⟩
    · show st = (iterationHooks env sched valid { store := w.store, mem := mem }).val
      rw [hh]; rfl
    · show false = (iterationHooks env sched valid { store := w.store, mem := mem }).isPanicked
      rw [hh]; rfl
    · intro _ hp; exact absurd (show st.failed.length = 0 by
        have : st.failed = [] := hp
        rw [this]; rfl) hf

end LoopLemmas

section ChainLemmas

variable {S M R E : Type}

theorem chain_snoc {α : Type} (Rel : α → α → Prop) (log : List α) (x : α)
    (hc : log.Chain' Rel) (hl : ∀ y ∈ log.getLast?, Rel y x) : (log ++ [x]).Chain' Rel := by
  rw [List.chain'_append]
  refine ⟨hc, List.chain'_singleton x, ?_⟩
  intro y hy z hz
  simp only [List.head?_cons, Option.mem_def, Option.some.injEq] at hz
  rw [← hz]; exact hl y hy

theorem head_snoc {α : Type} (P : α → Prop) (log : List α) (x : α)
    (hh : ∀ y ∈ log.head?, P y) (hx : log = [] → P x) : ∀ y ∈ (log ++ [x]).head?, P y := by
  cases log with
  | nil =>
    intro y hy
    simp only [List.nil_append, List.head?_cons, Option.mem_def, Option.some.injEq] at hy
    rw [← hy]; exact hx rfl
  | cons a rest =>
    intro y hy
    exact hh y (by simpa using hy)

/-- How the iterations of a run follow one another, and how the run ends. -/
theorem EndBlock_log_chain (env : Env S M R E) (sched : Schedule R E) (fuel : Nat)
    (contracts : List ContractInfo) (w : World S M) (r : EndBlockResult S M R E)
    (h : EndBlock env sched fuel contracts w = some r) :
    r.log.Chain' (fun a b => b.snapshot = a.memAfter ∧ b.remaining = a.remainingAfter ∧
      a.panicked = false ∧ a.hooks.failed ≠ []) ∧
    (∀ it ∈ r.log.head?, it.remaining = validContractAddresses contracts ∧
      it.snapshot = w.mem) ∧
    (∀ last ∈ r.log.getLast?, r.store = last.storeAfter ∧ r.mem = last.memAfter ∧
      r.remaining = last.remainingAfter) ∧
    (r.log = [] → r.store = w.store ∧ r.mem = w.mem ∧
      r.remaining = validContractAddresses contracts) ∧
    (r.exit = Exit.committed →
      ∃ last, r.log.getLast? = some last ∧ last.panicked = false ∧ last.hooks.failed = [] ∧
        r.store = last.hooks.world.store) ∧
    (r.exit ≠ Exit.committed → r.store = w.store) := by
  have hne : ∀ {st : IterState S M R E}, st.failed.length ≠ 0 → st.failed ≠ [] :=
    fun h0 h1 => h0 (by rw [h1]; rfl)
  refine EndBlockLoop_rule env sched w.store
    (fun mem valid _ log =>
      log.Chain' (fun a b => b.snapshot = a.memAfter ∧ b.remaining = a.remainingAfter ∧
        a.panicked = false ∧ a.hooks.failed ≠ []) ∧
      (∀ it ∈ log.head?, it.remaining = validContractAddresses contracts ∧
        it.snapshot = w.mem) ∧
      (∀ last ∈ log.getLast?, last.storeAfter = w.store ∧ last.memAfter = mem ∧
        last.remainingAfter = valid ∧ last.panicked = false ∧ last.hooks.failed ≠ []) ∧
      (log = [] → mem = w.mem ∧ valid = validContractAddresses contracts))
    (fun r =>
      r.log.Chain' (fun a b => b.snapshot = a.memAfter ∧ b.remaining = a.remainingAfter ∧
        a.panicked = false ∧ a.hooks.failed ≠ []) ∧
      (∀ it ∈ r.log.head?, it.remaining = validContractAddresses contracts ∧
        it.snapshot = w.mem) ∧
      (∀ last ∈ r.log.getLast?, r.store = last.storeAfter ∧ r.mem = last.memAfter ∧
        r.remaining = last.remainingAfter) ∧
      (r.log = [] → r.store = w.store ∧ r.mem = w.mem ∧
        r.remaining = validContractAddresses contracts) ∧
      (r.exit = Exit.committed →
        ∃ last, r.log.getLast? = some last ∧ last.panicked = false ∧
          last.hooks.failed = [] ∧ r.store = last.hooks.world.store) ∧
      (r.exit ≠ Exit.committed → r.store = w.store))
    ?_ ?_ ?_ ?_ ?_ fuel w.mem _ _ [] r
    ⟨List.chain'_nil, by simp, by simp, fun _ => ⟨rfl, rfl⟩⟩ h
  · intro mem valid ic log hI _
    obtain ⟨h1, h2, h3, h4⟩ := hI
    refine ⟨h1, h2, ?_, ?_, ?_, fun _ => rfl⟩
    · intro last hlast
      obtain ⟨a, b, c, _, _⟩ := h3 last hlast
      exact ⟨a.symm, b.symm, c.symm⟩
    · intro hnil
      obtain ⟨a, b⟩ := h4 hnil
      exact ⟨rfl, a, b⟩
    · intro hc; cases hc
  · intro mem valid ic log st hI _ _
    obtain ⟨h1, h2, h3, h4⟩ := hI
    refine ⟨chain_snoc _ log _ h1 ?_, head_snoc _ log _ h2 ?_, ?_, ?_, ?_, fun _ => rfl⟩
    · intro y hy
      obtain ⟨_, b, c, d, e⟩ := h3 y hy
      exact ⟨b.symm, c.symm, d, e⟩
    · intro hnil
      obtain ⟨a, b⟩ := h4 hnil
      exact ⟨b, a⟩
    · intro last hlast
      rw [List.getLast?_concat] at hlast
      simp only [Option.mem_def, Option.some.injEq] at hlast
      rw [← hlast]; exact ⟨rfl, rfl, rfl⟩
    · intro hnil; simp at hnil
    · intro hc; cases hc
  · intro mem valid ic log st hI _ _ hf
    obtain ⟨h1, h2, h3, h4⟩ := hI
    refine ⟨chain_snoc _ log _ h1 ?_, head_snoc _ log _ h2 ?_, ?_, ?_, ?_, ?_⟩
    · intro y hy
      obtain ⟨_, b, c, d, e⟩ := h3 y hy
      exact ⟨b.symm, c.symm, d, e⟩
    · intro hnil
      obtain ⟨a, b⟩ := h4 hnil
      exact ⟨b, a⟩
    · intro last hlast
      rw [List.getLast?_concat] at hlast
      simp only [Option.mem_def, Option.some.injEq] at hlast
      rw [← hlast]; exact ⟨rfl, rfl, rfl⟩
    · intro hnil; simp at hnil
    · intro _
      exact ⟨_, List.getLast?_concat log, rfl, List.length_eq_zero.1 hf, rfl⟩
    · intro hc; exact absurd rfl hc
  · intro mem valid ic log st hI _ _ hf _
    obtain ⟨h1, h2, h3, h4⟩ := hI
    refine ⟨chain_snoc _ log _ h1 ?_, head_snoc _ log _ h2 ?_, ?_, ?_, ?_, fun _ => rfl⟩
    · intro y hy
      obtain ⟨_, b, c, d, e⟩ := h3 y hy
      exact ⟨b.symm, c.symm, d, e⟩
    · intro hnil
      obtain ⟨a, b⟩ := h4 hnil
      exact ⟨b, a⟩
    · intro last hlast
      rw [List.getLast?_concat] at hlast
      simp only [Option.mem_def, Option.some.injEq] at hlast
      rw [← hlast]; exact ⟨rfl, rfl, rfl⟩
    · intro hnil; simp at hnil
    · intro hc; cases hc
  · intro mem valid ic log st hI _ _ hf _
    obtain ⟨h1, h2, h3, h4⟩ := hI
    refine ⟨chain_snoc _ log _ h1 ?_, head_snoc _ log _ h2 ?_, ?_, ?_⟩
    · intro y hy
      obtain ⟨_, b, c, d, e⟩ := h3 y hy
      exact ⟨b.symm, c.symm, d, e⟩
    · intro hnil
      obtain ⟨a, b⟩ := h4 hnil
      exact ⟨b, a⟩
    · intro last hlast
      rw [List.getLast?_concat] at hlast
      simp only [Option.mem_def, Option.some.injEq] at hlast
      rw [← hlast]; exact ⟨rfl, rfl, rfl, rfl, hne hf⟩
    · intro hnil; simp at hnil

theorem EndBlock_log_length (env : Env S M R E) (sched : Schedule R E) (fuel : Nat)
    (contracts : List ContractInfo) (w : World S M) (r : EndBlockResult S M R E)
    (h : EndBlock env sched fuel contracts w = some r) :
    r.log.length ≤ (validContractAddresses contracts).length := by
  refine EndBlockLoop_rule env sched w.store
    (fun _ valid _ log => ValidMap valid ∧
      log.length + valid.length ≤ (validContractAddresses contracts).length)
    (fun r => r.log.length ≤ (validContractAddresses contracts).length)
    ?_ ?_ ?_ ?_ ?_ fuel w.mem _ _ [] r
    ⟨validContractAddresses_valid contracts, by simp⟩ h
  · intro mem valid ic log hI _
    show log.length ≤ _
    omega
  · intro mem valid ic log st hI hv _
    show (log ++ [_]).length ≤ _
    rw [List.length_append, List.length_singleton]; omega
  · intro mem valid ic log st hI hv _ _
    show (log ++ [_]).length ≤ _
    rw [List.length_append, List.length_singleton]; omega
  · intro mem valid ic log st hI hv _ _ _
    show (log ++ [_]).length ≤ _
    rw [List.length_append, List.length_singleton]; omega
  · intro mem valid ic log st hI hv hh hf _
    have hinv := iterationHooks_inv env sched valid hI.1 { store := w.store, mem := mem }
    rw [hh] at hinv
    have hne : st.failed ≠ [] := fun h0 => hf (by rw [h0]; rfl)
    have hlt := rollback_length_lt env mem valid st.failed hne hinv.failed_subset
    refine ⟨hI.1.rollback env mem st.failed, ?_⟩
    rw [List.length_append, List.length_singleton]; omega

theorem EndBlock_returns (env : Env S M R E) (sched : Schedule R E) (fuel : Nat)
    (contracts : List ContractInfo) (w : World S M)
    (hfuel : (validContractAddresses contracts).length ≤ fuel) :
    ∃ r, EndBlock env sched fuel contracts w = some r :=
  EndBlockLoop_returns env sched w.store fuel w.mem _ _ []
    (validContractAddresses_valid contracts) hfuel

end ChainLemmas

/-! ## Trigger storage -/

section TriggerLemmas

variable {B K : Type}

theorem get_set (store : List Order) (x : Order) (id : Nat) :
    GetTriggeredOrder (SetTriggeredOrder store x) id =
      if x.Id = id then some x else GetTriggeredOrder store id := by
  induction store with
  | nil => simp [SetTriggeredOrder, GetTriggeredOrder]
  | cons o rest ih =>
    by_cases ho : o.Id = x.Id
    · simp only [SetTriggeredOrder, ho, if_true, GetTriggeredOrder]
      by_cases hx : x.Id = id
      · simp [hx]
      · simp [hx]
    · simp only [SetTriggeredOrder, ho, if_false, GetTriggeredOrder, ih]
      by_cases hx : x.Id = id
      · have : ¬ o.Id = id := fun h => ho (h.trans hx.symm)
        simp [hx, this]
      · simp [hx]

theorem get_of_mem (store : List Order) (h : (store.map Order.Id).Nodup) :
    ∀ o ∈ store, GetTriggeredOrder store o.Id = some o := by
  induction store with
  | nil => intro o ho; cases ho
  | cons a rest ih =>
    intro o ho
    simp only [List.map_cons, List.nodup_cons] at h
    rcases List.mem_cons.1 ho with ho | ho
    · subst ho; simp [GetTriggeredOrder]
    · have hne : ¬ a.Id = o.Id := by
        intro he
        apply h.1
        rw [he]
        exact List.mem_map_of_mem Order.Id ho
      simp only [GetTriggeredOrder, hne, if_false]
      exact ih h.2 o ho

theorem get_none (store : List Order) (id : Nat) (h : id ∉ store.map Order.Id) :
    GetTriggeredOrder store id = none := by
  induction store with
  | nil => rfl
  | cons a rest ih =>
    simp only [List.map_cons, List.mem_cons, not_or] at h
    have hne : ¬ a.Id = id := fun he => h.1 he.symm
    simp only [GetTriggeredOrder, hne, if_false]
    exact ih h.2

theorem updateStored_eq (totalOutcome : ExecutionOutcome) (store : List Order) (o : Order) :
    updateStored totalOutcome store o =
      if Activates totalOutcome o then SetTriggeredOrder store { o with TriggerStatus := true }
      else store := by
  unfold updateStored Activates
  by_cases h1 : o.PositionDirection = PositionDirection.LONG ∧ o.TriggerPrice ≤ totalOutcome.MaxPrice
  · rw [if_pos h1, if_pos (Or.inl h1)]
  · by_cases h2 : o.PositionDirection = PositionDirection.SHORT ∧
        o.TriggerPrice ≥ totalOutcome.MinPrice
    · rw [if_neg h1, if_pos h2, if_pos (Or.inr h2)]
    · rw [if_neg h1, if_neg h2, if_neg (not_or.2 ⟨h1, h2⟩)]

theorem updateCached_eq (totalOutcome : ExecutionOutcome) (o : Order) :
    updateCached totalOutcome o =
      if Activates totalOutcome o then { o with TriggerStatus := true } else o := by
  unfold updateCached Activates
  by_cases h1 : o.PositionDirection = PositionDirection.LONG ∧ o.TriggerPrice ≤ totalOutcome.MaxPrice
  · rw [if_pos h1, if_pos (Or.inl h1)]
  · by_cases h2 : o.PositionDirection = PositionDirection.SHORT ∧
        o.TriggerPrice ≥ totalOutcome.MinPrice
    · rw [if_neg h1, if_pos h2, if_pos (Or.inr h2)]
    · rw [if_neg h1, if_neg h2, if_neg (not_or.2 ⟨h1, h2⟩)]

theorem updateCached_id (totalOutcome : ExecutionOutcome) (o : Order) :
    (updateCached totalOutcome o).Id = o.Id := by
  rw [updateCached_eq]; split <;> rfl

theorem updateCached_status (totalOutcome : ExecutionOutcome) (o : Order) :
    (updateCached totalOutcome o).TriggerStatus = true ↔
      o.TriggerStatus = true ∨ Activates totalOutcome o := by
  rw [updateCached_eq]
  by_cases h : Activates totalOutcome o
  · simp [h]
  · simp [h]

theorem foldl_updateStored_other (totalOutcome : ExecutionOutcome) (id : Nat)
    (l : List Order) :
    ∀ store : List Order, (∀ o ∈ l, o.Id = id → ¬ Activates totalOutcome o) →
      GetTriggeredOrder (l.foldl (updateStored totalOutcome) store) id =
        GetTriggeredOrder store id := by
  induction l with
  | nil => intro store _; rfl
  | cons a rest ih =>
    intro store h
    simp only [List.foldl_cons]
    rw [ih _ (fun o ho => h o (List.mem_cons_of_mem a ho)), updateStored_eq]
    by_cases ha : Activates totalOutcome a
    · have hne : ¬ a.Id = id := fun he => h a (List.mem_cons_self a rest) he ha
      simp only [ha, if_true, get_set, hne, if_false]
    · simp only [ha, if_false]

theorem foldl_updateStored_hit (totalOutcome : ExecutionOutcome) (l : List Order) :
    ∀ store : List Order, (l.map Order.Id).Nodup →
      ∀ o ∈ l, Activates totalOutcome o →
        GetTriggeredOrder (l.foldl (updateStored totalOutcome) store) o.Id =
          some { o with TriggerStatus := true } := by
  induction l with
  | nil => intro store _ o ho; cases ho
  | cons a rest ih =>
    intro store hnd o ho hact
    simp only [List.map_cons, List.nodup_cons] at hnd
    simp only [List.foldl_cons]
    rcases List.mem_cons.1 ho with ho | ho
    · subst ho
      rw [foldl_updateStored_other totalOutcome o.Id rest _ ?_, updateStored_eq]
      · simp only [hact, if_true, get_set]
      · intro x hx hxe
        exact absurd (hxe ▸ List.mem_map_of_mem Order.Id hx) hnd.1
    · exact ih _ hnd.2 o ho hact

theorem foldl_setCached_other (totalOutcome : ExecutionOutcome) (id : Nat) (l : List Order) :
    ∀ store : List Order, id ∉ l.map Order.Id →
      GetTriggeredOrder
        (l.foldl (fun store order => SetTriggeredOrder store (updateCached totalOutcome order))
          store) id = GetTriggeredOrder store id := by
  induction l with
  | nil => intro store _; rfl
  | cons a rest ih =>
    intro store h
    simp only [List.map_cons, List.mem_cons, not_or] at h
    simp only [List.foldl_cons]
    rw [ih _ h.2, get_set, updateCached_id]
    have hne : ¬ a.Id = id := fun he => h.1 he.symm
    simp only [hne, if_false]

theorem foldl_setCached_hit (totalOutcome : ExecutionOutcome) (l : List Order) :
    ∀ store : List Order, (l.map Order.Id).Nodup →
      ∀ o ∈ l,
        GetTriggeredOrder
          (l.foldl (fun store order => SetTriggeredOrder store (updateCached totalOutcome order))
            store) o.Id = some (updateCached totalOutcome o) := by
  induction l with
  | nil => intro store _ o ho; cases ho
  | cons a rest ih =>
    intro store hnd o ho
    simp only [List.map_cons, List.nodup_cons] at hnd
    simp only [List.foldl_cons]
    rcases List.mem_cons.1 ho with ho | ho
    · subst ho
      rw [foldl_setCached_other totalOutcome o.Id rest _ hnd.1, get_set, updateCached_id]
      simp
    · exact ih _ hnd.2 o ho

/-- Storage lookup after `UpdateTriggeredOrderForPair` for an id that no cache order has. -/
theorem update_get_stored (env : ExchangeEnv B K) (st : PairState B K)
    (totalOutcome : ExecutionOutcome) (hstore : (st.triggered.map Order.Id).Nodup)
    (o : Order) (ho : o ∈ st.triggered)
    (hdisj : o.Id ∉ (st.blockOrders.filter env.GetTriggeredOrders).map Order.Id) :
    GetTriggeredOrder (UpdateTriggeredOrderForPair env st totalOutcome).triggered o.Id =
      some (if Activates totalOutcome o then { o with TriggerStatus := true } else o) := by
  unfold UpdateTriggeredOrderForPair GetAllTriggeredOrdersForPair
  simp only
  rw [foldl_setCached_other totalOutcome o.Id _ _ hdisj]
  by_cases hact : Activates totalOutcome o
  · simp only [hact, if_true]
    exact foldl_updateStored_hit totalOutcome st.triggered st.triggered hstore o ho hact
  · simp only [hact, if_false]
    rw [foldl_updateStored_other totalOutcome o.Id st.triggered st.triggered ?_]
    · exact get_of_mem st.triggered hstore o ho
    · intro x hx hxe
      have : x = o := List.inj_on_of_nodup_map hstore hx ho hxe
      rw [this]; exact hact

/-- Storage lookup after `UpdateTriggeredOrderForPair` for the id of a cache order. -/
theorem update_get_cached (env : ExchangeEnv B K) (st : PairState B K)
    (totalOutcome : ExecutionOutcome)
    (hcache : ((st.blockOrders.filter env.GetTriggeredOrders).map Order.Id).Nodup)
    (o : Order) (ho : o ∈ st.blockOrders) (hsel : env.GetTriggeredOrders o = true) :
    GetTriggeredOrder (UpdateTriggeredOrderForPair env st totalOutcome).triggered o.Id =
      some (updateCached totalOutcome o) := by
  unfold UpdateTriggeredOrderForPair GetAllTriggeredOrdersForPair
  simp only
  exact foldl_setCached_hit totalOutcome _ _ hcache o (List.mem_filter.2 ⟨ho, hsel⟩)

end TriggerLemmas

section MoveLemmas

variable {B K : Type}

theorem foldl_move (l : List Order) :
    ∀ s : PairState B K,
      (l.foldl
        (fun s order =>
          if order.TriggerStatus then
            { s with
              blockOrders := BlockOrdersAdd s.blockOrders (promote order)
              triggered := RemoveTriggeredOrder s.triggered order.Id }
          else s) s) =
      { s with
        blockOrders := s.blockOrders ++ (l.filter (fun o => o.TriggerStatus)).map promote
        triggered :=
          s.triggered.filter
            (fun o => decide (o.Id ∉ (l.filter (fun o => o.TriggerStatus)).map Order.Id)) } := by
  induction l with
  | nil =>
    intro s
    simp
  | cons a rest ih =>
    intro s
    simp only [List.foldl_cons]
    rw [ih]
    by_cases ha : a.TriggerStatus = true
    · simp only [ha, if_true, List.filter_cons_of_pos, List.map_cons, List.append_assoc,
        List.singleton_append, RemoveTriggeredOrder, BlockOrdersAdd, List.filter_filter, List.mem_cons, not_or]
      congr 1
      apply List.filter_congr
      intro x _
      simp only [Bool.decide_and, Bool.and_comm]
    · simp only [Bool.not_eq_true] at ha
      simp [ha]

theorem move_blockOrders (st : PairState B K) :
    (MoveTriggeredOrderForPair st).blockOrders =
      st.blockOrders ++ (st.triggered.filter (fun o => o.TriggerStatus)).map promote := by
  unfold MoveTriggeredOrderForPair GetAllTriggeredOrdersForPair
  simp only
  rw [foldl_move]

theorem move_triggered (st : PairState B K) (hstore : (st.triggered.map Order.Id).Nodup) :
    (MoveTriggeredOrderForPair st).triggered =
      st.triggered.filter (fun o => !o.TriggerStatus) := by
  unfold MoveTriggeredOrderForPair GetAllTriggeredOrdersForPair
  simp only
  rw [foldl_move]
  simp only
  apply List.filter_congr
  intro x hx
  by_cases hs : x.TriggerStatus = true
  · have : x.Id ∈ (st.triggered.filter (fun o => o.TriggerStatus)).map Order.Id :=
      List.mem_map_of_mem Order.Id (List.mem_filter.2 ⟨hx, hs⟩)
    simp [hs, this]
  · simp only [Bool.not_eq_true] at hs
    have : x.Id ∉ (st.triggered.filter (fun o => o.TriggerStatus)).map Order.Id := by
      intro hm
      obtain ⟨y, hy, hye⟩ := List.mem_map.1 hm
      obtain ⟨hy1, hy2⟩ := List.mem_filter.1 hy
      have : y = x := List.inj_on_of_nodup_map hstore hy1 hx hye
      rw [this, hs] at hy2
      cases hy2
    simp [hs, this]

theorem move_rest (st : PairState B K) :
    (MoveTriggeredOrderForPair st).blockCancels = st.blockCancels ∧
    (MoveTriggeredOrderForPair st).orderbook = st.orderbook ∧
    (MoveTriggeredOrderForPair st).keeper = st.keeper := by
  unfold MoveTriggeredOrderForPair GetAllTriggeredOrdersForPair
  simp only
  rw [foldl_move]
  exact ⟨rfl, rfl, rfl⟩

end MoveLemmas

/-! ## Properties of the block coordinator -/

section BlockCoordinator

variable {S M R E : Type}

theorem mapStore_length_succ {V : Type} (m : List (String × V)) (k : String) (v : V) :
    (mapStore m k v).length ≤ m.length + 1 := by
  induction m with
  | nil => simp [mapStore]
  | cons p rest ih =>
    obtain ⟨k0, v0⟩ := p
    by_cases h : k0 = k
    · simp [mapStore, h]
    · simp only [mapStore, h, if_false, List.length_cons]; omega

theorem validContractAddresses_length (contracts : List ContractInfo) :
    (validContractAddresses contracts).length ≤ contracts.length := by
  unfold validContractAddresses
  have key : ∀ (l : List ContractInfo) (m : List (String × ContractInfo)),
      (l.foldl (fun m contractInfo =>
        mapStore m contractInfo.ContractAddr contractInfo) m).length ≤ m.length + l.length := by
    intro l
    induction l with
    | nil => intro m; simp
    | cons a rest ih =>
      intro m
      simp only [List.foldl_cons, List.length_cons]
      have h1 := ih (mapStore m a.ContractAddr a)
      have h2 := mapStore_length_succ m a.ContractAddr a
      omega
  simpa using key contracts []

theorem iterationHooks_deposit_all (env : Env S M R E) (sched : Schedule R E)
    (valid : List (String × ContractInfo)) (w : World S M) (st : IterState S M R E)
    (h : iterationHooks env sched valid w = Flow.cont st) :
    ∀ k ∈ mapKeys valid, ∃ c ∈ st.calls, c.site = Site.deposit ∧ c.contractAddr = k := by
  unfold iterationHooks at h
  cases hd : depositPhase env sched valid (iterInit sched valid w) with
  | panicked st0 => rw [hd] at h; cases h
  | cont st1 =>
    rw [hd] at h
    simp only at h
    cases hs : settlementsPhase env sched valid (matchPhase env sched valid st1) with
    | panicked st0 => rw [hs] at h; cases h
    | cont st3 =>
      rw [hs] at h
      simp only at h
      intro k hk
      obtain ⟨c, hc, hcs⟩ := forEach_deposit_all env _ _ _ hd k
        ((mem_mapKeys_rangeValid sched valid k).2 hk)
      have g1 : Grows st1 (matchPhase env sched valid st1) := foldl_runnable_grows env _ st1
      have g2 := settlementsPhase_grows env sched valid (matchPhase env sched valid st1)
      rw [hs] at g2
      have g3 := finalizePhase_grows env sched valid st3
      rw [h] at g3
      exact ⟨c, g3.2 c (g2.2 c (g1.2 c hc)), hcs⟩

/-- C1: in `EndBlock` the branched store is committed only at the end of an iteration whose
failed set is empty. Every iteration starts from a fresh branch of the store at entry; after
an iteration in which a contract failed the store of `ctx` is still the store at entry; the
run ends with `msCached.Write()` only after an iteration without failures, and then the
store is that iteration's branch; on every other exit, in particular when all contracts
failed, the store at return is the store at entry. -/
theorem EndBlock_commits_only_clean_iteration (env : Env S M R E) (sched : Schedule R E)
    (fuel : Nat) (contracts : List ContractInfo) (w : World S M)
    (hfuel : (validContractAddresses contracts).length ≤ fuel) :
    ∃ r, EndBlock env sched fuel contracts w = some r ∧
      (∀ it ∈ r.log, it.storeBefore = w.store ∧
        it.hooks = (iterationHooks env sched it.remaining ⟨w.store, it.snapshot⟩).val ∧
        (it.hooks.failed ≠ [] → it.storeAfter = w.store)) ∧
      (∀ last ∈ r.log.getLast?, r.store = last.storeAfter) ∧
      (r.exit = Exit.committed →
        ∃ last, r.log.getLast? = some last ∧ last.hooks.failed = [] ∧
          last.panicked = false ∧ r.store = last.hooks.world.store) ∧
      (r.exit ≠ Exit.committed → r.store = w.store) := by
  obtain ⟨r, hr⟩ := EndBlock_returns env sched fuel contracts w hfuel
  have hs := EndBlock_log_sound env sched fuel contracts w r hr
  obtain ⟨_, _, c3, _, c5, c6⟩ := EndBlock_log_chain env sched fuel contracts w r hr
  refine ⟨r, hr, ?_, fun last hl => (c3 last hl).1, ?_, c6⟩
  · intro it hit
    obtain ⟨_, h2, h3, _, h5, _, _⟩ := hs it hit
    exact ⟨h2, h3, fun hne => h5 (Or.inr hne)⟩
  · intro hc
    obtain ⟨last, h1, h2, h3, h4⟩ := c5 hc
    exact ⟨last, h1, h3, h2, h4⟩

/-- C1 on the concrete block: two iterations of fuel are enough, and the statement holds there. -/
theorem EndBlock_commits_only_clean_iteration_witness :
    (validContractAddresses demoContracts).length ≤ 2 ∧
    (∃ r, EndBlock demoEnv idSchedule 2 demoContracts demoWorld = some r ∧
      (∀ it ∈ r.log, it.storeBefore = demoWorld.store ∧
        it.hooks = (iterationHooks demoEnv idSchedule it.remaining ⟨demoWorld.store, it.snapshot⟩).val ∧
        (it.hooks.failed ≠ [] → it.storeAfter = demoWorld.store)) ∧
      (∀ last ∈ r.log.getLast?, r.store = last.storeAfter) ∧
      (r.exit = Exit.committed →
        ∃ last, r.log.getLast? = some last ∧ last.hooks.failed = [] ∧
          last.panicked = false ∧ r.store = last.hooks.world.store) ∧
      (r.exit ≠ Exit.committed → r.store = demoWorld.store)) :=
  ⟨by decide, EndBlock_commits_only_clean_iteration demoEnv idSchedule 2 demoContracts demoWorld (by decide)⟩

/-- C2: an iteration of the `EndBlock` loop in which a contract failed ends in the rollback.
From any state at the head of the loop with remaining contracts, if the hooks of the
iteration ran without panic and left a non-empty failed set, then the loop goes on (or, when
the iteration counter reaches zero, returns) with the in-memory state equal to the snapshot
taken at the head of the iteration with `DeepFilterAccount` applied for every failed
contract, in ascending order, and with the remaining contracts equal to the previous ones
whose address is not in the failed set; the store of `ctx` is untouched. `EndBlock` is this
loop started from all registered contracts. -/
theorem EndBlock_rollback_restores_snapshot (env : Env S M R E) (sched : Schedule R E)
    (fuel : Nat) (ctxStore : S) (mem : M) (valid : List (String × ContractInfo))
    (iterCounter : Int) (log : List (IterRecord S M R E))
    (hvalid : valid.length > 0)
    (hcont : (iterationHooks env sched valid ⟨ctxStore, mem⟩).isPanicked = false)
    (hfail : (iterationHooks env sched valid ⟨ctxStore, mem⟩).val.failed ≠ []) :
    (iterCounter - 1 ≠ 0 →
      EndBlockLoop env sched (fuel + 1) ctxStore mem valid iterCounter log =
        EndBlockLoop env sched fuel ctxStore
          ((ToOrderedSlice (iterationHooks env sched valid ⟨ctxStore, mem⟩).val.failed).foldl
            (fun m a => env.DeepFilterAccount a m) mem)
          (valid.filter (fun p =>
            decide (p.1 ∉ (iterationHooks env sched valid ⟨ctxStore, mem⟩).val.failed)))
          (iterCounter - 1)
          (log ++ [rollbackRecord env ctxStore mem valid
            (iterationHooks env sched valid ⟨ctxStore, mem⟩).val])) ∧
    (iterCounter - 1 = 0 →
      ∃ r, EndBlockLoop env sched (fuel + 1) ctxStore mem valid iterCounter log = some r ∧
        r.exit = Exit.allFailed ∧ r.store = ctxStore ∧
        r.mem =
          (ToOrderedSlice (iterationHooks env sched valid ⟨ctxStore, mem⟩).val.failed).foldl
            (fun m a => env.DeepFilterAccount a m) mem ∧
        r.remaining = valid.filter (fun p =>
          decide (p.1 ∉ (iterationHooks env sched valid ⟨ctxStore, mem⟩).val.failed)) ∧
        r.log = log ++ [rollbackRecord env ctxStore mem valid
          (iterationHooks env sched valid ⟨ctxStore, mem⟩).val]) ∧
    ((rollbackRecord env ctxStore mem valid
        (iterationHooks env sched valid ⟨ctxStore, mem⟩).val).snapshot = mem ∧
      (rollbackRecord env ctxStore mem valid
        (iterationHooks env sched valid ⟨ctxStore, mem⟩).val).memAfter =
        (ToOrderedSlice (iterationHooks env sched valid ⟨ctxStore, mem⟩).val.failed).foldl
          (fun m a => env.DeepFilterAccount a m) mem ∧
      (rollbackRecord env ctxStore mem valid
        (iterationHooks env sched valid ⟨ctxStore, mem⟩).val).remainingAfter =
        valid.filter (fun p =>
          decide (p.1 ∉ (iterationHooks env sched valid ⟨ctxStore, mem⟩).val.failed))) ∧
    (∀ p, p ∈ valid.filter (fun p =>
        decide (p.1 ∉ (iterationHooks env sched valid ⟨ctxStore, mem⟩).val.failed)) ↔
      p ∈ valid ∧ p.1 ∉ (iterationHooks env sched valid ⟨ctxStore, mem⟩).val.failed) ∧
    (∀ (contracts : List ContractInfo) (w : World S M),
      EndBlock env sched (fuel + 1) contracts w =
        EndBlockLoop env sched (fuel + 1) w.store w.mem (validContractAddresses contracts)
          ((validContractAddresses contracts).length : Int) []) := by
  have hfst := rollback_fst env mem valid
    (iterationHooks env sched valid ⟨ctxStore, mem⟩).val.failed
  have hsnd := rollback_snd env mem valid
    (iterationHooks env sched valid ⟨ctxStore, mem⟩).val.failed
  cases hh : iterationHooks env sched valid ⟨ctxStore, mem⟩ with
  | panicked st => rw [hh] at hcont; cases hcont
  | cont st =>
    rw [hh] at hfail hfst hsnd
    simp only [Flow.val] at hfail hfst hsnd ⊢
    have hlen : ¬ st.failed.length = 0 := fun h0 => hfail (List.length_eq_zero.1 h0)
    refine ⟨?_, ?_, ⟨rfl, hfst, hsnd⟩, ?_, fun _ _ => rfl⟩
    · intro hc
      rw [← hfst, ← hsnd]
      simp only [EndBlockLoop, DeepCopy, hvalid, if_true, hh, hlen, if_false, hc]
    · intro hc
      rw [← hfst, ← hsnd]
      simp only [EndBlockLoop, DeepCopy, hvalid, if_true, hh, hlen, if_false, hc]
      exact ⟨_, rfl, rfl, rfl, rfl, rfl, rfl⟩
    · intro p
      simp only [List.mem_filter, decide_eq_true_eq]

/-- C2 on the concrete block: at the head of its first iteration both contracts remain and
the in-memory state lists `b`; the finalize call of `b` fails, so the loop goes on with `b`
filtered out of the in-memory state and deleted from the remaining contracts. -/
theorem EndBlock_rollback_restores_snapshot_witness :
    ((validContractAddresses demoContracts).length > 0 ∧
      (iterationHooks demoEnv idSchedule (validContractAddresses demoContracts)
        ⟨0, ["b"]⟩).isPanicked = false ∧
      (iterationHooks demoEnv idSchedule (validContractAddresses demoContracts)
        ⟨0, ["b"]⟩).val.failed ≠ []) ∧
    ((2 : Int) - 1 ≠ 0 →
      EndBlockLoop demoEnv idSchedule (1 + 1) 0 ["b"] (validContractAddresses demoContracts) 2
          [] =
        EndBlockLoop demoEnv idSchedule 1 0
          ((ToOrderedSlice (iterationHooks demoEnv idSchedule
              (validContractAddresses demoContracts) ⟨0, ["b"]⟩).val.failed).foldl
            (fun m a => demoEnv.DeepFilterAccount a m) ["b"])
          ((validContractAddresses demoContracts).filter (fun p =>
            decide (p.1 ∉ (iterationHooks demoEnv idSchedule
              (validContractAddresses demoContracts) ⟨0, ["b"]⟩).val.failed)))
          (2 - 1)
          ([] ++ [rollbackRecord demoEnv 0 ["b"] (validContractAddresses demoContracts)
            (iterationHooks demoEnv idSchedule (validContractAddresses demoContracts)
              ⟨0, ["b"]⟩).val])) ∧
    (ToOrderedSlice (iterationHooks demoEnv idSchedule
        (validContractAddresses demoContracts) ⟨0, ["b"]⟩).val.failed).foldl
      (fun m a => demoEnv.DeepFilterAccount a m) ["b"] = [] ∧
    mapKeys ((validContractAddresses demoContracts).filter (fun p =>
      decide (p.1 ∉ (iterationHooks demoEnv idSchedule
        (validContractAddresses demoContracts) ⟨0, ["b"]⟩).val.failed))) = ["a"] ∧
    (EndBlock demoEnv idSchedule 2 demoContracts demoWorld).map
      (fun r => (r.store, r.mem, mapKeys r.remaining, r.exit)) =
      some (11, ["a"], ["a"], Exit.committed) :=
  ⟨⟨by decide, by decide, by decide⟩,
    (EndBlock_rollback_restores_snapshot demoEnv idSchedule 1 0 ["b"]
      (validContractAddresses demoContracts) 2 [] (by decide) (by decide) (by decide)).1,
    by decide, by decide, by decide⟩

/-- C3: the failure-exclusion loop of `EndBlock` terminates: with `N` entries in
`validContractAddresses` at entry (at most one per registered contract), `N` iterations of
fuel are enough for `EndBlock` to return, the loop body runs at most `N` times, every
address in the failed set of an iteration is a key of the remaining set, and every
iteration that ends in the rollback leaves strictly fewer remaining contracts. -/
theorem EndBlock_terminates (env : Env S M R E) (sched : Schedule R E)
    (fuel : Nat) (contracts : List ContractInfo) (w : World S M)
    (hfuel : (validContractAddresses contracts).length ≤ fuel) :
    ∃ r, EndBlock env sched fuel contracts w = some r ∧
      r.log.length ≤ (validContractAddresses contracts).length ∧
      (validContractAddresses contracts).length ≤ contracts.length ∧
      ∀ it ∈ r.log,
        (∀ a ∈ it.hooks.failed, a ∈ mapKeys it.remaining) ∧
        (it.panicked = false → it.hooks.failed ≠ [] →
          it.remainingAfter.length < it.remaining.length) := by
  obtain ⟨r, hr⟩ := EndBlock_returns env sched fuel contracts w hfuel
  have hs := EndBlock_log_sound env sched fuel contracts w r hr
  refine ⟨r, hr, EndBlock_log_length env sched fuel contracts w r hr,
    validContractAddresses_length contracts, ?_⟩
  intro it hit
  obtain ⟨h1, _, h3, _, _, _, h7⟩ := hs it hit
  have hinv := iterationHooks_inv env sched it.remaining h1 ⟨w.store, it.snapshot⟩
  rw [← h3] at hinv
  refine ⟨hinv.failed_subset, ?_⟩
  intro hp hf
  rw [(h7 hp hf).2]
  exact rollback_length_lt env it.snapshot it.remaining it.hooks.failed hf hinv.failed_subset

/-- C3 on the concrete block: it has two contracts and returns within two iterations. -/
theorem EndBlock_terminates_witness :
    (validContractAddresses demoContracts).length ≤ 2 ∧
    (∃ r, EndBlock demoEnv idSchedule 2 demoContracts demoWorld = some r ∧
      r.log.length ≤ (validContractAddresses demoContracts).length ∧
      (validContractAddresses demoContracts).length ≤ demoContracts.length ∧
      ∀ it ∈ r.log,
        (∀ a ∈ it.hooks.failed, a ∈ mapKeys it.remaining) ∧
        (it.panicked = false → it.hooks.failed ≠ [] →
          it.remainingAfter.length < it.remaining.length)) :=
  ⟨by decide, EndBlock_terminates demoEnv idSchedule 2 demoContracts demoWorld (by decide)⟩

/-- The deferred `recover` of `runnable` in the matching phase, for faults that reach the
goroutine of the task: if the execution of a contract with `NeedOrderMatching` returns an
error, or panics on the goroutine of the task, in whatever state the earlier tasks left,
the contract is in the failed set at the end of the phase; every remaining contract with
`NeedOrderMatching` had its execution invoked, whatever the other tasks did; and a contract
failed in this phase stays failed through the later hooks and is deleted from the remaining
contracts by the rollback. -/
theorem runnable_fault_caught (env : Env S M R E) (sched : Schedule R E)
    (valid : List (String × ContractInfo)) (st : IterState S M R E) (memStateCopy : M) :
    (∀ pre info post, sched.run (validContractsInfo sched valid) = pre ++ info :: post →
      info.NeedOrderMatching = true →
      (env.HandleExecutionForContract info
        (pre.foldl (fun s contractInfo => runnable env contractInfo s) st).world).status
          ≠ Status.ok →
      info.ContractAddr ∈ (matchPhase env sched valid st).failed) ∧
    (∀ p ∈ valid, p.2.NeedOrderMatching = true →
      ∃ c ∈ (matchPhase env sched valid st).calls,
        c.site = Site.execution ∧ c.contractAddr = p.2.ContractAddr) ∧
    (∀ st3 st4, settlementsPhase env sched valid (matchPhase env sched valid st) = Flow.cont st3 →
      finalizePhase env sched valid st3 = Flow.cont st4 →
      ∀ a ∈ (matchPhase env sched valid st).failed,
        a ∈ st4.failed ∧ a ∉ mapKeys (rollback env memStateCopy valid st4.failed).2) := by
  refine ⟨?_, ?_, ?_⟩
  · intro pre info post hsplit hg hstat
    unfold matchPhase runParallel
    rw [hsplit, List.foldl_append, List.foldl_cons]
    obtain ⟨c, _, _, _, hcs, hfail⟩ :=
      runnable_logs env info (pre.foldl (fun s contractInfo => runnable env contractInfo s) st) hg
    rw [hcs] at hfail
    exact (foldl_runnable_grows env post _).1 _ (hfail hstat)
  · intro p hp hg
    have hmem : p.2 ∈ sched.run (validContractsInfo sched valid) :=
      (mem_validContractsInfo sched valid p.2).2 ⟨p, hp, rfl⟩
    obtain ⟨pre, post, hsplit⟩ := List.append_of_mem hmem
    unfold matchPhase runParallel
    rw [hsplit, List.foldl_append, List.foldl_cons]
    obtain ⟨c, hc, hsite, haddr, _, _⟩ :=
      runnable_logs env p.2 (pre.foldl (fun s contractInfo => runnable env contractInfo s) st) hg
    exact ⟨c, (foldl_runnable_grows env post _).2 c hc, hsite, haddr⟩
  · intro st3 st4 h3 h4 a ha
    have g2 := settlementsPhase_grows env sched valid (matchPhase env sched valid st)
    rw [h3] at g2
    have g3 := finalizePhase_grows env sched valid st3
    rw [h4] at g3
    have hin : a ∈ st4.failed := g3.1 a (g2.1 a ha)
    refine ⟨hin, ?_⟩
    rw [rollback_snd]
    intro hk
    simp only [mapKeys, List.mem_map, List.mem_filter] at hk
    obtain ⟨p, ⟨_, hp⟩, hpa⟩ := hk
    rw [hpa] at hp
    simp [hin] at hp

/-- C5 (counterexample): contract `b` has `NeedOrderMatching = false`, and in the first
iteration of the concrete block its deposit handling and its finalize call are invoked and
it is the one contract in the failed set. -/
theorem EndBlock_unmatched_contract_fails :
    (mapIndex (validContractAddresses demoContracts) "b").NeedOrderMatching = false ∧
    (iterationHooks demoEnv idSchedule (validContractAddresses demoContracts)
      demoWorld).val.failed = ["b"] ∧
    (iterationHooks demoEnv idSchedule (validContractAddresses demoContracts)
      demoWorld).val.calls =
      [⟨Site.deposit, "a", Status.ok⟩, ⟨Site.deposit, "b", Status.ok⟩,
       ⟨Site.execution, "a", Status.ok⟩, ⟨Site.settlements, "a", Status.ok⟩,
       ⟨Site.finalize, "a", Status.ok⟩, ⟨Site.finalize, "b", Status.err⟩] ∧
    (EndBlock demoEnv idSchedule 2 demoContracts demoWorld).map
      (fun r => r.log.map (fun it => it.hooks.failed)) = some [["b"], []] := by
  decide

end BlockCoordinator

/-! ## Properties of the per-pair executor -/

section PairRunProperties

variable {B K : Type}

theorem mem_set (store : List Order) (x o : Order) :
    o ∈ SetTriggeredOrder store x → o = x ∨ o ∈ store := by
  induction store with
  | nil => intro h; simp only [SetTriggeredOrder, List.mem_singleton] at h; exact Or.inl h
  | cons a rest ih =>
    intro h
    by_cases ha : a.Id = x.Id
    · simp only [SetTriggeredOrder, ha, if_true, List.mem_cons] at h
      rcases h with h | h
      · exact Or.inl h
      · exact Or.inr (List.mem_cons_of_mem a h)
    · simp only [SetTriggeredOrder, ha, if_false, List.mem_cons] at h
      rcases h with h | h
      · exact Or.inr (by rw [h]; exact List.mem_cons_self a rest)
      · rcases ih h with h1 | h1
        · exact Or.inl h1
        · exact Or.inr (List.mem_cons_of_mem a h1)

theorem foldl_updateStored_unset (totalOutcome : ExecutionOutcome) (l : List Order) :
    ∀ store : List Order, ∀ o ∈ l.foldl (updateStored totalOutcome) store,
      o.TriggerStatus = false → o ∈ store := by
  induction l with
  | nil => intro store o ho _; exact ho
  | cons a rest ih =>
    intro store o ho hs
    simp only [List.foldl_cons] at ho
    have h1 := ih _ o ho hs
    rw [updateStored_eq] at h1
    by_cases ha : Activates totalOutcome a
    · simp only [ha, if_true] at h1
      rcases mem_set _ _ _ h1 with h2 | h2
      · rw [h2] at hs; cases hs
      · exact h2
    · simpa only [ha, if_false] using h1

theorem foldl_setCached_unset (totalOutcome : ExecutionOutcome) (l : List Order) :
    ∀ store : List Order,
      ∀ o ∈ l.foldl
          (fun store order => SetTriggeredOrder store (updateCached totalOutcome order)) store,
        o.TriggerStatus = false → o ∈ store ∨ o ∈ l := by
  induction l with
  | nil => intro store o ho _; exact Or.inl ho
  | cons a rest ih =>
    intro store o ho hs
    simp only [List.foldl_cons] at ho
    rcases ih _ o ho hs with h1 | h1
    · rcases mem_set _ _ _ h1 with h2 | h2
      · refine Or.inr ?_
        have hna : ¬ Activates totalOutcome a := by
          intro hact
          have := (updateCached_status totalOutcome a).2 (Or.inr hact)
          rw [← h2, hs] at this
          cases this
        rw [updateCached_eq, if_neg hna] at h2
        rw [h2]; exact List.mem_cons_self a rest
      · exact Or.inl h2
    · exact Or.inr (List.mem_cons_of_mem a h1)

theorem promote_status (o : Order) : (promote o).TriggerStatus = o.TriggerStatus := by
  unfold promote
  split
  · rfl
  · split <;> rfl

/-- C6: `UpdateTriggeredOrderForPair` applies the direction rule to every stored stop order
of the pair and to every order of the in-memory cache. Order ids being unique within the
contract (no two stored or cached stop orders share an id), a stored order to which the
rule applies is afterwards stored under its id with `TriggerStatus = true` and all other
fields as before, every other stored order is stored unchanged, every cache order has the
rule applied in place and is stored under its id, and no other id is stored. -/
theorem UpdateTriggeredOrderForPair_applies_rule (env : ExchangeEnv B K)
    (st : PairState B K) (totalOutcome : ExecutionOutcome)
    (hids : ((st.triggered ++ st.blockOrders.filter env.GetTriggeredOrders).map
      Order.Id).Nodup) :
    (∀ o ∈ st.triggered, Activates totalOutcome o →
      GetTriggeredOrder (UpdateTriggeredOrderForPair env st totalOutcome).triggered o.Id =
        some { o with TriggerStatus := true }) ∧
    (∀ o ∈ st.triggered, ¬ Activates totalOutcome o →
      GetTriggeredOrder (UpdateTriggeredOrderForPair env st totalOutcome).triggered o.Id =
        some o) ∧
    (UpdateTriggeredOrderForPair env st totalOutcome).blockOrders =
      st.blockOrders.map (fun o =>
        if env.GetTriggeredOrders o = true ∧ Activates totalOutcome o then
          { o with TriggerStatus := true }
        else o) ∧
    (∀ o ∈ st.blockOrders, env.GetTriggeredOrders o = true →
      GetTriggeredOrder (UpdateTriggeredOrderForPair env st totalOutcome).triggered o.Id =
        some (if Activates totalOutcome o then { o with TriggerStatus := true } else o)) ∧
    (∀ id, id ∉ (st.triggered ++ st.blockOrders.filter env.GetTriggeredOrders).map Order.Id →
      GetTriggeredOrder (UpdateTriggeredOrderForPair env st totalOutcome).triggered id =
        none) := by
  rw [List.map_append, List.nodup_append] at hids
  obtain ⟨hstore, hcache, hdisj⟩ := hids
  have hd : ∀ o ∈ st.triggered,
      o.Id ∉ (st.blockOrders.filter env.GetTriggeredOrders).map Order.Id :=
    fun o ho hm => hdisj (List.mem_map_of_mem Order.Id ho) hm
  refine ⟨?_, ?_, ?_, ?_, ?_⟩
  · intro o ho hact
    rw [update_get_stored env st totalOutcome hstore o ho (hd o ho), if_pos hact]
  · intro o ho hact
    rw [update_get_stored env st totalOutcome hstore o ho (hd o ho), if_neg hact]
  · unfold UpdateTriggeredOrderForPair
    simp only
    apply List.map_congr_left
    intro o _
    rw [updateCached_eq]
    by_cases hsel : env.GetTriggeredOrders o = true
    · by_cases hact : Activates totalOutcome o
      · simp only [hsel, hact, if_true, and_self]
      · simp only [hsel, hact, if_true, if_false, and_false]
    · rw [if_neg hsel, if_neg (fun h => hsel h.1)]
  · intro o ho hsel
    rw [update_get_cached env st totalOutcome hcache o ho hsel, updateCached_eq]
  · intro id hid
    rw [List.map_append, List.mem_append, not_or] at hid
    unfold UpdateTriggeredOrderForPair GetAllTriggeredOrdersForPair
    simp only
    rw [foldl_setCached_other totalOutcome id _ _ hid.2,
      foldl_updateStored_other totalOutcome id st.triggered st.triggered
        (fun o ho he => absurd (he ▸ List.mem_map_of_mem Order.Id ho) hid.1)]
    exact get_none st.triggered id hid.1

/-- C6 on the concrete pair, whose stored and cached stop orders have the ids 1, 2 and 4. -/
theorem UpdateTriggeredOrderForPair_applies_rule_witness :
    ((demoPair.triggered ++ demoPair.blockOrders.filter demoExchange.GetTriggeredOrders).map Order.Id).Nodup ∧
    ((∀ o ∈ demoPair.triggered, Activates demoOutcome o →
      GetTriggeredOrder (UpdateTriggeredOrderForPair demoExchange demoPair demoOutcome).triggered o.Id =
        some { o with TriggerStatus := true }) ∧
    (∀ o ∈ demoPair.triggered, ¬ Activates demoOutcome o →
      GetTriggeredOrder (UpdateTriggeredOrderForPair demoExchange demoPair demoOutcome).triggered o.Id =
        some o) ∧
    (UpdateTriggeredOrderForPair demoExchange demoPair demoOutcome).blockOrders =
      demoPair.blockOrders.map (fun o =>
        if demoExchange.GetTriggeredOrders o = true ∧ Activates demoOutcome o then
          { o with TriggerStatus := true }
        else o) ∧
    (∀ o ∈ demoPair.blockOrders, demoExchange.GetTriggeredOrders o = true →
      GetTriggeredOrder (UpdateTriggeredOrderForPair demoExchange demoPair demoOutcome).triggered o.Id =
        some (if Activates demoOutcome o then { o with TriggerStatus := true } else o)) ∧
    (∀ id, id ∉ (demoPair.triggered ++ demoPair.blockOrders.filter demoExchange.GetTriggeredOrders).map Order.Id →
      GetTriggeredOrder (UpdateTriggeredOrderForPair demoExchange demoPair demoOutcome).triggered id =
        none)) :=
  ⟨by decide, UpdateTriggeredOrderForPair_applies_rule demoExchange demoPair demoOutcome (by decide)⟩

/-- C7: trigger activation is monotonic. Order ids being unique within the contract, a
stored or cached stop order whose `TriggerStatus` is true before
`UpdateTriggeredOrderForPair` is stored with `TriggerStatus = true` after it, for every
outcome; every block order keeps its id and a true status; every entry of the storage
whose status is false afterwards is an unchanged entry of the storage or of the block
orders; and `MoveTriggeredOrderForPair` only removes entries from the storage and only adds
block orders whose status is true. -/
theorem trigger_status_never_reverts (env : ExchangeEnv B K) (st : PairState B K)
    (totalOutcome : ExecutionOutcome)
    (hids : ((st.triggered ++ st.blockOrders.filter env.GetTriggeredOrders).map
      Order.Id).Nodup) :
    (∀ o ∈ st.triggered, o.TriggerStatus = true →
      ∃ o1, GetTriggeredOrder (UpdateTriggeredOrderForPair env st totalOutcome).triggered
          o.Id = some o1 ∧ o1.TriggerStatus = true) ∧
    (∀ o ∈ st.blockOrders, env.GetTriggeredOrders o = true → o.TriggerStatus = true →
      ∃ o1, GetTriggeredOrder (UpdateTriggeredOrderForPair env st totalOutcome).triggered
          o.Id = some o1 ∧ o1.TriggerStatus = true) ∧
    List.Forall₂ (fun o o1 => o1.Id = o.Id ∧ (o.TriggerStatus = true → o1.TriggerStatus = true))
      st.blockOrders (UpdateTriggeredOrderForPair env st totalOutcome).blockOrders ∧
    (∀ o ∈ (UpdateTriggeredOrderForPair env st totalOutcome).triggered,
      o.TriggerStatus = false → o ∈ st.triggered ∨ o ∈ st.blockOrders) ∧
    (MoveTriggeredOrderForPair st).triggered.Sublist st.triggered ∧
    (∃ added, (MoveTriggeredOrderForPair st).blockOrders = st.blockOrders ++ added ∧
      ∀ o ∈ added, o.TriggerStatus = true) := by
  rw [List.map_append, List.nodup_append] at hids
  obtain ⟨hstore, hcache, hdisj⟩ := hids
  have hd : ∀ o ∈ st.triggered,
      o.Id ∉ (st.blockOrders.filter env.GetTriggeredOrders).map Order.Id :=
    fun o ho hm => hdisj (List.mem_map_of_mem Order.Id ho) hm
  refine ⟨?_, ?_, ?_, ?_, ?_, ?_⟩
  · intro o ho hs
    refine ⟨_, update_get_stored env st totalOutcome hstore o ho (hd o ho), ?_⟩
    split
    · rfl
    · exact hs
  · intro o ho hsel hs
    exact ⟨_, update_get_cached env st totalOutcome hcache o ho hsel,
      (updateCached_status totalOutcome o).2 (Or.inl hs)⟩
  · unfold UpdateTriggeredOrderForPair
    simp only
    rw [List.forall₂_map_right_iff]
    apply List.forall₂_same.2
    intro o _
    by_cases hsel : env.GetTriggeredOrders o = true
    · simp only [hsel, if_true]
      exact ⟨updateCached_id totalOutcome o,
        fun hs => (updateCached_status totalOutcome o).2 (Or.inl hs)⟩
    · simp only [hsel, if_false]
      exact ⟨rfl, fun hs => hs⟩
  · intro o ho hs
    unfold UpdateTriggeredOrderForPair GetAllTriggeredOrdersForPair at ho
    simp only at ho
    rcases foldl_setCached_unset totalOutcome _ _ o ho hs with h1 | h1
    · exact Or.inl (foldl_updateStored_unset totalOutcome st.triggered st.triggered o h1 hs)
    · exact Or.inr (List.mem_of_mem_filter h1)
  · unfold MoveTriggeredOrderForPair GetAllTriggeredOrdersForPair
    simp only
    rw [foldl_move]
    exact List.filter_sublist _
  · refine ⟨_, move_blockOrders st, ?_⟩
    intro o ho
    obtain ⟨x, hx, hxo⟩ := List.mem_map.1 ho
    rw [← hxo, promote_status]
    exact (List.mem_filter.1 hx).2

/-- C7 on the concrete pair, whose stored order 2 is triggered before the update. -/
theorem trigger_status_never_reverts_witness :
    ((demoPair.triggered ++ demoPair.blockOrders.filter demoExchange.GetTriggeredOrders).map Order.Id).Nodup ∧
    ((∀ o ∈ demoPair.triggered, o.TriggerStatus = true →
      ∃ o1, GetTriggeredOrder (UpdateTriggeredOrderForPair demoExchange demoPair demoOutcome).triggered
          o.Id = some o1 ∧ o1.TriggerStatus = true) ∧
    (∀ o ∈ demoPair.blockOrders, demoExchange.GetTriggeredOrders o = true → o.TriggerStatus = true →
      ∃ o1, GetTriggeredOrder (UpdateTriggeredOrderForPair demoExchange demoPair demoOutcome).triggered
          o.Id = some o1 ∧ o1.TriggerStatus = true) ∧
    List.Forall₂ (fun o o1 => o1.Id = o.Id ∧ (o.TriggerStatus = true → o1.TriggerStatus = true))
      demoPair.blockOrders (UpdateTriggeredOrderForPair demoExchange demoPair demoOutcome).blockOrders ∧
    (∀ o ∈ (UpdateTriggeredOrderForPair demoExchange demoPair demoOutcome).triggered,
      o.TriggerStatus = false → o ∈ demoPair.triggered ∨ o ∈ demoPair.blockOrders) ∧
    (MoveTriggeredOrderForPair demoPair).triggered.Sublist demoPair.triggered ∧
    (∃ added, (MoveTriggeredOrderForPair demoPair).blockOrders = demoPair.blockOrders ++ added ∧
      ∀ o ∈ added, o.TriggerStatus = true)) :=
  ⟨by decide, trigger_status_never_reverts demoExchange demoPair demoOutcome (by decide)⟩

/-- C8 (amended): order ids being unique within the contract, a stored or cached stop order
whose `TriggerStatus` is false before `UpdateTriggeredOrderForPair` is stored with
`TriggerStatus = true` afterwards if and only if the direction rule applies to it: LONG
with trigger price at most the maximum price, or SHORT with trigger price at least the
minimum price. A trigger price inside the closed interval of the two prices is enough for
either direction, but it is not necessary. -/
theorem activation_iff_direction_rule (env : ExchangeEnv B K) (st : PairState B K)
    (totalOutcome : ExecutionOutcome)
    (hids : ((st.triggered ++ st.blockOrders.filter env.GetTriggeredOrders).map
      Order.Id).Nodup) :
    (∀ o ∈ st.triggered, o.TriggerStatus = false →
      ∃ o1, GetTriggeredOrder (UpdateTriggeredOrderForPair env st totalOutcome).triggered
          o.Id = some o1 ∧
        (o1.TriggerStatus = true ↔
          (o.PositionDirection = PositionDirection.LONG ∧
            o.TriggerPrice ≤ totalOutcome.MaxPrice) ∨
          (o.PositionDirection = PositionDirection.SHORT ∧
            o.TriggerPrice ≥ totalOutcome.MinPrice))) ∧
    (∀ o ∈ st.blockOrders, env.GetTriggeredOrders o = true → o.TriggerStatus = false →
      ∃ o1, GetTriggeredOrder (UpdateTriggeredOrderForPair env st totalOutcome).triggered
          o.Id = some o1 ∧
        (o1.TriggerStatus = true ↔
          (o.PositionDirection = PositionDirection.LONG ∧
            o.TriggerPrice ≤ totalOutcome.MaxPrice) ∨
          (o.PositionDirection = PositionDirection.SHORT ∧
            o.TriggerPrice ≥ totalOutcome.MinPrice))) ∧
    (∀ o : Order, totalOutcome.MinPrice ≤ o.TriggerPrice →
      o.TriggerPrice ≤ totalOutcome.MaxPrice → Activates totalOutcome o) := by
  rw [List.map_append, List.nodup_append] at hids
  obtain ⟨hstore, hcache, hdisj⟩ := hids
  have hd : ∀ o ∈ st.triggered,
      o.Id ∉ (st.blockOrders.filter env.GetTriggeredOrders).map Order.Id :=
    fun o ho hm => hdisj (List.mem_map_of_mem Order.Id ho) hm
  refine ⟨?_, ?_, ?_⟩
  · intro o ho hs
    refine ⟨_, update_get_stored env st totalOutcome hstore o ho (hd o ho), ?_⟩
    show _ ↔ Activates totalOutcome o
    by_cases hact : Activates totalOutcome o
    · simp only [hact, if_true, iff_true]
    · simp only [hact, if_false, iff_false, hs]
      simp
  · intro o ho hsel hs
    refine ⟨_, update_get_cached env st totalOutcome hcache o ho hsel, ?_⟩
    show _ ↔ Activates totalOutcome o
    rw [updateCached_status, hs]
    simp
  · intro o hmin hmax
    cases hdir : o.PositionDirection with
    | LONG => exact Or.inl ⟨hdir, hmax⟩
    | SHORT => exact Or.inr ⟨hdir, hmin⟩

/-- C8 (amended) on the concrete pair. -/
theorem activation_iff_direction_rule_witness :
    ((demoPair.triggered ++ demoPair.blockOrders.filter demoExchange.GetTriggeredOrders).map Order.Id).Nodup ∧
    ((∀ o ∈ demoPair.triggered, o.TriggerStatus = false →
      ∃ o1, GetTriggeredOrder (UpdateTriggeredOrderForPair demoExchange demoPair demoOutcome).triggered
          o.Id = some o1 ∧
        (o1.TriggerStatus = true ↔
          (o.PositionDirection = PositionDirection.LONG ∧
            o.TriggerPrice ≤ demoOutcome.MaxPrice) ∨
          (o.PositionDirection = PositionDirection.SHORT ∧
            o.TriggerPrice ≥ demoOutcome.MinPrice))) ∧
    (∀ o ∈ demoPair.blockOrders, demoExchange.GetTriggeredOrders o = true → o.TriggerStatus = false →
      ∃ o1, GetTriggeredOrder (UpdateTriggeredOrderForPair demoExchange demoPair demoOutcome).triggered
          o.Id = some o1 ∧
        (o1.TriggerStatus = true ↔
          (o.PositionDirection = PositionDirection.LONG ∧
            o.TriggerPrice ≤ demoOutcome.MaxPrice) ∨
          (o.PositionDirection = PositionDirection.SHORT ∧
            o.TriggerPrice ≥ demoOutcome.MinPrice))) ∧
    (∀ o : Order, demoOutcome.MinPrice ≤ o.TriggerPrice →
      o.TriggerPrice ≤ demoOutcome.MaxPrice → Activates demoOutcome o)) :=
  ⟨by decide, activation_iff_direction_rule demoExchange demoPair demoOutcome (by decide)⟩

/-- C8 (counterexample): the stored LONG stop order 1 of the concrete pair has trigger price
50 and `TriggerStatus = false`; after `UpdateTriggeredOrderForPair` with an outcome whose
prices span 100 to 106 it is stored with `TriggerStatus = true`, although 50 is not in the
closed interval from 100 to 106. -/
theorem activation_outside_price_interval :
    demoPair.triggered.map (fun o => (o.Id, o.PositionDirection, o.TriggerPrice, o.TriggerStatus))
      = [(1, PositionDirection.LONG, 50, false), (2, PositionDirection.SHORT, 90, true)] ∧
    (GetTriggeredOrder
      (UpdateTriggeredOrderForPair demoExchange demoPair demoOutcome).triggered 1).map
        (fun o => (o.TriggerPrice, o.TriggerStatus)) = some (50, true) ∧
    ¬ (demoOutcome.MinPrice ≤ 50 ∧ 50 ≤ demoOutcome.MaxPrice) := by
  decide

/-- C9: postcondition of `MoveTriggeredOrderForPair` for a trigger storage with one entry
per order id. The block orders afterwards are the block orders before followed by the
stored orders with `TriggerStatus = true`, in storage order, each promoted; promotion turns
STOPLOSS into MARKET and STOPLIMIT into LIMIT and changes no other field; the storage
afterwards holds exactly the stored orders with `TriggerStatus = false`, unchanged; nothing
else of the state changes. -/
theorem MoveTriggeredOrderForPair_post (st : PairState B K)
    (hstore : (st.triggered.map Order.Id).Nodup) :
    (MoveTriggeredOrderForPair st).blockOrders =
      st.blockOrders ++ (st.triggered.filter (fun o => o.TriggerStatus)).map promote ∧
    (MoveTriggeredOrderForPair st).triggered =
      st.triggered.filter (fun o => !o.TriggerStatus) ∧
    (∀ o : Order, promote o =
      { o with
        OrderType :=
          match o.OrderType with
          | OrderType.STOPLOSS => OrderType.MARKET
          | OrderType.STOPLIMIT => OrderType.LIMIT
          | OrderType.LIMIT => OrderType.LIMIT
          | OrderType.MARKET => OrderType.MARKET }) ∧
    (MoveTriggeredOrderForPair st).blockCancels = st.blockCancels ∧
    (MoveTriggeredOrderForPair st).orderbook = st.orderbook ∧
    (MoveTriggeredOrderForPair st).keeper = st.keeper := by
  refine ⟨move_blockOrders st, move_triggered st hstore, ?_, move_rest st⟩
  intro o
  unfold promote
  cases ht : o.OrderType <;> simp [ht] <;> (cases o; simp_all)

/-- C9 on the concrete pair, whose storage holds order 1 untriggered and order 2 triggered. -/
theorem MoveTriggeredOrderForPair_post_witness :
    (demoPair.triggered.map Order.Id).Nodup ∧
    ((MoveTriggeredOrderForPair demoPair).blockOrders =
      demoPair.blockOrders ++ (demoPair.triggered.filter (fun o => o.TriggerStatus)).map promote ∧
    (MoveTriggeredOrderForPair demoPair).triggered =
      demoPair.triggered.filter (fun o => !o.TriggerStatus) ∧
    (∀ o : Order, promote o =
      { o with
        OrderType :=
          match o.OrderType with
          | OrderType.STOPLOSS => OrderType.MARKET
          | OrderType.STOPLIMIT => OrderType.LIMIT
          | OrderType.LIMIT => OrderType.LIMIT
          | OrderType.MARKET => OrderType.MARKET }) ∧
    (MoveTriggeredOrderForPair demoPair).blockCancels = demoPair.blockCancels ∧
    (MoveTriggeredOrderForPair demoPair).orderbook = demoPair.orderbook ∧
    (MoveTriggeredOrderForPair demoPair).keeper = demoPair.keeper) :=
  ⟨by decide, MoveTriggeredOrderForPair_post demoPair (by decide)⟩

/-- C10: `ExecutePair` returns the settlements of the total outcome, which is the merge of
the market outcome with the limit outcome, the market outcome being the merge of the
outcome of the market buys matched against the book's shorts with the outcome of the market
sells matched against the book's longs. The returned list is the buy settlements, then the
sell settlements, then the limit settlements, and the same total outcome is passed to
`UpdateTriggeredOrderForPair` and to the price-state write. -/
theorem ExecutePair_settlements (env : ExchangeEnv B K) (st : PairState B K) :
    ∃ st2 buy sell limit total,
      st2 = env.AddOutstandingLimitOrdersToOrderbook
        (env.GetLimitOrders PositionDirection.LONG (cancelForPair env st).blockOrders)
        (env.GetLimitOrders PositionDirection.SHORT (cancelForPair env st).blockOrders)
        (cancelForPair env st) ∧
      buy = env.MatchMarketOrders
        (env.GetSortedMarketOrders PositionDirection.LONG st2.blockOrders)
        st2.orderbook.Shorts PositionDirection.LONG st2 ∧
      sell = env.MatchMarketOrders
        (env.GetSortedMarketOrders PositionDirection.SHORT st2.blockOrders)
        buy.2.orderbook.Longs PositionDirection.SHORT buy.2 ∧
      limit = env.MatchLimitOrders sell.2 ∧
      total = (buy.1.Merge sell.1).Merge limit.1 ∧
      matchMarketOrderForPair env st2 = (buy.1.Merge sell.1, sell.2) ∧
      (ExecutePair env st).1 = total.Settlements ∧
      (ExecutePair env st).1 =
        buy.1.Settlements ++ sell.1.Settlements ++ limit.1.Settlements ∧
      total.MinPrice = min (min buy.1.MinPrice sell.1.MinPrice) limit.1.MinPrice ∧
      total.MaxPrice = max (max buy.1.MaxPrice sell.1.MaxPrice) limit.1.MaxPrice ∧
      (ExecutePair env st).2 =
        env.SetPriceStateFromExecutionOutcome total
          (UpdateTriggeredOrderForPair env limit.2 total) :=
  ⟨_, _, _, _, _, rfl, rfl, rfl, rfl, rfl, rfl, rfl, rfl, rfl, rfl, rfl⟩

end PairRunProperties
/-! ## Settled quantities per order -/

section SettledQuantities

theorem settledLoad_store (m : List (Nat × Dec)) (id : Nat) (v : Dec) (k : Nat) :
    settledLoad (settledStore m id v) k = if id = k then some v else settledLoad m k := by
  induction m with
  | nil => simp [settledStore, settledLoad]
  | cons p rest ih =>
    obtain ⟨k0, v0⟩ := p
    by_cases h0 : k0 = id
    · simp only [settledStore, h0, if_true, settledLoad]
      by_cases hk : id = k
      · simp [hk]
      · simp [hk]
    · simp only [settledStore, h0, if_false, settledLoad, ih]
      by_cases hk : id = k
      · have : ¬ k0 = k := fun h => h0 (h.trans hk.symm)
        simp [hk, this]
      · simp [hk]

theorem settledLoad_isSome (m : List (Nat × Dec)) (k : Nat) :
    (∃ v, settledLoad m k = some v) ↔ k ∈ m.map Prod.fst := by
  induction m with
  | nil => simp [settledLoad]
  | cons p rest ih =>
    obtain ⟨k0, v0⟩ := p
    by_cases h0 : k0 = k
    · simp [settledLoad, h0]
    · simp only [settledLoad, h0, if_false, ih, List.map_cons, List.mem_cons]
      constructor
      · exact Or.inr
      · rintro (h | h)
        · exact absurd h.symm h0
        · exact h

theorem settledStore_keys_nodup (m : List (Nat × Dec)) (id : Nat) (v : Dec)
    (h : (m.map Prod.fst).Nodup) : ((settledStore m id v).map Prod.fst).Nodup := by
  induction m with
  | nil => simp [settledStore]
  | cons p rest ih =>
    obtain ⟨k0, v0⟩ := p
    simp only [List.map_cons, List.nodup_cons] at h
    by_cases h0 : k0 = id
    · subst h0
      simpa [settledStore] using h
    · simp only [settledStore, h0, if_false, List.map_cons, List.nodup_cons]
      refine ⟨?_, ih h.2⟩
      intro hmem
      have h1 := (settledLoad_isSome _ k0).2 hmem
      rw [settledLoad_store] at h1
      have hne : ¬ id = k0 := fun h2 => h0 h2.symm
      simp only [hne, if_false] at h1
      exact h.1 ((settledLoad_isSome rest k0).1 h1)

theorem settledStore_sum (m : List (Nat × Dec)) (id : Nat) (v : Dec) :
    ((settledStore m id v).map Prod.snd).sum =
      (m.map Prod.snd).sum - (settledLoad m id).getD 0 + v := by
  induction m with
  | nil => simp [settledStore, settledLoad]
  | cons p rest ih =>
    obtain ⟨k0, v0⟩ := p
    by_cases h0 : k0 = id
    · simp only [settledStore, h0, if_true, settledLoad, List.map_cons, List.sum_cons,
        Option.getD_some]
      ring
    · simp only [settledStore, h0, if_false, settledLoad, List.map_cons, List.sum_cons, ih]
      ring

theorem addSettlement_load (res : List (Nat × Dec)) (s : SettlementEntry) (k : Nat) :
    settledLoad (addSettlement res s) k =
      if s.OrderId = k then some ((settledLoad res k).getD 0 + s.Quantity)
      else settledLoad res k := by
  unfold addSettlement
  cases hl : settledLoad res s.OrderId with
  | some v =>
    simp only [settledLoad_store, hl, Option.getD_some]
    by_cases hk : s.OrderId = k
    · rw [← hk, hl]; simp
    · simp [hk]
  | none =>
    simp only [settledLoad_store, if_true, Option.getD_some]
    by_cases hk : s.OrderId = k
    · rw [← hk, hl]; simp
    · simp [hk]

theorem addSettlement_sum (res : List (Nat × Dec)) (s : SettlementEntry) :
    ((addSettlement res s).map Prod.snd).sum = (res.map Prod.snd).sum + s.Quantity := by
  unfold addSettlement
  cases hl : settledLoad res s.OrderId with
  | some v =>
    simp only [settledStore_sum, hl, Option.getD_some]
    ring
  | none =>
    simp only [settledStore_sum, settledLoad_store, hl, if_true, Option.getD_some,
      Option.getD_none]
    ring

theorem addSettlement_keys_nodup (res : List (Nat × Dec)) (s : SettlementEntry)
    (h : (res.map Prod.fst).Nodup) : ((addSettlement res s).map Prod.fst).Nodup := by
  unfold addSettlement
  cases hl : settledLoad res s.OrderId with
  | some v => exact settledStore_keys_nodup _ _ _ h
  | none => exact settledStore_keys_nodup _ _ _ (settledStore_keys_nodup _ _ _ h)

theorem settledQuantity_cons (s : SettlementEntry) (rest : List SettlementEntry) (k : Nat) :
    settledQuantity (s :: rest) k =
      (if s.OrderId = k then s.Quantity else 0) + settledQuantity rest k := by
  unfold settledQuantity
  by_cases hk : s.OrderId = k
  · simp [hk]
  · simp [hk]

theorem foldl_addSettlement_load (l : List SettlementEntry) (k : Nat) :
    ∀ res : List (Nat × Dec),
      settledLoad (l.foldl addSettlement res) k =
        if ∃ s ∈ l, s.OrderId = k then
          some ((settledLoad res k).getD 0 + settledQuantity l k)
        else settledLoad res k := by
  induction l with
  | nil => intro res; simp
  | cons s rest ih =>
    intro res
    simp only [List.foldl_cons]
    rw [ih, addSettlement_load, settledQuantity_cons]
    by_cases hk : s.OrderId = k
    · have hex : ∃ x ∈ s :: rest, x.OrderId = k := ⟨s, List.mem_cons_self s rest, hk⟩
      rw [if_pos hk]
      by_cases hr : ∃ x ∈ rest, x.OrderId = k
      · rw [if_pos hr, if_pos hex, if_pos hk]
        simp only [Option.getD_some, Option.some.injEq]; ring
      · have h0 : settledQuantity rest k = 0 := by
          unfold settledQuantity
          have : rest.filter (fun x => decide (x.OrderId = k)) = [] := by
            apply List.filter_eq_nil_iff.2
            intro x hx hxk
            exact hr ⟨x, hx, by simpa using hxk⟩
          rw [this]; rfl
        rw [if_neg hr, if_pos hex, h0, if_pos hk]
        simp only [Option.some.injEq]; ring
    · simp only [hk, if_false, zero_add]
      have hiff : (∃ x ∈ s :: rest, x.OrderId = k) ↔ ∃ x ∈ rest, x.OrderId = k := by
        constructor
        · rintro ⟨x, hx, hxk⟩
          rcases List.mem_cons.1 hx with hx | hx
          · exact absurd (hx ▸ hxk) hk
          · exact ⟨x, hx, hxk⟩
        · rintro ⟨x, hx, hxk⟩
          exact ⟨x, List.mem_cons_of_mem s hx, hxk⟩
      by_cases hr : ∃ x ∈ rest, x.OrderId = k
      · simp only [hr, if_true, hiff.2 hr]
      · simp only [hr, if_false, mt hiff.1 hr]

theorem foldl_addSettlement_sum (l : List SettlementEntry) :
    ∀ res : List (Nat × Dec),
      ((l.foldl addSettlement res).map Prod.snd).sum =
        (res.map Prod.snd).sum + (l.map (fun s => s.Quantity)).sum := by
  induction l with
  | nil => intro res; simp
  | cons s rest ih =>
    intro res
    simp only [List.foldl_cons, ih, addSettlement_sum, List.map_cons, List.sum_cons]
    ring

theorem foldl_addSettlement_nodup (l : List SettlementEntry) :
    ∀ res : List (Nat × Dec), (res.map Prod.fst).Nodup →
      ((l.foldl addSettlement res).map Prod.fst).Nodup := by
  induction l with
  | nil => intro res h; exact h
  | cons s rest ih =>
    intro res h
    exact ih _ (addSettlement_keys_nodup res s h)

/-- C14: `GetOrderIDToSettledQuantities` computes the settled total per order. For every
settlement list the result has one entry per key; an order id is a key exactly when some
entry of the list has that id, and its value is then the sum of the quantities of all
entries with that id; the values of the map add up to the sum of all settlement quantities;
and the empty list gives the empty map. -/
theorem GetOrderIDToSettledQuantities_totals (settlements : List SettlementEntry) :
    ((GetOrderIDToSettledQuantities settlements).map Prod.fst).Nodup ∧
    (∀ id, id ∈ (GetOrderIDToSettledQuantities settlements).map Prod.fst ↔
      ∃ s ∈ settlements, s.OrderId = id) ∧
    (∀ id, (∃ s ∈ settlements, s.OrderId = id) →
      settledLoad (GetOrderIDToSettledQuantities settlements) id =
        some (((settlements.filter (fun s => decide (s.OrderId = id))).map
          (fun s => s.Quantity)).sum)) ∧
    ((GetOrderIDToSettledQuantities settlements).map Prod.snd).sum =
      (settlements.map (fun s => s.Quantity)).sum ∧
    GetOrderIDToSettledQuantities [] = [] := by
  have hload := foldl_addSettlement_load settlements
  refine ⟨foldl_addSettlement_nodup settlements [] (by simp), ?_, ?_, ?_, rfl⟩
  · intro id
    rw [← settledLoad_isSome]
    unfold GetOrderIDToSettledQuantities
    rw [hload id []]
    by_cases hex : ∃ s ∈ settlements, s.OrderId = id
    · simp only [hex, if_true, iff_true]
      exact ⟨_, rfl⟩
    · simp only [hex, if_false, iff_false, settledLoad]
      rintro ⟨v, hv⟩
      cases hv
  · intro id hex
    unfold GetOrderIDToSettledQuantities
    rw [hload id [], if_pos hex]
    simp [settledLoad, settledQuantity]
  · unfold GetOrderIDToSettledQuantities
    rw [foldl_addSettlement_sum]
    simp

end SettledQuantities

/-! ## Post-match hooks of the block coordinator -/

section PostMatchHooks

variable {S M R E : Type}

theorem foldl_mapStore_covers {V : Type} (v : V) (l : List (String × ContractInfo)) :
    ∀ acc : List (String × V), ∀ k, (k ∈ mapKeys acc ∨ k ∈ mapKeys l) →
      k ∈ mapKeys (l.foldl (fun m p => mapStore m p.1 v) acc) := by
  induction l with
  | nil =>
    intro acc k hk
    rcases hk with hk | hk
    · exact hk
    · simp [mapKeys] at hk
  | cons p rest ih =>
    intro acc k hk
    simp only [List.foldl_cons]
    apply ih
    rcases hk with hk | hk
    · exact Or.inl (mem_mapKeys_mapStore acc p.1 v k (Or.inr hk))
    · simp only [mapKeys, List.map_cons, List.mem_cons] at hk
      rcases hk with hk | hk
      · exact Or.inl (mem_mapKeys_mapStore acc p.1 v k (Or.inl hk))
      · exact Or.inr hk

theorem iterInit_covers (sched : Schedule R E) (valid : List (String × ContractInfo))
    (w : World S M) :
    (∀ k ∈ mapKeys valid, k ∈ mapKeys (iterInit sched valid w).settlementsByContract) ∧
    (∀ k ∈ mapKeys valid, k ∈ mapKeys (iterInit sched valid w).finalizeBlockMessages) := by
  constructor
  · intro k hk
    exact foldl_mapStore_covers ([] : List E) _ [] k
      (Or.inr ((mem_mapKeys_rangeValid sched valid k).2 hk))
  · intro k hk
    exact foldl_mapStore_covers ([] : List R) _ [] k
      (Or.inr ((mem_mapKeys_rangeValid sched valid k).2 hk))

theorem depositBody_maps (env : Env S M R E) (k : String) (st : IterState S M R E) :
    (depositBody env k st).val.settlementsByContract = st.settlementsByContract ∧
    (depositBody env k st).val.finalizeBlockMessages = st.finalizeBlockMessages := by
  unfold depositBody
  rcases hr : env.HandleEBDeposit k st.world with ⟨s, w⟩
  cases s <;> exact ⟨rfl, rfl⟩

theorem depositPhase_maps (env : Env S M R E) (sched : Schedule R E)
    (valid : List (String × ContractInfo)) (st : IterState S M R E) :
    (depositPhase env sched valid st).val.settlementsByContract = st.settlementsByContract ∧
    (depositPhase env sched valid st).val.finalizeBlockMessages = st.finalizeBlockMessages :=
  forEach_val_inv
    (fun s => s.settlementsByContract = st.settlementsByContract ∧
      s.finalizeBlockMessages = st.finalizeBlockMessages)
    (depositBody env) _
    (fun k _ a ha =>
      ⟨(depositBody_maps env k a).1.trans ha.1, (depositBody_maps env k a).2.trans ha.2⟩)
    st ⟨rfl, rfl⟩

theorem addContractResults_covers (orderResultsMap : List (String × R)) :
    ∀ msgs : List (String × List R),
      ∀ k ∈ mapKeys msgs, k ∈ mapKeys (addContractResults msgs orderResultsMap) := by
  induction orderResultsMap with
  | nil => intro msgs k hk; exact hk
  | cons p rest ih =>
    intro msgs k hk
    simp only [addContractResults, List.foldl_cons]
    cases hl : mapLoad msgs p.1 with
    | none => exact ih msgs k hk
    | some typedMsg => exact ih _ k (mem_mapKeys_mapStore msgs p.1 _ k (Or.inr hk))

theorem runnable_covers (env : Env S M R E) (info : ContractInfo) (st : IterState S M R E) :
    (∀ k ∈ mapKeys st.settlementsByContract,
      k ∈ mapKeys (runnable env info st).settlementsByContract) ∧
    (∀ k ∈ mapKeys st.finalizeBlockMessages,
      k ∈ mapKeys (runnable env info st).finalizeBlockMessages) := by
  unfold runnable
  by_cases hg : info.NeedOrderMatching = true
  · simp only [hg, Bool.not_true, Bool.false_eq_true, if_false]
    cases hr : env.HandleExecutionForContract info st.world with
    | panic w => exact ⟨fun _ h => h, fun _ h => h⟩
    | err w => exact ⟨fun _ h => h, fun _ h => h⟩
    | ok orderResultsMap settlements w =>
      exact ⟨fun k h => mem_mapKeys_mapStore _ _ _ k (Or.inr h),
        fun k h => addContractResults_covers orderResultsMap _ k h⟩
  · simp only [Bool.not_eq_true] at hg
    simp only [hg, Bool.not_false, if_true]
    exact ⟨fun _ h => h, fun _ h => h⟩

theorem matchPhase_covers (env : Env S M R E) (sched : Schedule R E)
    (valid : List (String × ContractInfo)) (st : IterState S M R E) :
    (∀ k ∈ mapKeys st.settlementsByContract,
      k ∈ mapKeys (matchPhase env sched valid st).settlementsByContract) ∧
    (∀ k ∈ mapKeys st.finalizeBlockMessages,
      k ∈ mapKeys (matchPhase env sched valid st).finalizeBlockMessages) := by
  unfold matchPhase runParallel
  exact foldl_inv
    (fun s => (∀ k ∈ mapKeys st.settlementsByContract, k ∈ mapKeys s.settlementsByContract) ∧
      (∀ k ∈ mapKeys st.finalizeBlockMessages, k ∈ mapKeys s.finalizeBlockMessages))
    _ _
    (fun info _ a ha =>
      ⟨fun k hk => (runnable_covers env info a).1 k (ha.1 k hk),
        fun k hk => (runnable_covers env info a).2 k (ha.2 k hk)⟩)
    st ⟨fun _ h => h, fun _ h => h⟩

theorem settlementsBody_finalize (env : Env S M R E) (valid : List (String × ContractInfo))
    (entry : String × List E) (st : IterState S M R E) :
    (settlementsBody env valid entry st).val.finalizeBlockMessages =
      st.finalizeBlockMessages := by
  unfold settlementsBody
  by_cases hg : (mapIndex valid entry.1).NeedOrderMatching = true
  · simp only [hg, Bool.not_true, Bool.false_eq_true, if_false]
    rcases hr : env.HandleSettlements entry.1 entry.2 st.world with ⟨s, w⟩
    cases s <;> rfl
  · simp only [Bool.not_eq_true] at hg
    simp only [hg, Bool.not_false, if_true]
    rfl

theorem settlementsPhase_finalize (env : Env S M R E) (sched : Schedule R E)
    (valid : List (String × ContractInfo)) (st : IterState S M R E) :
    (settlementsPhase env sched valid st).val.finalizeBlockMessages =
      st.finalizeBlockMessages :=
  forEach_val_inv (fun s => s.finalizeBlockMessages = st.finalizeBlockMessages)
    (settlementsBody env valid) _
    (fun entry _ a ha => (settlementsBody_finalize env valid entry a).trans ha) st rfl

theorem settlementsBody_logs (env : Env S M R E) (valid : List (String × ContractInfo))
    (entry : String × List E) (st : IterState S M R E)
    (hg : (mapIndex valid entry.1).NeedOrderMatching = true) :
    ∃ c ∈ (settlementsBody env valid entry st).val.calls,
      c.site = Site.settlements ∧ c.contractAddr = entry.1 := by
  unfold settlementsBody
  simp only [hg, Bool.not_true, Bool.false_eq_true, if_false]
  rcases hr : env.HandleSettlements entry.1 entry.2 st.world with ⟨s, w⟩
  cases s <;> exact ⟨_, List.mem_append_right _ (List.mem_singleton.2 rfl), rfl, rfl⟩

theorem finalizeBody_logs (env : Env S M R E) (valid : List (String × ContractInfo))
    (entry : String × List R) (st : IterState S M R E)
    (hg : (mapIndex valid entry.1).NeedHook = true) :
    ∃ c ∈ (finalizeBody env valid entry st).val.calls,
      c.site = Site.finalize ∧ c.contractAddr = entry.1 := by
  unfold finalizeBody
  simp only [hg, Bool.not_true, Bool.false_eq_true, if_false]
  rcases hr : env.CallContractSudo entry.1 entry.2 st.world with ⟨s, w⟩
  cases s <;> exact ⟨_, List.mem_append_right _ (List.mem_singleton.2 rfl), rfl, rfl⟩

theorem forEach_all_logged {β : Type}
    (body : β → IterState S M R E → Flow (IterState S M R E))
    (hgrow : ∀ b a, Grows a (body b a).val)
    (want : β → Call → Prop) (gate : β → Prop)
    (hlog : ∀ b a, gate b → ∃ c ∈ (body b a).val.calls, want b c) (l : List β) :
    ∀ st st1 : IterState S M R E, forEach body l st = Flow.cont st1 →
      ∀ b ∈ l, gate b → ∃ c ∈ st1.calls, want b c := by
  induction l with
  | nil => intro st st1 _ b hb; cases hb
  | cons a rest ih =>
    intro st st1 h b hb hgate
    simp only [forEach] at h
    cases hr : body a st with
    | panicked a1 => rw [hr] at h; cases h
    | cont a1 =>
      rw [hr] at h
      simp only at h
      rcases List.mem_cons.1 hb with hb | hb
      · obtain ⟨c, hc, hw⟩ := hlog a st (hb ▸ hgate)
        rw [hr] at hc
        have hg := forEach_grows body hgrow rest a1
        rw [h] at hg
        exact ⟨c, hg.2 c hc, hb ▸ hw⟩
      · exact ih a1 st1 h b hb hgate

theorem iterationHooks_post_all (env : Env S M R E) (sched : Schedule R E)
    (valid : List (String × ContractInfo)) (w : World S M) (st : IterState S M R E)
    (h : iterationHooks env sched valid w = Flow.cont st) :
    (∀ k ∈ mapKeys valid, (mapIndex valid k).NeedOrderMatching = true →
      ∃ c ∈ st.calls, c.site = Site.settlements ∧ c.contractAddr = k) ∧
    (∀ k ∈ mapKeys valid, (mapIndex valid k).NeedHook = true →
      ∃ c ∈ st.calls, c.site = Site.finalize ∧ c.contractAddr = k) := by
  unfold iterationHooks at h
  cases hd : depositPhase env sched valid (iterInit sched valid w) with
  | panicked st0 => rw [hd] at h; cases h
  | cont st1 =>
    rw [hd] at h
    simp only at h
    cases hs : settlementsPhase env sched valid (matchPhase env sched valid st1) with
    | panicked st0 => rw [hs] at h; cases h
    | cont st3 =>
      rw [hs] at h
      simp only at h
      have hmaps := depositPhase_maps env sched valid (iterInit sched valid w)
      rw [hd] at hmaps
      have hinit := iterInit_covers (S := S) (M := M) sched valid w
      have hmatch := matchPhase_covers env sched valid st1
      have hfin := settlementsPhase_finalize env sched valid (matchPhase env sched valid st1)
      rw [hs] at hfin
      have g3 := finalizePhase_grows env sched valid st3
      rw [h] at g3
      constructor
      · intro k hk hg
        have hk2 : k ∈ mapKeys (matchPhase env sched valid st1).settlementsByContract :=
          hmatch.1 k (by
            show k ∈ mapKeys st1.settlementsByContract
            have := hmaps.1
            simp only [Flow.val] at this
            rw [this]; exact hinit.1 k hk)
        obtain ⟨entry, hentry, hek⟩ := List.mem_map.1 hk2
        have hin : entry ∈ sched.rangeSettlements
            (matchPhase env sched valid st1).settlementsByContract :=
          (sched.rangeSettlements_perm _).mem_iff.2 hentry
        obtain ⟨c, hc, hcs⟩ := forEach_all_logged (settlementsBody env valid)
          (settlementsBody_grows env valid)
          (fun b c => c.site = Site.settlements ∧ c.contractAddr = b.1)
          (fun b => (mapIndex valid b.1).NeedOrderMatching = true)
          (fun b a hb => settlementsBody_logs env valid b a hb) _ _ _ hs entry hin
          (by show (mapIndex valid entry.1).NeedOrderMatching = true; rw [hek]; exact hg)
        exact ⟨c, g3.2 c hc, hcs.1, hcs.2.trans hek⟩
      · intro k hk hg
        have hk2 : k ∈ mapKeys st3.finalizeBlockMessages := by
          have := hfin
          simp only [Flow.val] at this
          rw [this]
          apply hmatch.2 k
          have := hmaps.2
          simp only [Flow.val] at this
          rw [this]; exact hinit.2 k hk
        obtain ⟨entry, hentry, hek⟩ := List.mem_map.1 hk2
        have hin : entry ∈ sched.rangeFinalize st3.finalizeBlockMessages :=
          (sched.rangeFinalize_perm _).mem_iff.2 hentry
        obtain ⟨c, hc, hcs⟩ := forEach_all_logged (finalizeBody env valid)
          (finalizeBody_grows env valid)
          (fun b c => c.site = Site.finalize ∧ c.contractAddr = b.1)
          (fun b => (mapIndex valid b.1).NeedHook = true)
          (fun b a hb => finalizeBody_logs env valid b a hb) _ _ _ h entry hin
          (by show (mapIndex valid entry.1).NeedHook = true; rw [hek]; exact hg)
        exact ⟨c, hc, hcs.1, hcs.2.trans hek⟩

end PostMatchHooks

/-! ## Hook invocations and the failed set -/

section HookInvocation

variable {S M R E : Type}

theorem depositBody_status (env : Env S M R E) (k : String) (st : IterState S M R E) :
    (depositBody env k st).val.calls =
      st.calls ++ [⟨Site.deposit, k, (env.HandleEBDeposit k st.world).1⟩] ∧
    ((env.HandleEBDeposit k st.world).1 = Status.err →
      k ∈ (depositBody env k st).val.failed) := by
  unfold depositBody
  rcases hr : env.HandleEBDeposit k st.world with ⟨s, w1⟩
  cases s
  · exact ⟨rfl, fun h => by cases h⟩
  · exact ⟨rfl, fun _ => (mem_syncSetAdd _ _ _).2 (Or.inr rfl)⟩
  · exact ⟨rfl, fun h => by cases h⟩

theorem settlementsBody_status (env : Env S M R E) (valid : List (String × ContractInfo))
    (entry : String × List E) (st : IterState S M R E) :
    ((mapIndex valid entry.1).NeedOrderMatching = true →
      (settlementsBody env valid entry st).val.calls =
        st.calls ++
          [⟨Site.settlements, entry.1, (env.HandleSettlements entry.1 entry.2 st.world).1⟩] ∧
      ((env.HandleSettlements entry.1 entry.2 st.world).1 = Status.err →
        entry.1 ∈ (settlementsBody env valid entry st).val.failed)) ∧
    ((mapIndex valid entry.1).NeedOrderMatching = false →
      settlementsBody env valid entry st = Flow.cont st) := by
  unfold settlementsBody
  refine ⟨fun hg => ?_, fun hg => ?_⟩
  · simp only [hg, Bool.not_true, Bool.false_eq_true, if_false]
    rcases hr : env.HandleSettlements entry.1 entry.2 st.world with ⟨s, w1⟩
    cases s
    · exact ⟨rfl, fun h => by cases h⟩
    · exact ⟨rfl, fun _ => (mem_syncSetAdd _ _ _).2 (Or.inr rfl)⟩
    · exact ⟨rfl, fun h => by cases h⟩
  · simp only [hg, Bool.not_false, if_true]

theorem finalizeBody_status (env : Env S M R E) (valid : List (String × ContractInfo))
    (entry : String × List R) (st : IterState S M R E) :
    ((mapIndex valid entry.1).NeedHook = true →
      (finalizeBody env valid entry st).val.calls =
        st.calls ++
          [⟨Site.finalize, entry.1, (env.CallContractSudo entry.1 entry.2 st.world).1⟩] ∧
      ((env.CallContractSudo entry.1 entry.2 st.world).1 = Status.err →
        entry.1 ∈ (finalizeBody env valid entry st).val.failed)) ∧
    ((mapIndex valid entry.1).NeedHook = false →
      finalizeBody env valid entry st = Flow.cont st) := by
  unfold finalizeBody
  refine ⟨fun hg => ?_, fun hg => ?_⟩
  · simp only [hg, Bool.not_true, Bool.false_eq_true, if_false]
    rcases hr : env.CallContractSudo entry.1 entry.2 st.world with ⟨s, w1⟩
    cases s
    · exact ⟨rfl, fun h => by cases h⟩
    · exact ⟨rfl, fun _ => (mem_syncSetAdd _ _ _).2 (Or.inr rfl)⟩
    · exact ⟨rfl, fun h => by cases h⟩
  · simp only [hg, Bool.not_false, if_true]

theorem runnable_status (env : Env S M R E) (info : ContractInfo) (st : IterState S M R E) :
    (info.NeedOrderMatching = true →
      (runnable env info st).calls =
        st.calls ++
          [⟨Site.execution, info.ContractAddr,
            (env.HandleExecutionForContract info st.world).status⟩] ∧
      ((env.HandleExecutionForContract info st.world).status ≠ Status.ok →
        info.ContractAddr ∈ (runnable env info st).failed)) ∧
    (info.NeedOrderMatching = false → runnable env info st = st) := by
  unfold runnable
  refine ⟨fun hg => ?_, fun hg => ?_⟩
  · simp only [hg, Bool.not_true, Bool.false_eq_true, if_false]
    cases hr : env.HandleExecutionForContract info st.world with
    | ok m s w1 => exact ⟨rfl, fun h => absurd rfl h⟩
    | err w1 => exact ⟨rfl, fun _ => (mem_syncSetAdd _ _ _).2 (Or.inr rfl)⟩
    | panic w1 => exact ⟨rfl, fun _ => (mem_syncSetAdd _ _ _).2 (Or.inr rfl)⟩
  · simp only [hg, Bool.not_false, if_true]

/-- A hook invocation that ended in an error, or an execution that panicked, has its
contract in the failed set. -/
theorem errFailed_step (st st1 : IterState S M R E) (c0 : Call)
    (h : ∀ c ∈ st.calls,
      (c.status = Status.err ∨ (c.site = Site.execution ∧ c.status = Status.panic)) →
        c.contractAddr ∈ st.failed)
    (hcalls : st1.calls = st.calls ++ [c0])
    (hfailed : ∀ a ∈ st.failed, a ∈ st1.failed)
    (hc0 : (c0.status = Status.err ∨ (c0.site = Site.execution ∧ c0.status = Status.panic)) →
      c0.contractAddr ∈ st1.failed) :
    ∀ c ∈ st1.calls,
      (c.status = Status.err ∨ (c.site = Site.execution ∧ c.status = Status.panic)) →
        c.contractAddr ∈ st1.failed := by
  intro c hc hs
  rw [hcalls, List.mem_append, List.mem_singleton] at hc
  rcases hc with hc | hc
  · exact hfailed _ (h c hc hs)
  · rw [hc] at hs ⊢; exact hc0 hs

theorem depositBody_errFailed (env : Env S M R E) (k : String) (st : IterState S M R E)
    (h : ∀ c ∈ st.calls,
      (c.status = Status.err ∨ (c.site = Site.execution ∧ c.status = Status.panic)) →
        c.contractAddr ∈ st.failed) :
    ∀ c ∈ (depositBody env k st).val.calls,
      (c.status = Status.err ∨ (c.site = Site.execution ∧ c.status = Status.panic)) →
        c.contractAddr ∈ (depositBody env k st).val.failed := by
  obtain ⟨h1, h2⟩ := depositBody_status env k st
  refine errFailed_step st _ _ h h1 (depositBody_grows env k st).1 ?_
  rintro (hs | ⟨hs, _⟩)
  · exact h2 hs
  · cases hs

theorem settlementsBody_errFailed (env : Env S M R E) (valid : List (String × ContractInfo))
    (entry : String × List E) (st : IterState S M R E)
    (h : ∀ c ∈ st.calls,
      (c.status = Status.err ∨ (c.site = Site.execution ∧ c.status = Status.panic)) →
        c.contractAddr ∈ st.failed) :
    ∀ c ∈ (settlementsBody env valid entry st).val.calls,
      (c.status = Status.err ∨ (c.site = Site.execution ∧ c.status = Status.panic)) →
        c.contractAddr ∈ (settlementsBody env valid entry st).val.failed := by
  obtain ⟨h1, h2⟩ := settlementsBody_status env valid entry st
  cases hg : (mapIndex valid entry.1).NeedOrderMatching with
  | false => rw [h2 hg]; exact h
  | true =>
    obtain ⟨h3, h4⟩ := h1 hg
    refine errFailed_step st _ _ h h3 (settlementsBody_grows env valid entry st).1 ?_
    rintro (hs | ⟨hs, _⟩)
    · exact h4 hs
    · cases hs

theorem finalizeBody_errFailed (env : Env S M R E) (valid : List (String × ContractInfo))
    (entry : String × List R) (st : IterState S M R E)
    (h : ∀ c ∈ st.calls,
      (c.status = Status.err ∨ (c.site = Site.execution ∧ c.status = Status.panic)) →
        c.contractAddr ∈ st.failed) :
    ∀ c ∈ (finalizeBody env valid entry st).val.calls,
      (c.status = Status.err ∨ (c.site = Site.execution ∧ c.status = Status.panic)) →
        c.contractAddr ∈ (finalizeBody env valid entry st).val.failed := by
  obtain ⟨h1, h2⟩ := finalizeBody_status env valid entry st
  cases hg : (mapIndex valid entry.1).NeedHook with
  | false => rw [h2 hg]; exact h
  | true =>
    obtain ⟨h3, h4⟩ := h1 hg
    refine errFailed_step st _ _ h h3 (finalizeBody_grows env valid entry st).1 ?_
    rintro (hs | ⟨hs, _⟩)
    · exact h4 hs
    · cases hs

theorem runnable_errFailed (env : Env S M R E) (info : ContractInfo) (st : IterState S M R E)
    (h : ∀ c ∈ st.calls,
      (c.status = Status.err ∨ (c.site = Site.execution ∧ c.status = Status.panic)) →
        c.contractAddr ∈ st.failed) :
    ∀ c ∈ (runnable env info st).calls,
      (c.status = Status.err ∨ (c.site = Site.execution ∧ c.status = Status.panic)) →
        c.contractAddr ∈ (runnable env info st).failed := by
  obtain ⟨h1, h2⟩ := runnable_status env info st
  cases hg : info.NeedOrderMatching with
  | false => rw [h2 hg]; exact h
  | true =>
    obtain ⟨h3, h4⟩ := h1 hg
    refine errFailed_step st _ _ h h3 (runnable_grows env info st).1 ?_
    rintro (hs | ⟨_, hs⟩)
    · exact h4 (by show _ ≠ _; intro h0; rw [h0] at hs; cases hs)
    · exact h4 (by show _ ≠ _; intro h0; rw [h0] at hs; cases hs)

theorem iterationHooks_errFailed (env : Env S M R E) (sched : Schedule R E)
    (valid : List (String × ContractInfo)) (w : World S M) :
    ∀ c ∈ (iterationHooks env sched valid w).val.calls,
      (c.status = Status.err ∨ (c.site = Site.execution ∧ c.status = Status.panic)) →
        c.contractAddr ∈ (iterationHooks env sched valid w).val.failed := by
  let P : IterState S M R E → Prop := fun st => ∀ c ∈ st.calls,
      (c.status = Status.err ∨ (c.site = Site.execution ∧ c.status = Status.panic)) →
        c.contractAddr ∈ st.failed
  have h0 : P (iterInit sched valid w) := fun c hc => by cases hc
  have h1 : P (depositPhase env sched valid (iterInit sched valid w)).val :=
    forEach_val_inv P (depositBody env) _
      (fun b _ a ha => depositBody_errFailed env b a ha) _ h0
  show P (iterationHooks env sched valid w).val
  unfold iterationHooks
  cases hd : depositPhase env sched valid (iterInit sched valid w) with
  | panicked st0 => rw [hd] at h1; exact h1
  | cont st1 =>
    rw [hd] at h1
    have h2 : P (matchPhase env sched valid st1) :=
      foldl_inv P (fun s contractInfo => runnable env contractInfo s) _
        (fun b _ a ha => runnable_errFailed env b a ha) _ h1
    have h3 : P (settlementsPhase env sched valid (matchPhase env sched valid st1)).val :=
      forEach_val_inv P (settlementsBody env valid) _
        (fun b _ a ha => settlementsBody_errFailed env valid b a ha) _ h2
    simp only
    cases hs : settlementsPhase env sched valid (matchPhase env sched valid st1) with
    | panicked st0 => rw [hs] at h3; exact h3
    | cont st3 =>
      rw [hs] at h3
      exact forEach_val_inv P (finalizeBody env valid) _
        (fun b _ a ha => finalizeBody_errFailed env valid b a ha) _ h3

theorem iterationHooks_execution_all (env : Env S M R E) (sched : Schedule R E)
    (valid : List (String × ContractInfo)) (hv : ValidMap valid) (w : World S M)
    (st : IterState S M R E) (h : iterationHooks env sched valid w = Flow.cont st) :
    ∀ k ∈ mapKeys valid, (mapIndex valid k).NeedOrderMatching = true →
      ∃ c ∈ st.calls, c.site = Site.execution ∧ c.contractAddr = k := by
  intro k hk hg
  unfold iterationHooks at h
  cases hd : depositPhase env sched valid (iterInit sched valid w) with
  | panicked st0 => rw [hd] at h; cases h
  | cont st1 =>
    rw [hd] at h
    simp only at h
    cases hs : settlementsPhase env sched valid (matchPhase env sched valid st1) with
    | panicked st0 => rw [hs] at h; cases h
    | cont st3 =>
      rw [hs] at h
      simp only at h
      have g2 := settlementsPhase_grows env sched valid (matchPhase env sched valid st1)
      rw [hs] at g2
      have g3 := finalizePhase_grows env sched valid st3
      rw [h] at g3
      simp only [mapKeys, List.mem_map] at hk
      obtain ⟨p, hp, hpk⟩ := hk
      obtain ⟨_, hidx⟩ := mapIndex_of_mem valid hv p hp
      have haddr : p.2.ContractAddr = k := by rw [hv.2 p hp]; exact hpk
      rw [haddr] at hidx
      have hmem : p.2 ∈ sched.run (validContractsInfo sched valid) :=
        (mem_validContractsInfo sched valid p.2).2 ⟨p, hp, rfl⟩
      obtain ⟨pre, post, hsplit⟩ := List.append_of_mem hmem
      have hg2 : p.2.NeedOrderMatching = true := by rw [← hidx]; exact hg
      obtain ⟨c, hc, hsite, hca, _, _⟩ :=
        runnable_logs env p.2
          (pre.foldl (fun s contractInfo => runnable env contractInfo s) st1) hg2
      have hin : c ∈ (matchPhase env sched valid st1).calls := by
        unfold matchPhase runParallel
        rw [hsplit, List.foldl_append, List.foldl_cons]
        exact (foldl_runnable_grows env post _).2 c hc
      exact ⟨c, g3.2 c (g2.2 c hin), hsite, hca.trans haddr⟩

theorem EndBlock_log_nonempty (env : Env S M R E) (sched : Schedule R E) (fuel : Nat)
    (contracts : List ContractInfo) (w : World S M) (r : EndBlockResult S M R E)
    (h : EndBlock env sched fuel contracts w = some r) (hne : contracts ≠ []) :
    r.log ≠ [] := by
  have hvne : ¬ (validContractAddresses contracts).length = 0 := by
    intro h0
    cases contracts with
    | nil => exact hne rfl
    | cons c rest =>
      have := validContractAddresses_keys (c :: rest) c (List.mem_cons_self _ _)
      rw [List.length_eq_zero.1 h0] at this
      cases this
  refine EndBlockLoop_rule env sched w.store
    (fun _ valid _ log => log = [] → valid = validContractAddresses contracts)
    (fun r => r.log ≠ [])
    ?_ ?_ ?_ ?_ ?_ fuel w.mem _ _ [] r (fun _ => rfl) h
  · intro mem valid ic log hI hv hlog
    have hlog2 : log = [] := hlog
    rw [hI hlog2] at hv
    exact hv (Nat.pos_of_ne_zero hvne)
  · intro mem valid ic log st _ _ _ hlog
    exact List.append_ne_nil_of_right_ne_nil _ (List.cons_ne_nil _ _) hlog
  · intro mem valid ic log st _ _ _ _ hlog
    exact List.append_ne_nil_of_right_ne_nil _ (List.cons_ne_nil _ _) hlog
  · intro mem valid ic log st _ _ _ _ _ hlog
    exact List.append_ne_nil_of_right_ne_nil _ (List.cons_ne_nil _ _) hlog
  · intro mem valid ic log st _ _ _ _ _ hlog
    exact absurd hlog (List.append_ne_nil_of_right_ne_nil _ (List.cons_ne_nil _ _))

/-- C5 (amended): `EndBlock` iterates over every registered contract, one entry per
address, whatever its flags, and with a contract registered it runs at least one iteration.
The hooks of an iteration are those of `iterationHooks` on its remaining contracts. In every
iteration each hook invocation is for a remaining contract; `HandleExecutionForContract` and
`HandleSettlements` are invoked only for contracts with `NeedOrderMatching`, the finalize
call only for contracts with `NeedHook`; every contract in the failed set had an invoked
hook that did not succeed, and every contract one of whose invoked hooks returned an error,
or whose execution panicked, is in the failed set. Unless a panic ends the iteration,
deposit handling is invoked for every remaining contract, the finalize call for every
remaining contract with `NeedHook`, execution and settlement handling for every remaining
contract with `NeedOrderMatching`. Each invocation is recorded with the status its handler
returned and adds its contract to the failed set when that status is an error; a step whose
flag is not set leaves the state as it is. -/
theorem EndBlock_hooks_follow_flags (env : Env S M R E) (sched : Schedule R E)
    (fuel : Nat) (contracts : List ContractInfo) (w : World S M)
    (hfuel : (validContractAddresses contracts).length ≤ fuel) :
    (∃ r, EndBlock env sched fuel contracts w = some r ∧
      (∀ c ∈ contracts, c.ContractAddr ∈ mapKeys (validContractAddresses contracts)) ∧
      (∀ it ∈ r.log.head?, it.remaining = validContractAddresses contracts) ∧
      (contracts ≠ [] → r.log ≠ []) ∧
      ∀ it ∈ r.log,
        it.hooks = (iterationHooks env sched it.remaining ⟨w.store, it.snapshot⟩).val ∧
        (∀ c ∈ it.hooks.calls, c.contractAddr ∈ mapKeys it.remaining ∧
          ((c.site = Site.execution ∨ c.site = Site.settlements) →
            (mapIndex it.remaining c.contractAddr).NeedOrderMatching = true) ∧
          (c.site = Site.finalize → (mapIndex it.remaining c.contractAddr).NeedHook = true)) ∧
        (it.panicked = false → ∀ k ∈ mapKeys it.remaining,
          ∃ c ∈ it.hooks.calls, c.site = Site.deposit ∧ c.contractAddr = k) ∧
        (∀ a ∈ it.hooks.failed,
          ∃ c ∈ it.hooks.calls, c.contractAddr = a ∧ c.status ≠ Status.ok) ∧
        (∀ c ∈ it.hooks.calls,
          (c.status = Status.err ∨ (c.site = Site.execution ∧ c.status = Status.panic)) →
            c.contractAddr ∈ it.hooks.failed) ∧
        (it.panicked = false → ∀ k ∈ mapKeys it.remaining,
          ((mapIndex it.remaining k).NeedHook = true →
            ∃ c ∈ it.hooks.calls, c.site = Site.finalize ∧ c.contractAddr = k) ∧
          ((mapIndex it.remaining k).NeedOrderMatching = true →
            (∃ c ∈ it.hooks.calls, c.site = Site.execution ∧ c.contractAddr = k) ∧
            (∃ c ∈ it.hooks.calls, c.site = Site.settlements ∧ c.contractAddr = k)))) ∧
    (∀ (k : String) (st : IterState S M R E),
      (depositBody env k st).val.calls =
        st.calls ++ [⟨Site.deposit, k, (env.HandleEBDeposit k st.world).1⟩] ∧
      ((env.HandleEBDeposit k st.world).1 = Status.err →
        k ∈ (depositBody env k st).val.failed)) ∧
    (∀ (info : ContractInfo) (st : IterState S M R E),
      (info.NeedOrderMatching = true →
        (runnable env info st).calls =
          st.calls ++
            [⟨Site.execution, info.ContractAddr,
              (env.HandleExecutionForContract info st.world).status⟩] ∧
        ((env.HandleExecutionForContract info st.world).status ≠ Status.ok →
          info.ContractAddr ∈ (runnable env info st).failed)) ∧
      (info.NeedOrderMatching = false → runnable env info st = st)) ∧
    (∀ (valid : List (String × ContractInfo)) (entry : String × List E)
        (st : IterState S M R E),
      ((mapIndex valid entry.1).NeedOrderMatching = true →
        (settlementsBody env valid entry st).val.calls =
          st.calls ++
            [⟨Site.settlements, entry.1,
              (env.HandleSettlements entry.1 entry.2 st.world).1⟩] ∧
        ((env.HandleSettlements entry.1 entry.2 st.world).1 = Status.err →
          entry.1 ∈ (settlementsBody env valid entry st).val.failed)) ∧
      ((mapIndex valid entry.1).NeedOrderMatching = false →
        settlementsBody env valid entry st = Flow.cont st)) ∧
    (∀ (valid : List (String × ContractInfo)) (entry : String × List R)
        (st : IterState S M R E),
      ((mapIndex valid entry.1).NeedHook = true →
        (finalizeBody env valid entry st).val.calls =
          st.calls ++
            [⟨Site.finalize, entry.1, (env.CallContractSudo entry.1 entry.2 st.world).1⟩] ∧
        ((env.CallContractSudo entry.1 entry.2 st.world).1 = Status.err →
          entry.1 ∈ (finalizeBody env valid entry st).val.failed)) ∧
      ((mapIndex valid entry.1).NeedHook = false →
        finalizeBody env valid entry st = Flow.cont st)) := by
  refine ⟨?_, depositBody_status env, runnable_status env, settlementsBody_status env,
    finalizeBody_status env⟩
  obtain ⟨r, hr⟩ := EndBlock_returns env sched fuel contracts w hfuel
  have hs := EndBlock_log_sound env sched fuel contracts w r hr
  obtain ⟨_, c2, _, _, _, _⟩ := EndBlock_log_chain env sched fuel contracts w r hr
  refine ⟨r, hr, validContractAddresses_keys contracts, fun it hit => (c2 it hit).1,
    EndBlock_log_nonempty env sched fuel contracts w r hr, ?_⟩
  intro it hit
  obtain ⟨h1, _, h3, h4, _, _, _⟩ := hs it hit
  have hinv := iterationHooks_inv env sched it.remaining h1 ⟨w.store, it.snapshot⟩
  have herr := iterationHooks_errFailed env sched it.remaining ⟨w.store, it.snapshot⟩
  rw [← h3] at hinv herr
  refine ⟨h3, hinv.2.2.1, ?_, hinv.2.2.2, herr, ?_⟩
  · intro hp k hk
    cases hh : iterationHooks env sched it.remaining ⟨w.store, it.snapshot⟩ with
    | panicked st0 =>
      rw [hh] at h4
      rw [hp] at h4
      cases h4
    | cont st0 =>
      rw [hh] at h3
      have := iterationHooks_deposit_all env sched it.remaining ⟨w.store, it.snapshot⟩ st0 hh k hk
      rw [h3]; exact this
  · intro hp k hk
    cases hh : iterationHooks env sched it.remaining ⟨w.store, it.snapshot⟩ with
    | panicked st0 =>
      rw [hh] at h4
      rw [hp] at h4
      cases h4
    | cont st0 =>
      rw [hh] at h3
      have hpost := iterationHooks_post_all env sched it.remaining ⟨w.store, it.snapshot⟩ st0 hh
      have hexec :=
        iterationHooks_execution_all env sched it.remaining h1 ⟨w.store, it.snapshot⟩ st0 hh
      rw [h3]
      exact ⟨hpost.2 k hk, fun hg => ⟨hexec k hk hg, hpost.1 k hk hg⟩⟩

/-- C5 (amended) on the concrete block: it runs two iterations, the first over `a` and `b`
with `b` failed, the second over `a` alone with nothing failed. -/
theorem EndBlock_hooks_follow_flags_witness :
    (validContractAddresses demoContracts).length ≤ 2 ∧
    ((∃ r, EndBlock demoEnv idSchedule 2 demoContracts demoWorld = some r ∧
      (∀ c ∈ demoContracts, c.ContractAddr ∈ mapKeys (validContractAddresses demoContracts)) ∧
      (∀ it ∈ r.log.head?, it.remaining = validContractAddresses demoContracts) ∧
      (demoContracts ≠ [] → r.log ≠ []) ∧
      ∀ it ∈ r.log,
        it.hooks = (iterationHooks demoEnv idSchedule it.remaining ⟨demoWorld.store, it.snapshot⟩).val ∧
        (∀ c ∈ it.hooks.calls, c.contractAddr ∈ mapKeys it.remaining ∧
          ((c.site = Site.execution ∨ c.site = Site.settlements) →
            (mapIndex it.remaining c.contractAddr).NeedOrderMatching = true) ∧
          (c.site = Site.finalize → (mapIndex it.remaining c.contractAddr).NeedHook = true)) ∧
        (it.panicked = false → ∀ k ∈ mapKeys it.remaining,
          ∃ c ∈ it.hooks.calls, c.site = Site.deposit ∧ c.contractAddr = k) ∧
        (∀ a ∈ it.hooks.failed,
          ∃ c ∈ it.hooks.calls, c.contractAddr = a ∧ c.status ≠ Status.ok) ∧
        (∀ c ∈ it.hooks.calls,
          (c.status = Status.err ∨ (c.site = Site.execution ∧ c.status = Status.panic)) →
            c.contractAddr ∈ it.hooks.failed) ∧
        (it.panicked = false → ∀ k ∈ mapKeys it.remaining,
          ((mapIndex it.remaining k).NeedHook = true →
            ∃ c ∈ it.hooks.calls, c.site = Site.finalize ∧ c.contractAddr = k) ∧
          ((mapIndex it.remaining k).NeedOrderMatching = true →
            (∃ c ∈ it.hooks.calls, c.site = Site.execution ∧ c.contractAddr = k) ∧
            (∃ c ∈ it.hooks.calls, c.site = Site.settlements ∧ c.contractAddr = k)))) ∧
    (∀ (k : String) (st : IterState Nat (List String) Nat Nat),
      (depositBody demoEnv k st).val.calls =
        st.calls ++ [⟨Site.deposit, k, (demoEnv.HandleEBDeposit k st.world).1⟩] ∧
      ((demoEnv.HandleEBDeposit k st.world).1 = Status.err →
        k ∈ (depositBody demoEnv k st).val.failed)) ∧
    (∀ (info : ContractInfo) (st : IterState Nat (List String) Nat Nat),
      (info.NeedOrderMatching = true →
        (runnable demoEnv info st).calls =
          st.calls ++
            [⟨Site.execution, info.ContractAddr,
              (demoEnv.HandleExecutionForContract info st.world).status⟩] ∧
        ((demoEnv.HandleExecutionForContract info st.world).status ≠ Status.ok →
          info.ContractAddr ∈ (runnable demoEnv info st).failed)) ∧
      (info.NeedOrderMatching = false → runnable demoEnv info st = st)) ∧
    (∀ (valid : List (String × ContractInfo)) (entry : String × List Nat)
        (st : IterState Nat (List String) Nat Nat),
      ((mapIndex valid entry.1).NeedOrderMatching = true →
        (settlementsBody demoEnv valid entry st).val.calls =
          st.calls ++
            [⟨Site.settlements, entry.1,
              (demoEnv.HandleSettlements entry.1 entry.2 st.world).1⟩] ∧
        ((demoEnv.HandleSettlements entry.1 entry.2 st.world).1 = Status.err →
          entry.1 ∈ (settlementsBody demoEnv valid entry st).val.failed)) ∧
      ((mapIndex valid entry.1).NeedOrderMatching = false →
        settlementsBody demoEnv valid entry st = Flow.cont st)) ∧
    (∀ (valid : List (String × ContractInfo)) (entry : String × List Nat)
        (st : IterState Nat (List String) Nat Nat),
      ((mapIndex valid entry.1).NeedHook = true →
        (finalizeBody demoEnv valid entry st).val.calls =
          st.calls ++
            [⟨Site.finalize, entry.1, (demoEnv.CallContractSudo entry.1 entry.2 st.world).1⟩] ∧
        ((demoEnv.CallContractSudo entry.1 entry.2 st.world).1 = Status.err →
          entry.1 ∈ (finalizeBody demoEnv valid entry st).val.failed)) ∧
      ((mapIndex valid entry.1).NeedHook = false →
        finalizeBody demoEnv valid entry st = Flow.cont st))) ∧
    (EndBlock demoEnv idSchedule 2 demoContracts demoWorld).map
      (fun r => r.log.map (fun it => (mapKeys it.remaining, it.hooks.failed))) =
      some [(["a", "b"], ["b"]), (["a"], [])] :=
  ⟨by decide, EndBlock_hooks_follow_flags demoEnv idSchedule 2 demoContracts demoWorld (by decide), by decide⟩

end HookInvocation

/-! ## The canonical order of a match result -/

section CanonicalOrder

theorem keyLe_total : ∀ a b : List Int, keyLe a b = true ∨ keyLe b a = true
  | [], _ => Or.inl rfl
  | _ :: _, [] => Or.inr rfl
  | a :: as, b :: bs => by
    simp only [keyLe]
    rcases lt_trichotomy a b with h | h | h
    · simp [h]
    · subst h; simp [keyLe_total as bs]
    · have : ¬ a < b := not_lt.2 (le_of_lt h)
      simp [h, this]

theorem keyLe_antisymm : ∀ a b : List Int, keyLe a b = true → keyLe b a = true → a = b
  | [], [] => fun _ _ => rfl
  | [], _ :: _ => fun _ h => by simp [keyLe] at h
  | _ :: _, [] => fun h _ => by simp [keyLe] at h
  | a :: as, b :: bs => by
    intro h1 h2
    simp only [keyLe] at h1 h2
    rcases lt_trichotomy a b with h | h | h
    · have : ¬ b < a := not_lt.2 (le_of_lt h)
      simp [h, this] at h2
    · subst h
      simp only [lt_irrefl, if_false] at h1 h2
      rw [keyLe_antisymm as bs h1 h2]
    · have : ¬ a < b := not_lt.2 (le_of_lt h)
      simp [h, this] at h1

theorem keyLe_trans :
    ∀ a b c : List Int, keyLe a b = true → keyLe b c = true → keyLe a c = true
  | [], _, _ => fun _ _ => rfl
  | _ :: _, [], _ => fun h _ => by simp [keyLe] at h
  | _ :: _, _ :: _, [] => fun _ h => by simp [keyLe] at h
  | a :: as, b :: bs, c :: cs => by
    intro h1 h2
    simp only [keyLe] at h1 h2 ⊢
    by_cases hab : a < b
    · by_cases hbc : b < c
      · simp [lt_trans hab hbc]
      · by_cases hcb : c < b
        · simp [hbc, hcb] at h2
        · have : b = c := le_antisymm (not_lt.1 hcb) (not_lt.1 hbc)
          subst this; simp [hab]
    · by_cases hba : b < a
      · simp [hab, hba] at h1
      · have hab2 : a = b := le_antisymm (not_lt.1 hba) (not_lt.1 hab)
        subst hab2
        simp only [lt_irrefl, if_false] at h1
        by_cases hbc : a < c
        · simp [hbc]
        · by_cases hcb : c < a
          · simp [hbc, hcb] at h2
          · simp only [hbc, hcb, if_false] at h2 ⊢
            exact keyLe_trans as bs cs h1 h2

theorem sortByKey_perm {α : Type} (key : α → List Int) (hinj : Function.Injective key)
    {l l1 : List α} (h : l.Perm l1) : sortByKey key l = sortByKey key l1 := by
  haveI : IsTotal α (fun a b => keyLe (key a) (key b) = true) :=
    ⟨fun a b => keyLe_total (key a) (key b)⟩
  haveI : IsTrans α (fun a b => keyLe (key a) (key b) = true) :=
    ⟨fun a b c => keyLe_trans (key a) (key b) (key c)⟩
  haveI : IsAntisymm α (fun a b => keyLe (key a) (key b) = true) :=
    ⟨fun a b h1 h2 => hinj (keyLe_antisymm (key a) (key b) h1 h2)⟩
  unfold sortByKey
  apply List.eq_of_perm_of_sorted _ (List.sorted_insertionSort _ l)
    (List.sorted_insertionSort _ l1)
  exact (List.perm_insertionSort _ l).trans (h.trans (List.perm_insertionSort _ l1).symm)

theorem sortByKey_self_perm {α : Type} (key : α → List Int) (l : List α) :
    (sortByKey key l).Perm l :=
  List.perm_insertionSort _ l

theorem stringKey_injective : Function.Injective stringKey := by
  intro a b h
  unfold stringKey at h
  have h1 : a.data = b.data := by
    apply List.map_injective_iff.2 _ h
    intro x y hxy
    have h2 : (x.toNat : Int) = (y.toNat : Int) := hxy
    have h3 : x.val.toNat = y.val.toNat := Int.ofNat.inj h2
    exact Char.ext (UInt32.ext h3)
  exact String.ext h1

theorem directionCode_injective : Function.Injective directionCode := by
  intro a b h
  cases a <;> cases b <;> simp [directionCode] at h ⊢

theorem orderTypeCode_injective : Function.Injective orderTypeCode := by
  intro a b h
  cases a <;> cases b <;> simp [orderTypeCode] at h ⊢

theorem orderKey_injective : Function.Injective Order.key := by
  intro a b h
  obtain ⟨i1, a1, d1, t1, p1, q1, tp1, s1⟩ := a
  obtain ⟨i2, a2, d2, t2, p2, q2, tp2, s2⟩ := b
  unfold Order.key at h
  simp only [List.cons_append, List.nil_append, List.cons.injEq] at h
  obtain ⟨h1, h2, h3, h4, h5, h6, h7, h8⟩ := h
  have hs : s1 = s2 := by
    cases s1 <;> cases s2 <;> simp at h7 ⊢
  simp only [Order.mk.injEq]
  exact ⟨Int.ofNat.inj h1, stringKey_injective h8, directionCode_injective h2,
    orderTypeCode_injective h3, h4, h5, h6, hs⟩

theorem cancellationKey_injective : Function.Injective Cancellation.key := by
  intro a b h
  unfold Cancellation.key at h
  simp only [List.cons.injEq, and_true] at h
  obtain ⟨h1, h2, h3⟩ := h
  cases a; cases b
  simp only [Cancellation.mk.injEq]
  simp only at h1 h2 h3
  exact ⟨Int.ofNat.inj h1, h2, directionCode_injective h3⟩

theorem settlementKey_injective : Function.Injective SettlementEntry.key := by
  intro a b h
  unfold SettlementEntry.key at h
  simp only [List.cons_append, List.nil_append, List.cons.injEq] at h
  obtain ⟨h1, h2, h3, h4⟩ := h
  cases a; cases b
  simp only [SettlementEntry.mk.injEq]
  simp only at h1 h2 h3 h4
  exact ⟨Int.ofNat.inj h1, stringKey_injective h4, h2, h3⟩

theorem NewMatchResult_perm {o o1 : List Order} {c c1 : List Cancellation}
    {s s1 : List SettlementEntry} (ho : o.Perm o1) (hc : c.Perm c1) (hs : s.Perm s1) :
    NewMatchResult o c s = NewMatchResult o1 c1 s1 := by
  unfold NewMatchResult
  rw [sortByKey_perm Order.key orderKey_injective ho,
    sortByKey_perm Cancellation.key cancellationKey_injective hc,
    sortByKey_perm SettlementEntry.key settlementKey_injective hs]

theorem NewMatchResult_sorted (o : List Order) (c : List Cancellation)
    (s : List SettlementEntry) :
    NewMatchResult (NewMatchResult o c s).Orders (NewMatchResult o c s).Cancellations
      (NewMatchResult o c s).Settlements = NewMatchResult o c s :=
  NewMatchResult_perm (sortByKey_self_perm _ _) (sortByKey_self_perm _ _)
    (sortByKey_self_perm _ _)

end CanonicalOrder

/-! ## Independence of the pair tasks -/

section TaskIndependence

variable {B K : Type}

theorem pairTask_eq (env : ContractEnv B K) (pair : Pair) (run : PairRun B K) :
    pairTask env pair run =
      match run.cs.orderBooks (GetPairString pair) with
      | none => none
      | some orderbook =>
        some (applyOutcome (GetPairString pair)
          (pairOutcome env (run.cs.slices (GetPairString pair)) orderbook) run) := by
  unfold pairTask
  simp only
  cases run.cs.orderBooks (GetPairString pair) <;> rfl

theorem runPairTasks_cons (env : ContractEnv B K) (pair : Pair) (rest : List Pair)
    (run : PairRun B K) :
    runPairTasks env (pair :: rest) run =
      (pairTask env pair run).bind (runPairTasks env rest) := by
  simp only [runPairTasks]
  cases pairTask env pair run <;> rfl

end TaskIndependence

/-! ## Properties of the per-contract coordinator -/

section ContractRunProperties

variable {B K : Type}

theorem pairTask_ops (env : ContractEnv B K) (pair : Pair) (run run1 : PairRun B K)
    (h : pairTask env pair run = some run1) :
    run1.ops = run.ops ++ [Op.pairRun (GetPairString pair)] := by
  unfold pairTask at h
  simp only at h
  cases hb : run.cs.orderBooks (GetPairString pair) with
  | none => rw [hb] at h; cases h
  | some orderbook =>
    rw [hb] at h
    simp only [Option.some.injEq] at h
    rw [← h]

theorem runPairTasks_ops (env : ContractEnv B K) (l : List Pair) :
    ∀ run run1 : PairRun B K, runPairTasks env l run = some run1 →
      run1.ops = run.ops ++ l.map (fun p => Op.pairRun (GetPairString p)) := by
  induction l with
  | nil =>
    intro run run1 h
    simp only [runPairTasks, Option.some.injEq] at h
    rw [← h]; simp
  | cons pair rest ih =>
    intro run run1 h
    simp only [runPairTasks] at h
    cases ht : pairTask env pair run with
    | none => rw [ht] at h; cases h
    | some run2 =>
      rw [ht] at h
      simp only at h
      rw [ih run2 run1 h, pairTask_ops env pair run run2 ht]
      simp

theorem ExecutePairsInParallel_ops (env : ContractEnv B K) (sched : PairSchedule)
    (registeredPairs : List Pair) (cs : ContractState B K) (run : PairRun B K)
    (h : ExecutePairsInParallel env sched registeredPairs cs = some run) :
    run.ops =
      (sched.finish registeredPairs).map (fun p => Op.pairRun (GetPairString p)) ++
        [Op.setMatchResult] ∧
    run.cs.matchResult =
      some (NewMatchResult run.orderResults run.cancelResults run.settlements) := by
  unfold ExecutePairsInParallel at h
  cases hr : runPairTasks env (sched.finish registeredPairs)
      { cs := cs, orderResults := [], cancelResults := [], settlements := [], ops := [] } with
  | none => rw [hr] at h; cases h
  | some run0 =>
    rw [hr] at h
    simp only [Option.some.injEq] at h
    have hops := runPairTasks_ops env _ _ run0 hr
    rw [← h]
    refine ⟨?_, ?_⟩
    · show run0.ops ++ [Op.setMatchResult] = _
      rw [hops, List.nil_append]
    · show some (NewMatchResult run0.orderResults run0.cancelResults run0.settlements) = _
      rw [NewMatchResult_sorted]

/-- C12: pre-execution hooks in `HandleExecutionForContract`. If the cancel-orders hook
returns an error, the place-orders hook is not invoked and the function returns that error
with an empty settlement list; if the place-orders hook returns an error, the function
returns that error with an empty settlement list; in both cases the state is the one the
failing hook left, no pair was run and no match result was stored. If both hooks succeed
and the pair runs return, the result is their settlements with a nil error. Whenever
`ExecutePairsInParallel` returns, it has run every registered pair and stored the match
result. -/
theorem HandleExecutionForContract_hooks (env : ContractEnv B K) (sched : PairSchedule)
    (contract : ContractInfo) (registeredPairs : List Pair) (cs : ContractState B K) :
    (∀ e cs1,
      env.HandleEBCancelOrders contract.ContractAddr registeredPairs cs =
        HookResult.err e cs1 →
      HandleExecutionForContract env sched contract registeredPairs cs =
        ExecOutcome.returned [] (some e) cs1 [Op.cancelHook]) ∧
    (∀ cs1 e cs2,
      env.HandleEBCancelOrders contract.ContractAddr registeredPairs cs =
        HookResult.ok cs1 →
      env.HandleEBPlaceOrders contract.ContractAddr registeredPairs cs1 =
        HookResult.err e cs2 →
      HandleExecutionForContract env sched contract registeredPairs cs =
        ExecOutcome.returned [] (some e) cs2 [Op.cancelHook, Op.placeHook]) ∧
    (∀ cs1 cs2 run,
      env.HandleEBCancelOrders contract.ContractAddr registeredPairs cs =
        HookResult.ok cs1 →
      env.HandleEBPlaceOrders contract.ContractAddr registeredPairs cs1 =
        HookResult.ok cs2 →
      ExecutePairsInParallel env sched registeredPairs cs2 = some run →
      HandleExecutionForContract env sched contract registeredPairs cs =
        ExecOutcome.returned run.settlements none run.cs
          ([Op.cancelHook, Op.placeHook] ++ run.ops)) ∧
    (∀ cs0 run, ExecutePairsInParallel env sched registeredPairs cs0 = some run →
      run.ops =
        (sched.finish registeredPairs).map (fun p => Op.pairRun (GetPairString p)) ++
          [Op.setMatchResult] ∧
      run.cs.matchResult =
        some (NewMatchResult run.orderResults run.cancelResults run.settlements)) := by
  refine ⟨?_, ?_, ?_, ?_⟩
  · intro e cs1 h1
    simp only [HandleExecutionForContract, CallPreExecutionHooks, h1]
  · intro cs1 e cs2 h1 h2
    simp only [HandleExecutionForContract, CallPreExecutionHooks, h1, h2]
  · intro cs1 cs2 run h1 h2 h3
    simp only [HandleExecutionForContract, CallPreExecutionHooks, h1, h2, h3]
  · intro cs0 run h
    exact ExecutePairsInParallel_ops env sched registeredPairs cs0 run h

theorem runPairTasks_no_book (env : ContractEnv B K) (pair : Pair) (l : List Pair) :
    ∀ run : PairRun B K, pair ∈ l →
      (run.cs.orderBooks (GetPairString pair)).isNone = true →
      runPairTasks env l run = none := by
  induction l with
  | nil => intro run hp; cases hp
  | cons q rest ih =>
    intro run hp hb
    rw [runPairTasks_cons, pairTask_eq]
    cases hq : run.cs.orderBooks (GetPairString q) with
    | none => rfl
    | some ob =>
      simp only [Option.bind]
      have hne : ¬ GetPairString pair = GetPairString q := by
        intro h
        rw [h, hq] at hb
        cases hb
      have hin : pair ∈ rest := by
        rcases List.mem_cons.1 hp with h | h
        · exact absurd (congrArg GetPairString h) hne
        · exact h
      apply ih _ hin
      simp only [applyOutcome, hne, if_false]
      exact hb

/-- C4 (failing inputs): whenever both pre-execution hooks of a contract succeeded and some
registered pair has no order book, the task of that pair panics on line 208 whatever the
order in which the pair tasks finish: `ExecutePairsInParallel` yields no result,
`HandleExecutionForContract` does not return, and the panic is raised on the goroutine of
the pair task, where the deferred `recover` of `runnable` does not stop it. -/
theorem pair_task_panic_on_pair_goroutine (env : ContractEnv B K) (sched : PairSchedule)
    (contract : ContractInfo) (registeredPairs : List Pair) (cs cs1 : ContractState B K)
    (ops : List Op) (pair : Pair)
    (hhooks : CallPreExecutionHooks env contract.ContractAddr registeredPairs cs =
      (HookResult.ok cs1, ops))
    (hpair : pair ∈ registeredPairs)
    (hbook : (cs1.orderBooks (GetPairString pair)).isNone = true) :
    (ExecutePairsInParallel env sched registeredPairs cs1).isNone = true ∧
    HandleExecutionForContract env sched contract registeredPairs cs = ExecOutcome.panicked ∧
    panicSite env sched contract registeredPairs cs = some PanicSite.pairGoroutine ∧
    (panicSite env sched contract registeredPairs cs).map runnableRecovers = some false := by
  have hrun : runPairTasks env (sched.finish registeredPairs)
      { cs := cs1, orderResults := [], cancelResults := [], settlements := [], ops := [] } =
      none :=
    runPairTasks_no_book env pair _ _
      ((sched.finish_perm registeredPairs).mem_iff.2 hpair) hbook
  have hexec : ExecutePairsInParallel env sched registeredPairs cs1 = none := by
    unfold ExecutePairsInParallel
    rw [hrun]
  have hsite : panicSite env sched contract registeredPairs cs =
      some PanicSite.pairGoroutine := by
    unfold panicSite
    rw [hhooks]
    simp only [hexec]
  refine ⟨by rw [hexec]; rfl, ?_, hsite, by rw [hsite]; rfl⟩
  unfold HandleExecutionForContract
  simp only [hhooks, hexec]

/-- C4 on the concrete contract: both hooks succeed, the second registered pair `usdc|btc`
has no order book, and under either finish order of the two pair tasks the call does not
return and the panic is one that `runnable` does not recover. -/
theorem pair_task_panic_on_pair_goroutine_witness :
    (CallPreExecutionHooks demoContractEnv "c" demoPairsNoBook demoContract =
        (HookResult.ok demoContract, [Op.cancelHook, Op.placeHook]) ∧
      ({ PriceDenom := "usdc", AssetDenom := "btc" } : Pair) ∈ demoPairsNoBook ∧
      (demoContract.orderBooks
        (GetPairString { PriceDenom := "usdc", AssetDenom := "btc" })).isNone = true) ∧
    ((ExecutePairsInParallel demoContractEnv firstToLast demoPairsNoBook
        demoContract).isNone = true ∧
      HandleExecutionForContract demoContractEnv firstToLast
        { ContractAddr := "c", NeedHook := true, NeedOrderMatching := true }
        demoPairsNoBook demoContract = ExecOutcome.panicked ∧
      panicSite demoContractEnv firstToLast
        { ContractAddr := "c", NeedHook := true, NeedOrderMatching := true }
        demoPairsNoBook demoContract = some PanicSite.pairGoroutine ∧
      (panicSite demoContractEnv firstToLast
        { ContractAddr := "c", NeedHook := true, NeedOrderMatching := true }
        demoPairsNoBook demoContract).map runnableRecovers = some false) ∧
    (panicSite demoContractEnv lastToFirst
      { ContractAddr := "c", NeedHook := true, NeedOrderMatching := true }
      demoPairsNoBook demoContract).map runnableRecovers = some false :=
  ⟨⟨rfl, by decide, by decide⟩,
    pair_task_panic_on_pair_goroutine demoContractEnv firstToLast
      { ContractAddr := "c", NeedHook := true, NeedOrderMatching := true }
      demoPairsNoBook demoContract demoContract [Op.cancelHook, Op.placeHook]
      { PriceDenom := "usdc", AssetDenom := "btc" } rfl (by decide) (by decide),
    by decide⟩

/-- The settlements and the stored match result of the concrete contract under the two
finish orders of its two pair tasks. -/
theorem ExecutePairsInParallel_concrete :
    (ExecutePairsInParallel demoContractEnv firstToLast demoPairs demoContract).map
      (fun run => (run.settlements, run.cs.matchResult.map (fun m => m.Settlements))) =
      some ([{ OrderId := 3, Account := "x", Price := 100, Quantity := 2 },
             { OrderId := 7, Account := "y", Price := 100, Quantity := 4 }],
            some [{ OrderId := 3, Account := "x", Price := 100, Quantity := 2 },
                  { OrderId := 7, Account := "y", Price := 100, Quantity := 4 }]) ∧
    (ExecutePairsInParallel demoContractEnv lastToFirst demoPairs demoContract).map
      (fun run => (run.settlements, run.cs.matchResult.map (fun m => m.Settlements))) =
      some ([{ OrderId := 3, Account := "x", Price := 100, Quantity := 2 },
             { OrderId := 7, Account := "y", Price := 100, Quantity := 4 }],
            some [{ OrderId := 3, Account := "x", Price := 100, Quantity := 2 },
                  { OrderId := 7, Account := "y", Price := 100, Quantity := 4 }]) := by
  decide

end ContractRunProperties

end Dex
